import Mathlib

/-!
Bounded-buffer character-device drivers: shallow embedding.

The definitions below embed the file operations of
`29_using_misc_driver_with_yours/using_misc_driver_with_yours.c`
(`myRead`, `myWrite`, `myLseek`, `myioctl`) and the single-open gate of
`24_single_device_open_once_at_time/single_device_open_once_at_time.c`
(`myOpen`, `myRelease`).  `myRead`, `myWrite` and `myLseek` occur with the same text in
`single_device_open_once_at_time.c` (on the same two globals) and in
`multiple_device_nodes_private_data.c` (on the two fields of one `struct msg_device`,
reached through `file->private_data`), so `Dev` below also stands for one
`struct msg_device`.  The namespaces `MultiDev` and `MultiDevOther` embed the module
initialisation of `multiple_device_nodes_private_data.c` and of
`multiple_device_nodes_private_data_other_version.c` as the sequence of registration
calls they make, the file operations of the former on the array `msg_devices`, and
`myRead`, `myWrite` and `myLseek` of the latter.  `SingleOpen` also holds the interleaved
model of the gate for several callers, `OldOffset` the `myRead` of
`copy_to_user_buffer_offset_old.c`, and `PseudoOverlay` the `pseudo_read` of the
device-tree overlay driver.

Conventions.
* `loff_t`, `ssize_t` are 64-bit signed, `size_t`/`unsigned long` 64-bit unsigned,
  `int`/`atomic_t` 32-bit signed.  Values are `Int`/`Nat`; every C arithmetic
  result is reduced with `s64`, `s32` or `u64` (the kernel is built with wrapping
  signed arithmetic).
* A kernel-buffer access outside `kernel_buffer[0 .. MAX_SIZE)` is undefined
  behaviour in C; the embedding returns `none` there.
* The user side of `copy_to_user` / `copy_from_user` is the number of bytes the
  user pointer can accept, resp. the list of bytes readable at the user pointer;
  a request that runs past it faults after the accessible part.
-/

namespace CharDev

/-! ## Machine integers and constants -/

/-- One byte of the `char kernel_buffer[]`. -/
abbrev Byte := Fin 256

/-- Reduce an integer to the 64-bit signed range (`loff_t`, `ssize_t`, `long`). -/
def s64 (x : Int) : Int := (x + 9223372036854775808) % 18446744073709551616 - 9223372036854775808

/-- Reduce an integer to the 32-bit signed range (`int`, `atomic_t`). -/
def s32 (x : Int) : Int := (x + 2147483648) % 4294967296 - 2147483648

/-- Conversion to `size_t` / `unsigned long` (64-bit unsigned). -/
def u64 (x : Int) : Nat := (x % 18446744073709551616).toNat

/-- The errno `EFAULT`. -/
def EFAULT : Int := 14
/-- The errno `EBUSY`. -/
def EBUSY : Int := 16
/-- The errno `EINVAL`. -/
def EINVAL : Int := 22
/-- The errno `ENOTTY`. -/
def ENOTTY : Int := 25
/-- The errno `ENOSPC`. -/
def ENOSPC : Int := 28

/-- The `whence` value `SEEK_SET`. -/
def SEEK_SET : Int := 0
/-- The `whence` value `SEEK_CUR`. -/
def SEEK_CUR : Int := 1
/-- The `whence` value `SEEK_END`. -/
def SEEK_END : Int := 2

/-- The macro `#define MAX_SIZE 1024`. -/
def MAX_SIZE : Nat := 1024

/-! ## Kernel primitives used by the drivers -/

/-- Kernel primitive `copy_to_user(to, from, n)`: `user_room` is the number of bytes
writable at `to`, `src` the `n` kernel bytes at `from`.  Returns the bytes stored at
`to` and the number of bytes that could not be copied. -/
def copy_to_user (user_room : Nat) (src : List Byte) (n : Nat) : List Byte × Nat :=
  (src.take (min n user_room), n - min n user_room)

/-- Kernel primitive `copy_from_user(to, from, n)`: `user_buffer` is the list of bytes
readable at `from`.  Returns the `n` bytes stored at `to` (the part that could not be
fetched is zero-filled) and the number of bytes that could not be copied. -/
def copy_from_user (user_buffer : List Byte) (n : Nat) : List Byte × Nat :=
  (user_buffer.take (min n user_buffer.length) ++ List.replicate (n - min n user_buffer.length) 0,
   n - min n user_buffer.length)

/-- The `n` bytes of `kernel_buffer` starting at `kernel_buffer + off`. -/
def loadBytes (kernel_buffer : List Byte) (off : Int) (n : Nat) : List Byte :=
  (kernel_buffer.drop off.toNat).take n

/-- The array `kernel_buffer` after `bytes` have been stored at `kernel_buffer + off`. -/
def storeBytes (kernel_buffer : List Byte) (off : Int) (bytes : List Byte) : List Byte :=
  kernel_buffer.take off.toNat ++ bytes ++ kernel_buffer.drop (off.toNat + bytes.length)

/-- The access `[off, off + n)` stays inside `char kernel_buffer[MAX_SIZE]`. -/
def inBounds (off : Int) (n : Nat) : Prop := 0 ≤ off ∧ off + n ≤ MAX_SIZE

instance (off : Int) (n : Nat) : Decidable (inBounds off n) := by
  unfold inBounds; infer_instance

/-! ## Driver state: `using_misc_driver_with_yours.c` -/

/-- The globals `char kernel_buffer[MAX_SIZE]; int kernel_buffer_index;`. -/
structure Dev where
  kernel_buffer : List Byte
  kernel_buffer_index : Int
deriving DecidableEq

/-- The module state right after loading: a zero-initialised buffer and index. -/
def fresh : Dev := ⟨List.replicate MAX_SIZE 0, 0⟩

/-- Outcome of `myRead`: the return value, `*offset` at return and the bytes that
were stored at `user_buffer`. -/
structure ReadResult where
  ret : Int
  offset : Int
  user_buffer : List Byte
deriving DecidableEq

/-- Outcome of `myWrite`: the return value, `*offset` at return and the globals. -/
structure WriteResult where
  ret : Int
  offset : Int
  dev : Dev
deriving DecidableEq

/-- Outcome of `myLseek`: the return value and `file->f_pos` at return. -/
structure SeekResult where
  ret : Int
  f_pos : Int
deriving DecidableEq

/-- The function `myRead(file, user_buffer, user_lenght, offset)`; `offset` is the
value of `*offset` at entry, `user_room` the number of bytes writable at
`user_buffer`. -/
def myRead (d : Dev) (user_room : Nat) (user_lenght : Nat) (offset : Int) : Option ReadResult :=
  if offset ≥ d.kernel_buffer_index then
    some ⟨0, offset, []⟩
  else
    let least : Nat := min user_lenght (u64 (s64 (d.kernel_buffer_index - offset)))
    let bytes_to_read : Int := s64 least
    if bytes_to_read = 0 then
      some ⟨0, offset, []⟩
    else if inBounds offset (u64 bytes_to_read) then
      let r := copy_to_user user_room (loadBytes d.kernel_buffer offset (u64 bytes_to_read))
        (u64 bytes_to_read)
      if r.2 ≠ 0 then
        some ⟨-EFAULT, offset, r.1⟩
      else
        some ⟨bytes_to_read, s64 (offset + bytes_to_read), r.1⟩
    else
      none

/-- The function `myWrite(file, user_buffer, user_lenght, offset)`; `offset` is the
value of `*offset` at entry, `user_buffer` the bytes readable at the user pointer. -/
def myWrite (d : Dev) (user_buffer : List Byte) (user_lenght : Nat) (offset : Int) :
    Option WriteResult :=
  if offset ≥ MAX_SIZE then
    some ⟨-ENOSPC, offset, d⟩
  else
    let least : Nat := min user_lenght (u64 (s64 (MAX_SIZE - offset)))
    let bytes_to_write : Int := s64 least
    if bytes_to_write = 0 then
      some ⟨-ENOSPC, offset, d⟩
    else if inBounds offset (u64 bytes_to_write) then
      let r := copy_from_user user_buffer (u64 bytes_to_write)
      let d1 : Dev := { d with kernel_buffer := storeBytes d.kernel_buffer offset r.1 }
      if r.2 ≠ 0 then
        some ⟨-EFAULT, offset, d1⟩
      else
        let offset1 := s64 (offset + bytes_to_write)
        if offset1 > d1.kernel_buffer_index then
          some ⟨bytes_to_write, offset1, { d1 with kernel_buffer_index := s32 offset1 }⟩
        else
          some ⟨bytes_to_write, offset1, d1⟩
    else
      none

/-- The function `myLseek(file, offset, whence)`; `f_pos` is `file->f_pos` at entry. -/
def myLseek (d : Dev) (f_pos : Int) (offset : Int) (whence : Int) : SeekResult :=
  let target : Option Int :=
    if whence = SEEK_SET then some offset
    else if whence = SEEK_CUR then some (s64 (f_pos + offset))
    else if whence = SEEK_END then some (s64 (d.kernel_buffer_index + offset))
    else none
  match target with
  | none => ⟨-EINVAL, f_pos⟩
  | some new_pos =>
    if new_pos < 0 then
      ⟨-EINVAL, f_pos⟩
    else
      let new_pos := if new_pos > MAX_SIZE then (MAX_SIZE : Int) else new_pos
      ⟨new_pos, new_pos⟩

/-- The position `new` of the seek rule as the specification words it, in exact
integer arithmetic: `offset` from the start, `cursor + offset` from the current
position, `valid_length + offset` from the end. -/
def seekNew (valid_length cursor offset whence : Int) : Int :=
  if whence = SEEK_SET then offset
  else if whence = SEEK_CUR then cursor + offset
  else valid_length + offset

/-! ## The control channel `myioctl` -/

/-- Kernel macro `_IOC_NR(cmd)`: bits 0..7 of the command word. -/
def IOC_NR (cmd : Nat) : Nat := cmd % 256

/-- Kernel macro `_IOC_TYPE(cmd)`: bits 8..15 of the command word. -/
def IOC_TYPE (cmd : Nat) : Nat := (cmd / 256) % 256

/-- Kernel macro `_IOC_SIZE(cmd)`: bits 16..29 of the command word. -/
def IOC_SIZE (cmd : Nat) : Nat := (cmd / 65536) % 16384

/-- Kernel macro `_IOC(dir, type, nr, size)` that builds a command word. -/
def IOC (dir type nr size : Nat) : Nat := dir * 1073741824 + size * 65536 + type * 256 + nr

/-- The constants that the driver takes from `ioctl_cmd.h`.  The header is not among
the sources, so the driver is embedded for an arbitrary header. -/
structure IoctlCmds where
  MSG_MAGIC_NUMBER : Nat
  MSG_IOCTL_MAX_CMDS : Nat
  MSG_IOCTL_GET_LENGTH : Nat
  MSG_IOCTL_CLEAR_BUFFER : Nat
  MSG_IOCTL_FILL_BUFFER : Nat
  MSG_GET_ADDRESS : Nat
deriving DecidableEq

/-- A sample `ioctl_cmd.h`: magic `0x21`, commands `_IOR(.., 1, unsigned int)`,
`_IO(.., 2)`, `_IOW(.., 3, unsigned char)`, `_IOR(.., 4, unsigned long)`, four commands. -/
def sampleCmds : IoctlCmds where
  MSG_MAGIC_NUMBER := 33
  MSG_IOCTL_MAX_CMDS := 4
  MSG_IOCTL_GET_LENGTH := IOC 2 33 1 4
  MSG_IOCTL_CLEAR_BUFFER := IOC 0 33 2 0
  MSG_IOCTL_FILL_BUFFER := IOC 1 33 3 1
  MSG_GET_ADDRESS := IOC 2 33 4 8

/-- The caller's side of one `myioctl` call: the verdict of `access_ok(arg, size)`,
the byte `get_user` fetches at an address (`none` when the fetch faults), whether
`put_user` can store at an address, and the address of `kernel_buffer`. -/
structure IoctlEnv where
  access_ok : Nat → Nat → Bool
  get_user : Nat → Option Byte
  put_user_ok : Nat → Bool
  kernel_buffer_addr : Nat

/-- Outcome of `myioctl`: the return value, the globals, and the word stored at
`arg` by `put_user` (when one was stored). -/
structure IoctlResult where
  ret : Int
  dev : Dev
  stored : Option Nat
deriving DecidableEq

/-- Kernel primitive `memset(buf, ch, n)` on a byte array. -/
def memset (buf : List Byte) (ch : Byte) (n : Nat) : List Byte :=
  List.replicate n ch ++ buf.drop n

/-- The function `myioctl(file, cmd, arg)`.  The `switch` is read as the chain of its
cases in source order. -/
def myioctl (c : IoctlCmds) (env : IoctlEnv) (d : Dev) (cmd : Nat) (arg : Nat) : IoctlResult :=
  if IOC_TYPE cmd ≠ c.MSG_MAGIC_NUMBER then
    ⟨-ENOTTY, d, none⟩
  else if IOC_NR cmd > c.MSG_IOCTL_MAX_CMDS then
    ⟨-ENOTTY, d, none⟩
  else
    let size := IOC_SIZE cmd
    let returnValue := env.access_ok arg size
    if returnValue = false then
      ⟨-EFAULT, d, none⟩
    else if cmd = c.MSG_IOCTL_GET_LENGTH then
      if env.put_user_ok arg = false then ⟨-EFAULT, d, none⟩ else ⟨0, d, some MAX_SIZE⟩
    else if cmd = c.MSG_IOCTL_CLEAR_BUFFER then
      ⟨0, ⟨memset d.kernel_buffer 0 MAX_SIZE, 0⟩, none⟩
    else if cmd = c.MSG_IOCTL_FILL_BUFFER then
      let ch : Byte := (env.get_user arg).getD 0
      ⟨0, ⟨memset d.kernel_buffer ch MAX_SIZE, s32 ((MAX_SIZE : Int) - 1)⟩, none⟩
    else if cmd = c.MSG_GET_ADDRESS then
      ⟨0, d, if env.put_user_ok arg then some env.kernel_buffer_addr else none⟩
    else
      ⟨-ENOTTY, d, none⟩

/-! ## One open file on the device -/

/-- The device globals together with `file->f_pos` of the open file. -/
structure Sys where
  dev : Dev
  f_pos : Int
deriving DecidableEq

/-- A call made on the open file. -/
inductive Op where
  | read (user_room user_lenght : Nat)
  | write (user_buffer : List Byte) (user_lenght : Nat)
  | lseek (offset whence : Int)
  | ioctl (env : IoctlEnv) (cmd arg : Nat)

/-- One call on the open file.  `read`/`write` hand the driver a copy of `f_pos` and
store it back when the driver does not return an error, as the kernel does. -/
def step (c : IoctlCmds) (s : Sys) : Op → Option Sys
  | .read user_room user_lenght =>
    (myRead s.dev user_room user_lenght s.f_pos).map fun r =>
      ⟨s.dev, if r.ret ≥ 0 then r.offset else s.f_pos⟩
  | .write user_buffer user_lenght =>
    (myWrite s.dev user_buffer user_lenght s.f_pos).map fun r =>
      ⟨r.dev, if r.ret ≥ 0 then r.offset else s.f_pos⟩
  | .lseek offset whence => some ⟨s.dev, (myLseek s.dev s.f_pos offset whence).f_pos⟩
  | .ioctl env cmd arg => some ⟨(myioctl c env s.dev cmd arg).dev, s.f_pos⟩

/-- A finite sequence of calls on the open file, in order. -/
def run (c : IoctlCmds) : Sys → List Op → Option Sys
  | s, [] => some s
  | s, op :: ops => (step c s op).bind fun s1 => run c s1 ops

/-- The state invariant of the data model: the buffer has `MAX_SIZE` bytes, and the
high-water mark and the cursor lie in `[0, MAX_SIZE]`. -/
def Sys.Valid (s : Sys) : Prop :=
  s.dev.kernel_buffer.length = MAX_SIZE ∧
  0 ≤ s.dev.kernel_buffer_index ∧ s.dev.kernel_buffer_index ≤ MAX_SIZE ∧
  0 ≤ s.f_pos ∧ s.f_pos ≤ MAX_SIZE

/-- The function `myOpen(inode, file)` of `using_misc_driver_with_yours.c`: the return
value and `file->f_pos` at return. -/
def myOpen (_f_pos : Int) : Int × Int := (0, 0)

/-- The function `myRelease(inode, file)` of `using_misc_driver_with_yours.c`: the
return value. -/
def myRelease : Int := 0

/-- A `close` of the open file: the kernel calls `myRelease` and drops the file; the
globals stay.  Returns the result of the call and the globals. -/
def sessionClose (s : Sys) : Int × Dev := (myRelease, s.dev)

/-- An `open` on the device: the kernel hands `myOpen` a new file.  Returns the result
of the call and the globals with the new file. -/
def sessionOpen (d : Dev) : Int × Sys := ((myOpen 0).1, ⟨d, (myOpen 0).2⟩)

end CharDev

/-! ## The single-open gate: `single_device_open_once_at_time.c` -/

namespace SingleOpen

open CharDev (s32 EBUSY)

/-- Kernel primitive `atomic_dec_and_test(v)`: the counter after the decrement and
whether it is zero. -/
def atomic_dec_and_test (v : Int) : Int × Bool :=
  (s32 (v - 1), decide (s32 (v - 1) = 0))

/-- Kernel primitive `atomic_inc(v)`: the counter after the increment. -/
def atomic_inc (v : Int) : Int := s32 (v + 1)

/-- Outcome of `myOpen`: the return value, the counter `device_available` and
`file->f_pos` at return. -/
structure OpenResult where
  ret : Int
  device_available : Int
  f_pos : Int
deriving DecidableEq

/-- The function `myOpen(inode, file)` on the counter `device_available`. -/
def myOpen (device_available : Int) (f_pos : Int) : OpenResult :=
  let r := atomic_dec_and_test device_available
  let returnValue : Int := if r.2 then 1 else 0
  if returnValue = 0 then
    ⟨-EBUSY, atomic_inc r.1, f_pos⟩
  else
    ⟨0, r.1, 0⟩

/-- The function `myRelease(inode, file)`: the return value and the counter. -/
def myRelease (device_available : Int) : Int × Int :=
  (0, atomic_inc device_available)

/-- The gate counter and the `f_pos` of every open file (session) of the device. -/
structure GateSys where
  device_available : Int
  sessions : List Int
deriving DecidableEq

/-- The state after module load: `ATOMIC_INIT(1)` and no open file. -/
def init : GateSys := ⟨1, []⟩

/-- An `open` call: the kernel hands `myOpen` a new file (`f_pos = 0`) and keeps the
file only when `myOpen` returns 0.  Returns the result of the call and the state. -/
def sysOpen (s : GateSys) : Int × GateSys :=
  let r := myOpen s.device_available 0
  if r.ret = 0 then
    (r.ret, ⟨r.device_available, s.sessions ++ [r.f_pos]⟩)
  else
    (r.ret, ⟨r.device_available, s.sessions⟩)

/-- A `close` of the open file number `i`: the kernel calls `myRelease` and drops
the file.  Nothing happens when there is no such file. -/
def sysClose (s : GateSys) (i : Nat) : GateSys :=
  if i < s.sessions.length then
    ⟨(myRelease s.device_available).2, s.sessions.eraseIdx i⟩
  else
    s

/-- A call on the gated device: an `open`, or a `close` of the open file number `i`. -/
inductive GateOp where
  | openFile
  | closeFile (i : Nat)
deriving DecidableEq

/-- One `open` or `close` call on the gated device. -/
def gateStep (s : GateSys) : GateOp → GateSys
  | .openFile => (sysOpen s).2
  | .closeFile i => sysClose s i

/-- A finite sequence of `open` and `close` calls, in order. -/
def gateRun : GateSys → List GateOp → GateSys
  | s, [] => s
  | s, op :: ops => gateRun (gateStep s op) ops

/-- Where one of several concurrent callers stands: in no call and with no session;
inside `myOpen` between an `atomic_dec_and_test` that returned false and the
`atomic_inc`; or with its session open (`myOpen` returned 0). -/
inductive Caller where
  | idle
  | refused
  | holding
deriving DecidableEq

/-- The gate counter shared by the callers, and where each caller stands. -/
structure ConcSys where
  device_available : Int
  callers : List Caller

/-- One atomic step of caller `i`: an idle caller enters `myOpen` and executes
`atomic_dec_and_test`; a refused caller executes the `atomic_inc` and returns `-EBUSY`;
a holding caller closes its session, which executes the `atomic_inc` of `myRelease`. -/
def concStep (s : ConcSys) (i : Nat) : ConcSys :=
  match s.callers[i]? with
  | none => s
  | some Caller.idle =>
    let r := atomic_dec_and_test s.device_available
    let returnValue : Int := if r.2 then 1 else 0
    if returnValue = 0 then
      ⟨r.1, s.callers.set i Caller.refused⟩
    else
      ⟨r.1, s.callers.set i Caller.holding⟩
  | some Caller.refused => ⟨atomic_inc s.device_available, s.callers.set i Caller.idle⟩
  | some Caller.holding => ⟨(myRelease s.device_available).2, s.callers.set i Caller.idle⟩

/-- An interleaving: the callers take their atomic steps in the order of the schedule. -/
def concRun : ConcSys → List Nat → ConcSys
  | s, [] => s
  | s, i :: schedule => concRun (concStep s i) schedule

/-- The state after module load with `n` callers: `ATOMIC_INIT(1)`, every caller idle. -/
def concInit (n : Nat) : ConcSys := ⟨1, List.replicate n Caller.idle⟩

/-- The invariant of the interleaved gate: with `n` callers, the counter is 1 minus the
number of holding and refused callers, and at most one caller holds. -/
def ConcInv (n : Nat) (s : ConcSys) : Prop :=
  s.callers.length = n ∧
  s.device_available
    = 1 - ((s.callers.count Caller.holding + s.callers.count Caller.refused : Nat) : Int) ∧
  s.callers.count Caller.holding ≤ 1

end SingleOpen

/-! ## The multi-instance driver: `multiple_device_nodes_private_data.c` -/

namespace MultiDev

open CharDev (Byte Dev ReadResult SeekResult MAX_SIZE)

/-- The macro `#define MAX_DEVICES 5`. -/
def MAX_DEVICES : Nat := 5

/-- A call that module initialisation makes into the kernel's registration interface;
device numbers are given as major and minor. -/
inductive KCall where
  | alloc_chrdev_region (baseminor count : Int)
  | unregister_chrdev_region (major minor count : Int)
  | class_create
  | class_destroy
  | device_create (major minor index : Int)
  | device_destroy (major minor : Int)
  | cdev_init (index : Nat)
  | cdev_add (index : Nat) (major minor : Int)
  | cdev_del (index : Nat)
deriving DecidableEq

/-- What the kernel answers to the registration calls: the return value of
`alloc_chrdev_region` and the major it assigns, the error of `class_create` and of each
`device_create` (`none` when the call succeeds), the return value of each `cdev_add`. -/
structure InitEnv where
  alloc_chrdev_region : Int
  major : Int
  class_create : Option Int
  device_create : Nat → Option Int
  cdev_add : Nat → Int

/-- Outcome of `multiple_device_init`: the return value, the registration calls made, in
order, and the array `msg_devices`. -/
structure InitResult where
  ret : Int
  calls : List KCall
  msg_devices : List Dev

/-- The assignment `msg_devices[device_index].kernel_buffer_index = 0`. -/
def resetIndex (msg_devices : List Dev) (device_index : Nat) : List Dev :=
  match msg_devices[device_index]? with
  | none => msg_devices
  | some d => msg_devices.set device_index { d with kernel_buffer_index := 0 }

/-- The loop `for (device_index = 0; device_index < MAX_DEVICES; device_index++)` of
`multiple_device_init`, with `todo` iterations left, and the `return 0` after it. -/
def initLoop (env : InitEnv) (count : Int) :
    Nat → Nat → List KCall → List Dev → InitResult
  | 0, _, calls, msg_devices => ⟨0, calls, msg_devices⟩
  | todo + 1, device_index, calls, msg_devices =>
    let calls1 := calls ++ [KCall.device_create env.major device_index device_index]
    match env.device_create device_index with
    | some err =>
      ⟨err, calls1 ++ [KCall.class_destroy,
        KCall.unregister_chrdev_region env.major device_index count], msg_devices⟩
    | none =>
      let msg_devices1 := resetIndex msg_devices device_index
      let calls2 := calls1 ++ [KCall.cdev_init device_index,
        KCall.cdev_add device_index env.major device_index]
      if env.cdev_add device_index < 0 then
        ⟨env.cdev_add device_index, calls2 ++ [KCall.class_destroy,
          KCall.cdev_del device_index,
          KCall.unregister_chrdev_region env.major device_index count], msg_devices1⟩
      else
        initLoop env count todo (device_index + 1) calls2 msg_devices1

/-- The function `multiple_device_init()` for the module parameters `basecount` and
`count`. -/
def multiple_device_init (env : InitEnv) (basecount count : Int) (msg_devices : List Dev) :
    InitResult :=
  let calls := [KCall.alloc_chrdev_region basecount count]
  if env.alloc_chrdev_region ≠ 0 then
    ⟨env.alloc_chrdev_region, calls, msg_devices⟩
  else
    let calls1 := calls ++ [KCall.class_create]
    match env.class_create with
    | some err =>
      ⟨err, calls1 ++ [KCall.unregister_chrdev_region env.major basecount count], msg_devices⟩
    | none => initLoop env count MAX_DEVICES 0 calls1 msg_devices

/-- The part of `struct file` the driver uses: `private_data`, as the index in
`msg_devices` of the device it points to, and `f_pos`. -/
structure File where
  private_data : Nat
  f_pos : Int
deriving DecidableEq

/-- Outcome of `myWrite`: the return value, `*offset` at return and the array
`msg_devices`. -/
structure WriteResult where
  ret : Int
  offset : Int
  msg_devices : List Dev

/-- The function `myOpen(inode, file)`: `i_cdev` is the index of the device whose
`mycdev` the inode names, which `container_of` recovers.  Returns the return value and
the file. -/
def myOpen (i_cdev : Nat) (_file : File) : Int × File := (0, ⟨i_cdev, 0⟩)

/-- The function `myRead(file, user_buffer, user_lenght, offset)`: the text of
`CharDev.myRead`, on the device `file->private_data` points to. -/
def myRead (msg_devices : List Dev) (file : File) (user_room user_lenght : Nat)
    (offset : Int) : Option ReadResult :=
  match msg_devices[file.private_data]? with
  | none => none
  | some my_device => CharDev.myRead my_device user_room user_lenght offset

/-- The function `myWrite(file, user_buffer, user_lenght, offset)`: the text of
`CharDev.myWrite`, on the device `file->private_data` points to. -/
def myWrite (msg_devices : List Dev) (file : File) (user_buffer : List Byte)
    (user_lenght : Nat) (offset : Int) : Option WriteResult :=
  match msg_devices[file.private_data]? with
  | none => none
  | some my_device =>
    (CharDev.myWrite my_device user_buffer user_lenght offset).map fun r =>
      ⟨r.ret, r.offset, msg_devices.set file.private_data r.dev⟩

/-- The function `myLseek(file, offset, whence)`: the text of `CharDev.myLseek`, on the
device `file->private_data` points to. -/
def myLseek (msg_devices : List Dev) (file : File) (offset whence : Int) :
    Option SeekResult :=
  match msg_devices[file.private_data]? with
  | none => none
  | some my_device => some (CharDev.myLseek my_device file.f_pos offset whence)

/-- The array `msg_devices` and the open files (sessions) of the driver. -/
structure MSys where
  msg_devices : List Dev
  files : List File

/-- A call made on one open file. -/
inductive FileOp where
  | read (user_room user_lenght : Nat)
  | write (user_buffer : List Byte) (user_lenght : Nat)
  | lseek (offset whence : Int)

/-- One call on the open file number `k`.  `read`/`write` hand the driver a copy of
`f_pos` and store it back when the driver does not return an error. -/
def mstep (s : MSys) (k : Nat) (op : FileOp) : Option MSys :=
  match s.files[k]? with
  | none => none
  | some file =>
    match op with
    | .read user_room user_lenght =>
      (myRead s.msg_devices file user_room user_lenght file.f_pos).map fun r =>
        ⟨s.msg_devices,
         s.files.set k ⟨file.private_data, if r.ret ≥ 0 then r.offset else file.f_pos⟩⟩
    | .write user_buffer user_lenght =>
      (myWrite s.msg_devices file user_buffer user_lenght file.f_pos).map fun r =>
        ⟨r.msg_devices,
         s.files.set k ⟨file.private_data, if r.ret ≥ 0 then r.offset else file.f_pos⟩⟩
    | .lseek offset whence =>
      (myLseek s.msg_devices file offset whence).map fun r =>
        ⟨s.msg_devices, s.files.set k ⟨file.private_data, r.f_pos⟩⟩

end MultiDev

/-! ## The multi-instance driver: `multiple_device_nodes_private_data_other_version.c` -/

namespace MultiDevOther

open CharDev (Byte Dev ReadResult WriteResult SeekResult MAX_SIZE EINVAL EFAULT ENOSPC
  SEEK_SET SEEK_CUR SEEK_END s64 s32 u64 inBounds loadBytes storeBytes copy_to_user
  copy_from_user)
open MultiDev (KCall InitEnv InitResult MAX_DEVICES)

/-- Conversion to `unsigned int` / `dev_t` (32-bit unsigned). -/
def u32 (x : Int) : Nat := (x % 4294967296).toNat

/-- Kernel macro `MKDEV(ma, mi)`: `(ma << 20) | mi`, computed in 32-bit unsigned. -/
def MKDEV (ma mi : Int) : Nat := ((u32 ma * 1048576) % 4294967296) ||| u32 mi

/-- Kernel macro `MAJOR(dev)`: `dev >> 20`. -/
def MAJOR (dev : Nat) : Nat := dev / 1048576

/-- Kernel macro `MINOR(dev)`: the low 20 bits of `dev`. -/
def MINOR (dev : Nat) : Nat := dev % 1048576

/-- The value `temp_dev = MKDEV(MAJOR(device_number), basecount + i)`; `env.major` is
`MAJOR(device_number)`. -/
def tempDev (env : InitEnv) (basecount : Int) (i : Nat) : Nat :=
  MKDEV env.major (s32 (basecount + i))

/-- The `cleanup:` loop `while (--i >= 0)` entered with the value `i`. -/
def cleanupLoop (env : InitEnv) (basecount : Int) : Nat → List KCall
  | 0 => []
  | i + 1 =>
    [KCall.device_destroy (MAJOR (tempDev env basecount i)) (MINOR (tempDev env basecount i)),
      KCall.cdev_del i]
      ++ cleanupLoop env basecount i

/-- The statements from the label `cleanup:` to the `return ret`. -/
def cleanup (env : InitEnv) (basecount count : Int) (i : Nat) : List KCall :=
  cleanupLoop env basecount i
    ++ [KCall.class_destroy, KCall.unregister_chrdev_region env.major basecount count]

/-- The statement `memset(&msg_devices[i], 0, sizeof(struct msg_device))`. -/
def zeroDevice (msg_devices : List Dev) (i : Nat) : List Dev :=
  msg_devices.set i ⟨List.replicate MAX_SIZE 0, 0⟩

/-- The loop `for (i = 0; i < count; i++)` of `multiple_device_init`, with `todo`
iterations left, and the `return 0` after it. -/
def initLoop (env : InitEnv) (basecount count : Int) :
    Nat → Nat → List KCall → List Dev → InitResult
  | 0, _, calls, msg_devices => ⟨0, calls, msg_devices⟩
  | todo + 1, i, calls, msg_devices =>
    let temp_dev := tempDev env basecount i
    let calls1 := calls ++ [KCall.device_create (MAJOR temp_dev) (MINOR temp_dev) i]
    match env.device_create i with
    | some err => ⟨err, calls1 ++ cleanup env basecount count i, msg_devices⟩
    | none =>
      let msg_devices1 := zeroDevice msg_devices i
      let calls2 := calls1 ++ [KCall.cdev_init i,
        KCall.cdev_add i (MAJOR temp_dev) (MINOR temp_dev)]
      if env.cdev_add i ≠ 0 then
        ⟨env.cdev_add i, calls2 ++ [KCall.device_destroy (MAJOR temp_dev) (MINOR temp_dev)]
          ++ cleanup env basecount count i, msg_devices1⟩
      else
        initLoop env basecount count todo (i + 1) calls2 msg_devices1

/-- The function `multiple_device_init()` for the module parameters `basecount` and
`count`. -/
def multiple_device_init (env : InitEnv) (basecount count : Int) (msg_devices : List Dev) :
    InitResult :=
  if count > MAX_DEVICES then
    ⟨-EINVAL, [], msg_devices⟩
  else
    let calls := [KCall.alloc_chrdev_region basecount count]
    if env.alloc_chrdev_region ≠ 0 then
      ⟨env.alloc_chrdev_region, calls, msg_devices⟩
    else
      let calls1 := calls ++ [KCall.class_create]
      match env.class_create with
      | some err =>
        ⟨err, calls1 ++ [KCall.unregister_chrdev_region env.major basecount count],
          msg_devices⟩
      | none => initLoop env basecount count count.toNat 0 calls1 msg_devices

/-- The function `myRead(file, user_buffer, user_length, offset)` on the device
`file->private_data` points to. -/
def myRead (my_device : Dev) (user_room user_length : Nat) (offset : Int) :
    Option ReadResult :=
  if offset ≥ my_device.kernel_buffer_index then
    some ⟨0, offset, []⟩
  else
    let least : Nat := min user_length (u64 (s64 (my_device.kernel_buffer_index - offset)))
    let bytes_to_read : Int := s64 least
    if inBounds offset (u64 bytes_to_read) then
      let r := copy_to_user user_room
        (loadBytes my_device.kernel_buffer offset (u64 bytes_to_read)) (u64 bytes_to_read)
      if r.2 ≠ 0 then
        some ⟨-EFAULT, offset, r.1⟩
      else
        some ⟨bytes_to_read, s64 (offset + bytes_to_read), r.1⟩
    else
      none

/-- The function `myWrite(file, user_buffer, user_length, offset)` on the device
`file->private_data` points to. -/
def myWrite (my_device : Dev) (user_buffer : List Byte) (user_length : Nat) (offset : Int) :
    Option WriteResult :=
  if offset ≥ MAX_SIZE then
    some ⟨-ENOSPC, offset, my_device⟩
  else
    let least : Nat := min user_length (u64 (s64 (MAX_SIZE - offset)))
    let bytes_to_write : Int := s64 least
    if inBounds offset (u64 bytes_to_write) then
      let r := copy_from_user user_buffer (u64 bytes_to_write)
      let d1 : Dev :=
        { my_device with kernel_buffer := storeBytes my_device.kernel_buffer offset r.1 }
      if r.2 ≠ 0 then
        some ⟨-EFAULT, offset, d1⟩
      else
        let offset1 := s64 (offset + bytes_to_write)
        if offset1 > d1.kernel_buffer_index then
          some ⟨bytes_to_write, offset1, { d1 with kernel_buffer_index := s32 offset1 }⟩
        else
          some ⟨bytes_to_write, offset1, d1⟩
    else
      none

/-- The function `myLseek(file, offset, whence)` on the device `file->private_data`
points to; `f_pos` is `file->f_pos` at entry. -/
def myLseek (my_device : Dev) (f_pos : Int) (offset : Int) (whence : Int) : SeekResult :=
  let target : Option Int :=
    if whence = SEEK_SET then some offset
    else if whence = SEEK_CUR then some (s64 (f_pos + offset))
    else if whence = SEEK_END then some (s64 (my_device.kernel_buffer_index + offset))
    else none
  match target with
  | none => ⟨-EINVAL, f_pos⟩
  | some new_pos =>
    if new_pos < 0 then
      ⟨-EINVAL, f_pos⟩
    else
      let new_pos := if new_pos > MAX_SIZE then (MAX_SIZE : Int) else new_pos
      ⟨new_pos, new_pos⟩

end MultiDevOther

/-! ## The first variant: `copy_to_user_buffer_offset_old.c` -/

namespace OldOffset

open CharDev (Byte Dev ReadResult MAX_SIZE ENOSPC s64 u64 inBounds loadBytes copy_to_user)

/-- The function `myRead(file, user_buffer, len, offset)`; `offset` is the value of
`*offset` at entry, `user_room` the number of bytes writable at `user_buffer`.  The
result of `copy_to_user` is only logged. -/
def myRead (d : Dev) (user_room len : Nat) (offset : Int) : Option ReadResult :=
  if (u64 d.kernel_buffer_index + len) % 18446744073709551616 > MAX_SIZE then
    some ⟨-ENOSPC, offset, []⟩
  else if inBounds offset len then
    let r := copy_to_user user_room (loadBytes d.kernel_buffer offset len) len
    some ⟨s64 len, s64 (offset + len), r.1⟩
  else
    none

end OldOffset

/-! ## The device-tree overlay driver:
`36_pseudo_driver_with_from_device_tree_with_device_tree_overlay/pseudo_driver.c` -/

namespace PseudoOverlay

open CharDev (Byte ReadResult EFAULT s32 s64 u64 copy_to_user)

/-- The `struct pseudo_platform_data`: `some_value`, and the characters of `label`
before its terminating NUL. -/
structure pseudo_platform_data where
  some_value : Int
  label : List Byte
deriving DecidableEq

/-- The decimal digits of a natural number, as bytes. -/
def decimal (n : Nat) : List Byte :=
  (Nat.toDigits 10 n).map fun ch => ⟨ch.toNat % 256, Nat.mod_lt _ (by decide)⟩

/-- The conversion `%d` of `snprintf`. -/
def formatInt (v : Int) : List Byte :=
  if v < 0 then 45 :: decimal v.natAbs else decimal v.toNat

/-- The text `snprintf` produces for the format `Label=%s, Value=%d` and a newline, before
any truncation. -/
def formatMsg (pdata : pseudo_platform_data) : List Byte :=
  [76, 97, 98, 101, 108, 61] ++ pdata.label ++ [44, 32, 86, 97, 108, 117, 101, 61]
    ++ formatInt pdata.some_value ++ [10]

/-- The function `pseudo_read(file, buf, count, ppos)` for the platform data of the
device; `ppos` is the value of `*ppos` at entry, `user_room` the number of bytes writable
at `buf`.  `snprintf` stores at most 63 characters and a NUL in `msg[64]` and returns the
length of the whole text; a copy of more than the 64 bytes of `msg` is undefined. -/
def pseudo_read (pdata : pseudo_platform_data) (user_room : Nat) (_count : Nat) (ppos : Int) :
    Option ReadResult :=
  let msg : List Byte := (formatMsg pdata).take 63 ++ [0]
  let len : Int := s32 (formatMsg pdata).length
  if ppos ≥ len then
    some ⟨0, ppos, []⟩
  else if u64 len ≤ 64 then
    let r := copy_to_user user_room (msg.take (u64 len)) (u64 len)
    if r.2 ≠ 0 then
      some ⟨-EFAULT, ppos, r.1⟩
    else
      some ⟨len, s64 (ppos + len), r.1⟩
  else
    none

end PseudoOverlay

/-! ## Auxiliary facts -/

namespace CharDev

theorem s64_eq_self {x : Int} (h1 : -9223372036854775808 ≤ x) (h2 : x < 9223372036854775808) :
    s64 x = x := by
  unfold s64; omega

theorem s32_eq_self {x : Int} (h1 : -2147483648 ≤ x) (h2 : x < 2147483648) : s32 x = x := by
  unfold s32; omega

theorem u64_eq_toNat {x : Int} (h1 : 0 ≤ x) (h2 : x < 18446744073709551616) :
    u64 x = x.toNat := by
  unfold u64; omega

/-- The length computed by `myWrite` when the cursor is inside the buffer. -/
theorem bytes_to_write_eq (n : Nat) (offset : Int) (h0 : 0 ≤ offset) (h1 : offset < MAX_SIZE) :
    s64 ((min n (u64 (s64 ((MAX_SIZE : Int) - offset))) : Nat) : Int)
      = ((min n (MAX_SIZE - offset.toNat) : Nat) : Int) := by
  simp only [MAX_SIZE] at *
  have e1 : s64 ((1024 : Nat) - offset) = (1024 : Nat) - offset := s64_eq_self (by omega) (by omega)
  have e2 : u64 ((1024 : Nat) - offset) = 1024 - offset.toNat := by
    rw [u64_eq_toNat (by omega) (by omega)]; omega
  rw [e1, e2]
  exact s64_eq_self (by omega) (by omega)

theorem myWrite_inside (d : Dev) (user_buffer : List Byte) (user_lenght : Nat) (offset : Int)
    (h0 : 0 ≤ offset) (h1 : offset < MAX_SIZE) (hn : 0 < user_lenght)
    (hcopy : min user_lenght (MAX_SIZE - offset.toNat) ≤ user_buffer.length) :
    myWrite d user_buffer user_lenght offset = some
      ⟨(min user_lenght (MAX_SIZE - offset.toNat) : Nat),
       offset + (min user_lenght (MAX_SIZE - offset.toNat) : Nat),
       ⟨storeBytes d.kernel_buffer offset
          (user_buffer.take (min user_lenght (MAX_SIZE - offset.toNat))),
        max d.kernel_buffer_index (offset + (min user_lenght (MAX_SIZE - offset.toNat) : Nat))⟩⟩ := by
  have hb := bytes_to_write_eq user_lenght offset h0 h1
  unfold myWrite
  simp only [hb]
  generalize ha : min user_lenght (MAX_SIZE - offset.toNat) = a at *
  have ha1 : 0 < a := by simp only [MAX_SIZE] at *; omega
  have ha2 : offset + a ≤ 1024 := by simp only [MAX_SIZE] at *; omega
  have hu : u64 (a : Int) = a := by rw [u64_eq_toNat (by omega) (by omega)]; omega
  have hs : s64 (offset + a) = offset + a := s64_eq_self (by omega) (by omega)
  have h32 : s32 (offset + a) = offset + a := s32_eq_self (by omega) (by omega)
  have hnot : ¬ (offset ≥ (MAX_SIZE : Int)) := by omega
  have hne : ¬ ((a : Int) = 0) := by omega
  have hin : inBounds offset a := ⟨h0, by simp only [MAX_SIZE]; omega⟩
  have hmin : min a user_buffer.length = a := Nat.min_eq_left hcopy
  simp only [hnot, hne, hu, hs, h32, hin, if_true, if_false, copy_from_user, hmin, Nat.sub_self,
    List.replicate_zero, List.append_nil, ne_eq, not_true_eq_false]
  by_cases hk : offset + a > d.kernel_buffer_index
  · rw [if_pos hk, max_eq_right (le_of_lt hk)]
  · rw [if_neg hk, max_eq_left (not_lt.mp hk)]


theorem storeBytes_length (buf : List Byte) (off : Int) (bytes : List Byte)
    (h : off.toNat + bytes.length ≤ buf.length) :
    (storeBytes buf off bytes).length = buf.length := by
  simp only [storeBytes, List.length_append, List.length_take, List.length_drop]
  omega

theorem storeBytes_inside (buf : List Byte) (off : Int) (bytes : List Byte) (i : Nat)
    (h : off.toNat ≤ buf.length) (hi : i < bytes.length) :
    (storeBytes buf off bytes)[off.toNat + i]? = bytes[i]? := by
  have hl : (buf.take off.toNat).length = off.toNat := by
    rw [List.length_take]; omega
  unfold storeBytes
  rw [List.append_assoc, List.getElem?_append_right (by omega), hl,
    List.getElem?_append_left (by omega)]
  congr 1
  omega

theorem storeBytes_outside (buf : List Byte) (off : Int) (bytes : List Byte) (i : Nat)
    (h : off.toNat + bytes.length ≤ buf.length)
    (hi : i < off.toNat ∨ off.toNat + bytes.length ≤ i) :
    (storeBytes buf off bytes)[i]? = buf[i]? := by
  have hl : (buf.take off.toNat).length = off.toNat := by
    rw [List.length_take]; omega
  unfold storeBytes
  rcases hi with hi | hi
  · rw [List.append_assoc, List.getElem?_append_left (by omega), List.getElem?_take_of_lt hi]
  · rw [List.getElem?_append_right (by rw [List.length_append]; omega), List.getElem?_drop]
    congr 1
    rw [List.length_append]
    omega

theorem loadBytes_length (buf : List Byte) (off : Int) (n : Nat)
    (h : off.toNat + n ≤ buf.length) : (loadBytes buf off n).length = n := by
  simp only [loadBytes, List.length_take, List.length_drop]
  omega

theorem loadBytes_getElem? (buf : List Byte) (off : Int) (n i : Nat) (hi : i < n) :
    (loadBytes buf off n)[i]? = buf[off.toNat + i]? := by
  unfold loadBytes
  rw [List.getElem?_take_of_lt hi, List.getElem?_drop]


/-- The length computed by `myRead` when the cursor is below the high-water mark. -/
theorem bytes_to_read_eq (n : Nat) (offset kbi : Int) (h0 : 0 ≤ offset) (h1 : offset < kbi)
    (h2 : kbi ≤ MAX_SIZE) :
    s64 ((min n (u64 (s64 (kbi - offset))) : Nat) : Int)
      = ((min n (kbi - offset).toNat : Nat) : Int) := by
  simp only [MAX_SIZE] at *
  have e1 : s64 (kbi - offset) = kbi - offset := s64_eq_self (by omega) (by omega)
  have e2 : u64 (kbi - offset) = (kbi - offset).toNat := u64_eq_toNat (by omega) (by omega)
  rw [e1, e2]
  exact s64_eq_self (by omega) (by omega)

theorem myRead_inside (d : Dev) (user_room user_lenght : Nat) (offset : Int)
    (h0 : 0 ≤ offset) (h1 : offset < d.kernel_buffer_index)
    (h2 : d.kernel_buffer_index ≤ MAX_SIZE)
    (hcopy : min user_lenght (d.kernel_buffer_index - offset).toNat ≤ user_room) :
    myRead d user_room user_lenght offset = some
      ⟨(min user_lenght (d.kernel_buffer_index - offset).toNat : Nat),
       offset + (min user_lenght (d.kernel_buffer_index - offset).toNat : Nat),
       loadBytes d.kernel_buffer offset
         (min user_lenght (d.kernel_buffer_index - offset).toNat)⟩ := by
  have hb := bytes_to_read_eq user_lenght offset d.kernel_buffer_index h0 h1 h2
  unfold myRead
  simp only [hb]
  generalize ha : min user_lenght (d.kernel_buffer_index - offset).toNat = a at *
  have ha2 : offset + a ≤ 1024 := by simp only [MAX_SIZE] at *; omega
  have hnot : ¬ (offset ≥ d.kernel_buffer_index) := by omega
  rw [if_neg hnot]
  by_cases hz : (a : Int) = 0
  · have : a = 0 := by omega
    subst this
    simp [loadBytes]
  · have hu : u64 (a : Int) = a := by rw [u64_eq_toNat (by omega) (by omega)]; omega
    have hs : s64 (offset + a) = offset + a := s64_eq_self (by omega) (by omega)
    have hin : inBounds offset a := ⟨h0, by simp only [MAX_SIZE]; omega⟩
    have hmin : min a user_room = a := Nat.min_eq_left hcopy
    have htake : List.take a (loadBytes d.kernel_buffer offset a)
        = loadBytes d.kernel_buffer offset a := by
      unfold loadBytes; rw [List.take_take, Nat.min_self]
    simp only [hz, hu, hs, hin, if_true, if_false, copy_to_user, hmin, Nat.sub_self, ne_eq,
      not_true_eq_false, htake]


/-- On a cursor that is not negative `myRead` returns, never moves the cursor back and
never moves it past the high-water mark. -/
theorem myRead_total (d : Dev) (user_room user_lenght : Nat) (offset : Int)
    (h0 : 0 ≤ offset) (h2 : d.kernel_buffer_index ≤ MAX_SIZE) :
    ∃ r, myRead d user_room user_lenght offset = some r ∧
      (r.offset = offset ∨ (offset ≤ r.offset ∧ r.offset ≤ d.kernel_buffer_index)) := by
  by_cases hge : offset ≥ d.kernel_buffer_index
  · exact ⟨⟨0, offset, []⟩, by unfold myRead; rw [if_pos hge], Or.inl rfl⟩
  · have h1 : offset < d.kernel_buffer_index := by omega
    have hb := bytes_to_read_eq user_lenght offset d.kernel_buffer_index h0 h1 h2
    unfold myRead
    simp only [hb]
    generalize ha : min user_lenght (d.kernel_buffer_index - offset).toNat = a at *
    have ha2 : offset + a ≤ d.kernel_buffer_index := by omega
    rw [if_neg hge]
    by_cases hz : (a : Int) = 0
    · rw [if_pos hz]; exact ⟨_, rfl, Or.inl rfl⟩
    · have hu : u64 (a : Int) = a := by
        rw [u64_eq_toNat (by omega) (by simp only [MAX_SIZE] at *; omega)]; omega
      have hs : s64 (offset + a) = offset + a :=
        s64_eq_self (by omega) (by simp only [MAX_SIZE] at *; omega)
      have hin : inBounds offset a := ⟨h0, by omega⟩
      rw [if_neg hz, hu, hs, if_pos hin]
      split
      · exact ⟨_, rfl, Or.inl rfl⟩
      · exact ⟨_, rfl, Or.inr ⟨by simp only []; omega, by simp only []; omega⟩⟩

theorem copy_from_user_length (user_buffer : List Byte) (n : Nat) :
    (copy_from_user user_buffer n).1.length = n := by
  simp only [copy_from_user, List.length_append, List.length_take, List.length_replicate]
  omega

/-- On a cursor that is not negative `myWrite` returns; it keeps the size of the
buffer, never moves the cursor back or past `MAX_SIZE`, and never lowers the
high-water mark nor raises it above `MAX_SIZE`. -/
theorem myWrite_total (d : Dev) (user_buffer : List Byte) (user_lenght : Nat) (offset : Int)
    (h0 : 0 ≤ offset) (hlen : d.kernel_buffer.length = MAX_SIZE) :
    ∃ r, myWrite d user_buffer user_lenght offset = some r ∧
      r.dev.kernel_buffer.length = MAX_SIZE ∧
      (r.offset = offset ∨ (offset ≤ r.offset ∧ r.offset ≤ MAX_SIZE)) ∧
      d.kernel_buffer_index ≤ r.dev.kernel_buffer_index ∧
      (r.dev.kernel_buffer_index = d.kernel_buffer_index ∨
        r.dev.kernel_buffer_index ≤ MAX_SIZE) := by
  by_cases hge : offset ≥ (MAX_SIZE : Int)
  · exact ⟨⟨-ENOSPC, offset, d⟩, by unfold myWrite; rw [if_pos hge], hlen, Or.inl rfl,
      le_refl _, Or.inl rfl⟩
  · have h1 : offset < MAX_SIZE := by omega
    have hb := bytes_to_write_eq user_lenght offset h0 h1
    unfold myWrite
    simp only [hb]
    generalize ha : min user_lenght (MAX_SIZE - offset.toNat) = a at *
    have ha2 : offset + a ≤ 1024 := by simp only [MAX_SIZE] at *; omega
    rw [if_neg hge]
    by_cases hz : (a : Int) = 0
    · rw [if_pos hz]; exact ⟨_, rfl, hlen, Or.inl rfl, le_refl _, Or.inl rfl⟩
    · have hu : u64 (a : Int) = a := by rw [u64_eq_toNat (by omega) (by omega)]; omega
      have hs : s64 (offset + a) = offset + a := s64_eq_self (by omega) (by omega)
      have h32 : s32 (offset + a) = offset + a := s32_eq_self (by omega) (by omega)
      have hin : inBounds offset a := ⟨h0, by simp only [MAX_SIZE]; omega⟩
      have hst : (storeBytes d.kernel_buffer offset (copy_from_user user_buffer a).1).length
          = MAX_SIZE := by
        rw [storeBytes_length, hlen]
        rw [copy_from_user_length, hlen]; simp only [MAX_SIZE]; omega
      rw [if_neg hz, hu, hs, h32, if_pos hin]
      split
      · exact ⟨_, rfl, hst, Or.inl rfl, le_refl _, Or.inl rfl⟩
      · split
        · refine ⟨_, rfl, hst, Or.inr ⟨by simp only []; omega, by simp only [MAX_SIZE]; omega⟩, ?_, ?_⟩
          · simp only []; omega
          · right; simp only [MAX_SIZE]; omega
        · exact ⟨_, rfl, hst, Or.inr ⟨by simp only []; omega, by simp only [MAX_SIZE]; omega⟩,
            le_refl _, Or.inl rfl⟩

/-- The cursor that `myLseek` leaves is the old one or lies in `[0, MAX_SIZE]`. -/
theorem myLseek_f_pos (d : Dev) (f_pos offset whence : Int) :
    (myLseek d f_pos offset whence).f_pos = f_pos ∨
      (0 ≤ (myLseek d f_pos offset whence).f_pos ∧
        (myLseek d f_pos offset whence).f_pos ≤ MAX_SIZE) := by
  unfold myLseek
  simp only []
  split
  · exact Or.inl rfl
  · split
    · exact Or.inl rfl
    · right
      simp only []
      split <;> omega

theorem memset_length (buf : List Byte) (ch : Byte) (n : Nat) (h : n ≤ buf.length) :
    (memset buf ch n).length = buf.length := by
  simp only [memset, List.length_append, List.length_replicate, List.length_drop]
  omega

/-- After `myioctl` the high-water mark is the old one, 0 or `MAX_SIZE - 1`, and the
buffer keeps its size. -/
theorem myioctl_dev (c : IoctlCmds) (env : IoctlEnv) (d : Dev) (cmd arg : Nat)
    (hlen : d.kernel_buffer.length = MAX_SIZE) :
    (myioctl c env d cmd arg).dev.kernel_buffer.length = MAX_SIZE ∧
    ((myioctl c env d cmd arg).dev.kernel_buffer_index = d.kernel_buffer_index ∨
     (myioctl c env d cmd arg).dev.kernel_buffer_index = 0 ∨
     (myioctl c env d cmd arg).dev.kernel_buffer_index = (MAX_SIZE : Int) - 1) := by
  have hm : ∀ ch, (memset d.kernel_buffer ch MAX_SIZE).length = MAX_SIZE := fun ch => by
    rw [memset_length _ _ _ (le_of_eq hlen.symm), hlen]
  have h32 : s32 ((MAX_SIZE : Int) - 1) = (MAX_SIZE : Int) - 1 :=
    s32_eq_self (by simp only [MAX_SIZE]; omega) (by simp only [MAX_SIZE]; omega)
  unfold myioctl
  simp only [h32]
  repeat' split
  all_goals first
    | exact ⟨hlen, Or.inl rfl⟩
    | exact ⟨hm _, Or.inr (Or.inl rfl)⟩
    | exact ⟨hm _, Or.inr (Or.inr rfl)⟩

/-- Every call keeps the state invariant, and returns. -/
theorem step_valid (c : IoctlCmds) (s : Sys) (op : Op) (hv : s.Valid) :
    ∃ s1, step c s op = some s1 ∧ s1.Valid := by
  obtain ⟨hlen, hk0, hk1, hp0, hp1⟩ := hv
  cases op with
  | read user_room user_lenght =>
    obtain ⟨r, hr, hoff⟩ := myRead_total s.dev user_room user_lenght s.f_pos hp0 hk1
    refine ⟨⟨s.dev, if r.ret ≥ 0 then r.offset else s.f_pos⟩,
      by simp only [step, hr, Option.map_some'], hlen, hk0, hk1, ?_, ?_⟩
    · show 0 ≤ (if r.ret ≥ 0 then r.offset else s.f_pos)
      split <;> omega
    · show (if r.ret ≥ 0 then r.offset else s.f_pos) ≤ MAX_SIZE
      split <;> omega
  | write user_buffer user_lenght =>
    obtain ⟨r, hr, hl, hoff, hm1, hm2⟩ := myWrite_total s.dev user_buffer user_lenght s.f_pos hp0 hlen
    refine ⟨⟨r.dev, if r.ret ≥ 0 then r.offset else s.f_pos⟩,
      by simp only [step, hr, Option.map_some'], hl, ?_, ?_, ?_, ?_⟩
    · show 0 ≤ r.dev.kernel_buffer_index
      omega
    · show r.dev.kernel_buffer_index ≤ MAX_SIZE
      omega
    · show 0 ≤ (if r.ret ≥ 0 then r.offset else s.f_pos)
      split <;> omega
    · show (if r.ret ≥ 0 then r.offset else s.f_pos) ≤ MAX_SIZE
      split <;> omega
  | lseek offset whence =>
    have h := myLseek_f_pos s.dev s.f_pos offset whence
    refine ⟨_, rfl, hlen, hk0, hk1, ?_, ?_⟩
    · simp only []; omega
    · simp only []; omega
  | ioctl env cmd arg =>
    obtain ⟨h1, h2⟩ := myioctl_dev c env s.dev cmd arg hlen
    refine ⟨_, rfl, h1, ?_, ?_, hp0, hp1⟩
    · simp only []; simp only [MAX_SIZE] at *; omega
    · simp only []; simp only [MAX_SIZE] at *; omega

/-- Every sequence of calls keeps the state invariant, and returns. -/
theorem run_valid (c : IoctlCmds) (ops : List Op) :
    ∀ s : Sys, s.Valid → ∃ s1, run c s ops = some s1 ∧ s1.Valid := by
  induction ops with
  | nil => exact fun s hv => ⟨s, rfl, hv⟩
  | cons op ops ih =>
    intro s hv
    obtain ⟨s1, h1, hv1⟩ := step_valid c s op hv
    obtain ⟨s2, h2, hv2⟩ := ih s1 hv1
    exact ⟨s2, by simp only [run, h1, Option.some_bind, h2], hv2⟩


theorem fresh_valid : (⟨fresh, 0⟩ : Sys).Valid :=
  ⟨List.length_replicate _ _, le_refl _, by simp only [fresh, MAX_SIZE]; omega, le_refl _,
    by simp only [MAX_SIZE]; omega⟩

/-! ## The claims -/

/-- C1: Capacity invariant.  Starting from a fresh instance (high-water mark 0, cursor 0),
every finite sequence of reads, writes, seeks and control commands returns, and leaves
the high-water mark `kernel_buffer_index` in `[0, MAX_SIZE]`. -/
theorem capacity_invariant (c : IoctlCmds) (ops : List Op) :
    ∃ s, run c ⟨fresh, 0⟩ ops = some s ∧
      0 ≤ s.dev.kernel_buffer_index ∧ s.dev.kernel_buffer_index ≤ MAX_SIZE := by
  obtain ⟨s, hs, hv⟩ := run_valid c ops ⟨fresh, 0⟩ fresh_valid
  exact ⟨s, hs, hv.2.1, hv.2.2.1⟩

/-- C2: Monotonicity fails on the code.  For every header in which the fill command is
well formed and every accessible argument, writing `MAX_SIZE` bytes to a fresh instance
raises the high-water mark to `MAX_SIZE`, and the fill command that follows succeeds
and lowers it to `MAX_SIZE - 1`. -/
theorem fill_buffer_lowers_valid_length (c : IoctlCmds) (env : IoctlEnv) (arg : Nat)
    (user_buffer : List Byte) (hlen : user_buffer.length = MAX_SIZE)
    (htype : IOC_TYPE c.MSG_IOCTL_FILL_BUFFER = c.MSG_MAGIC_NUMBER)
    (hnr : IOC_NR c.MSG_IOCTL_FILL_BUFFER ≤ c.MSG_IOCTL_MAX_CMDS)
    (hget : c.MSG_IOCTL_FILL_BUFFER ≠ c.MSG_IOCTL_GET_LENGTH)
    (hclear : c.MSG_IOCTL_FILL_BUFFER ≠ c.MSG_IOCTL_CLEAR_BUFFER)
    (hok : env.access_ok arg (IOC_SIZE c.MSG_IOCTL_FILL_BUFFER) = true) :
    ∃ s1 s2, run c ⟨fresh, 0⟩ [.write user_buffer MAX_SIZE] = some s1 ∧
      s1.dev.kernel_buffer_index = MAX_SIZE ∧
      (myioctl c env s1.dev c.MSG_IOCTL_FILL_BUFFER arg).ret = 0 ∧
      step c s1 (.ioctl env c.MSG_IOCTL_FILL_BUFFER arg) = some s2 ∧
      s2.dev.kernel_buffer_index = (MAX_SIZE : Int) - 1 ∧
      s2.dev.kernel_buffer_index < s1.dev.kernel_buffer_index := by
  have hw := myWrite_inside fresh user_buffer MAX_SIZE 0 (le_refl _)
    (by simp only [MAX_SIZE]; omega) (by simp only [MAX_SIZE]; omega)
    (by simp only [MAX_SIZE] at *; omega)
  have h32 : s32 ((MAX_SIZE : Int) - 1) = (MAX_SIZE : Int) - 1 :=
    s32_eq_self (by simp only [MAX_SIZE]; omega) (by simp only [MAX_SIZE]; omega)
  have hio : ∀ d : Dev, myioctl c env d c.MSG_IOCTL_FILL_BUFFER arg =
      ⟨0, ⟨memset d.kernel_buffer ((env.get_user arg).getD 0) MAX_SIZE, (MAX_SIZE : Int) - 1⟩,
        none⟩ := by
    intro d
    unfold myioctl
    simp only [htype, hok, hget, hclear, h32, ne_eq, not_true_eq_false, if_false, if_true,
      gt_iff_lt, Nat.not_lt.mpr hnr, Bool.true_eq_false]
  have hrun : run c ⟨fresh, 0⟩ [.write user_buffer MAX_SIZE] = some
      ⟨⟨storeBytes fresh.kernel_buffer 0 (user_buffer.take (min MAX_SIZE (MAX_SIZE - Int.toNat 0))),
        max fresh.kernel_buffer_index (0 + (min MAX_SIZE (MAX_SIZE - Int.toNat 0) : Nat))⟩,
       if ((min MAX_SIZE (MAX_SIZE - Int.toNat 0) : Nat) : Int) ≥ 0
         then 0 + ((min MAX_SIZE (MAX_SIZE - Int.toNat 0) : Nat) : Int) else 0⟩ := by
    simp only [run, step, hw, Option.map_some', Option.some_bind]
  have hk : max fresh.kernel_buffer_index (0 + ((min MAX_SIZE (MAX_SIZE - Int.toNat 0) : Nat) : Int))
      = (MAX_SIZE : Int) := by
    simp only [fresh, MAX_SIZE]; omega
  refine ⟨_, _, hrun, hk, ?_, rfl, ?_, ?_⟩
  · rw [hio]
  · rw [hio]
  · rw [hio]
    show (MAX_SIZE : Int) - 1
      < max fresh.kernel_buffer_index (0 + ((min MAX_SIZE (MAX_SIZE - Int.toNat 0) : Nat) : Int))
    rw [hk]; omega

/-- C2, at a concrete input: the sample header, 1024 bytes `0x41` and the fill byte
`0x42`. -/
theorem fill_buffer_lowers_valid_length_witness :
    ∃ s1 s2, run sampleCmds ⟨fresh, 0⟩ [.write (List.replicate 1024 65) MAX_SIZE] = some s1 ∧
      s1.dev.kernel_buffer_index = MAX_SIZE ∧
      (myioctl sampleCmds ⟨fun _ _ => true, fun _ => some 66, fun _ => true, 0⟩ s1.dev
        sampleCmds.MSG_IOCTL_FILL_BUFFER 0).ret = 0 ∧
      step sampleCmds s1 (.ioctl ⟨fun _ _ => true, fun _ => some 66, fun _ => true, 0⟩
        sampleCmds.MSG_IOCTL_FILL_BUFFER 0) = some s2 ∧
      s2.dev.kernel_buffer_index = (MAX_SIZE : Int) - 1 ∧
      s2.dev.kernel_buffer_index < s1.dev.kernel_buffer_index :=
  fill_buffer_lowers_valid_length sampleCmds ⟨fun _ _ => true, fun _ => some 66, fun _ => true, 0⟩
    0 (List.replicate 1024 65) (List.length_replicate _ _) (by decide) (by decide) (by decide)
    (by decide) rfl

/-- C3, as stated, fails at `cursor = capacity`: on a fresh instance with the cursor at
1024 a one-byte write (longer than the 0 bytes left) returns `-ENOSPC`, not 0, and
leaves the high-water mark at 0, not at 1024. -/
theorem short_write_fails_at_capacity :
    (0 : Int) ≤ 1024 ∧ (1024 : Int) ≤ MAX_SIZE ∧
    (([7] : List Byte).length : Int) > (MAX_SIZE : Int) - 1024 ∧
    myWrite fresh [7] ([7] : List Byte).length 1024 = some ⟨-ENOSPC, 1024, fresh⟩ ∧
    -ENOSPC ≠ (MAX_SIZE : Int) - 1024 ∧
    fresh.kernel_buffer_index ≠ MAX_SIZE := by
  refine ⟨by decide, by decide, by decide, rfl, by decide, by decide⟩

/-- C3, amended: for every state with `0 ≤ cursor < capacity` and `valid_length ≤ capacity`
and every write of bytes with `len(bytes) > capacity - cursor`, `myWrite` returns exactly
`capacity - cursor` and leaves `cursor = capacity` and `valid_length = capacity`. -/
theorem short_write_fills_to_capacity (d : Dev) (bytes : List Byte) (offset : Int)
    (h0 : 0 ≤ offset) (h1 : offset < MAX_SIZE)
    (hv : d.kernel_buffer_index ≤ MAX_SIZE)
    (hlen : (bytes.length : Int) > (MAX_SIZE : Int) - offset) :
    ∃ r, myWrite d bytes bytes.length offset = some r ∧
      r.ret = (MAX_SIZE : Int) - offset ∧ r.offset = MAX_SIZE ∧
      r.dev.kernel_buffer_index = MAX_SIZE := by
  have hw := myWrite_inside d bytes bytes.length offset h0 h1
    (by simp only [MAX_SIZE] at *; omega) (Nat.min_le_left _ _)
  have hm : min bytes.length (MAX_SIZE - offset.toNat) = MAX_SIZE - offset.toNat :=
    Nat.min_eq_right (by simp only [MAX_SIZE] at *; omega)
  rw [hm] at hw
  refine ⟨_, hw, ?_, ?_, ?_⟩
  · simp only [MAX_SIZE] at *; omega
  · simp only [MAX_SIZE] at *; omega
  · simp only [MAX_SIZE] at *; omega

/-- C3, amended, at a concrete input: three bytes written at cursor 1022. -/
theorem short_write_fills_to_capacity_witness :
    ∃ r, myWrite fresh [1, 2, 3] ([1, 2, 3] : List Byte).length 1022 = some r ∧
      r.ret = (MAX_SIZE : Int) - 1022 ∧ r.offset = MAX_SIZE ∧
      r.dev.kernel_buffer_index = MAX_SIZE :=
  short_write_fills_to_capacity fresh [1, 2, 3] 1022 (by decide) (by decide) (by decide) (by decide)

/-- C4: EOF law.  For every requested length and every user destination, `myRead` called
with `cursor ≥ valid_length` returns 0 (not an error), stores no byte at the caller, and
the call leaves cursor, buffer and high-water mark as they were. -/
theorem read_at_eof (c : IoctlCmds) (d : Dev) (user_room user_lenght : Nat) (offset : Int)
    (h : offset ≥ d.kernel_buffer_index) :
    myRead d user_room user_lenght offset = some ⟨0, offset, []⟩ ∧
    step c ⟨d, offset⟩ (.read user_room user_lenght) = some ⟨d, offset⟩ := by
  have hr : myRead d user_room user_lenght offset = some ⟨0, offset, []⟩ := by
    unfold myRead; rw [if_pos h]
  exact ⟨hr, by simp only [step, hr, Option.map_some', ge_iff_le, le_refl, if_true]⟩

/-- C4, at a concrete input: a read of 10 bytes on a fresh instance. -/
theorem read_at_eof_witness :
    (0 : Int) ≥ fresh.kernel_buffer_index ∧
    (myRead fresh 10 10 0 = some ⟨0, 0, []⟩ ∧
     step sampleCmds ⟨fresh, 0⟩ (.read 10 10) = some ⟨fresh, 0⟩) :=
  ⟨by decide, read_at_eof sampleCmds fresh 10 10 0 (by decide)⟩


/-- C5: Round-trip.  For every byte string `B` of at most `MAX_SIZE` bytes and every user
destination with room for it, writing `B` at cursor 0 to a fresh instance and seeking
to 0 from the start returns a state in which a read of `len(B)` bytes returns `len(B)`
and stores exactly `B` at the caller. -/
theorem write_seek_read_roundtrip (c : IoctlCmds) (B : List Byte) (user_room : Nat)
    (hB : B.length ≤ MAX_SIZE) (hroom : B.length ≤ user_room) :
    ∃ s r, run c ⟨fresh, 0⟩ [.write B B.length, .lseek 0 SEEK_SET] = some s ∧
      s.f_pos = 0 ∧
      myRead s.dev user_room B.length s.f_pos = some r ∧
      r.ret = B.length ∧ r.user_buffer = B := by
  have hseek : ∀ (d : Dev) (p : Int), myLseek d p 0 SEEK_SET = ⟨0, 0⟩ := by
    intro d p
    simp [myLseek, SEEK_SET, MAX_SIZE]
  by_cases hB0 : B.length = 0
  · have hnil : B = [] := List.length_eq_zero.mp hB0
    subst hnil
    have hw : myWrite fresh [] ([] : List Byte).length 0 = some ⟨-ENOSPC, 0, fresh⟩ := rfl
    refine ⟨⟨fresh, 0⟩, ⟨0, 0, []⟩, ?_, rfl, rfl, rfl, rfl⟩
    simp only [run, step, hw, Option.map_some', Option.some_bind, hseek]
  · have hw := myWrite_inside fresh B B.length 0 (le_refl _) (by simp only [MAX_SIZE]; omega)
      (by omega) (Nat.min_le_left _ _)
    have hm : min B.length (MAX_SIZE - Int.toNat 0) = B.length :=
      Nat.min_eq_left (by simp only [MAX_SIZE] at *; omega)
    rw [hm, List.take_length] at hw
    have hk : max fresh.kernel_buffer_index (0 + (B.length : Int)) = (B.length : Int) := by
      simp only [fresh]; omega
    rw [hk] at hw
    have hrun : run c ⟨fresh, 0⟩ [.write B B.length, .lseek 0 SEEK_SET]
        = some ⟨⟨storeBytes fresh.kernel_buffer 0 B, B.length⟩, 0⟩ := by
      simp only [run, step, hw, Option.map_some', Option.some_bind, hseek]
    have hr := myRead_inside ⟨storeBytes fresh.kernel_buffer 0 B, B.length⟩ user_room B.length 0
      (le_refl _) (by show (0 : Int) < (B.length : Int); omega)
      (by show (B.length : Int) ≤ MAX_SIZE; simp only [MAX_SIZE] at *; omega)
      (by show min B.length ((B.length : Int) - 0).toNat ≤ user_room; omega)
    have hm2 : min B.length ((B.length : Int) - 0).toNat = B.length := by omega
    simp only [hm2] at hr
    refine ⟨_, _, hrun, rfl, hr, rfl, ?_⟩
    show loadBytes (storeBytes fresh.kernel_buffer 0 B) 0 B.length = B
    simp [loadBytes, storeBytes]

/-- C5, at a concrete input: the three bytes `1, 2, 3` and a destination of 3 bytes. -/
theorem write_seek_read_roundtrip_witness :
    ([1, 2, 3] : List Byte).length ≤ MAX_SIZE ∧ ([1, 2, 3] : List Byte).length ≤ 3 ∧
    ∃ s r, run sampleCmds ⟨fresh, 0⟩
        [.write [1, 2, 3] ([1, 2, 3] : List Byte).length, .lseek 0 SEEK_SET] = some s ∧
      s.f_pos = 0 ∧
      myRead s.dev 3 ([1, 2, 3] : List Byte).length s.f_pos = some r ∧
      r.ret = ([1, 2, 3] : List Byte).length ∧ r.user_buffer = [1, 2, 3] :=
  ⟨by decide, by decide,
    write_seek_read_roundtrip sampleCmds [1, 2, 3] 3 (by decide) (by decide)⟩

/-- C7: Seek reject.  For each of the three whence values, a cursor and high-water mark
that are not negative and a 64-bit offset, when the computed position `new` is negative
`myLseek` returns `-EINVAL` and leaves the cursor unchanged; in particular a seek to
`-1` from the start is rejected. -/
theorem seek_rejects_negative (d : Dev) (f_pos offset whence : Int)
    (hw : whence = SEEK_SET ∨ whence = SEEK_CUR ∨ whence = SEEK_END)
    (hoff : -9223372036854775808 ≤ offset) (hp : 0 ≤ f_pos)
    (hk : 0 ≤ d.kernel_buffer_index)
    (hneg : seekNew d.kernel_buffer_index f_pos offset whence < 0) :
    myLseek d f_pos offset whence = ⟨-EINVAL, f_pos⟩ ∧
    myLseek d f_pos (-1) SEEK_SET = ⟨-EINVAL, f_pos⟩ := by
  refine ⟨?_, by simp [myLseek, SEEK_SET]⟩
  rcases hw with rfl | rfl | rfl
  · have h : offset < 0 := by simpa [seekNew, SEEK_SET] using hneg
    simp [myLseek, SEEK_SET, h]
  · have h : f_pos + offset < 0 := by simpa [seekNew, SEEK_SET, SEEK_CUR] using hneg
    have hs : s64 (f_pos + offset) = f_pos + offset := s64_eq_self (by omega) (by omega)
    simp [myLseek, SEEK_SET, SEEK_CUR, hs, h]
  · have h : d.kernel_buffer_index + offset < 0 := by
      simpa [seekNew, SEEK_SET, SEEK_CUR, SEEK_END] using hneg
    have hs : s64 (d.kernel_buffer_index + offset) = d.kernel_buffer_index + offset :=
      s64_eq_self (by omega) (by omega)
    simp [myLseek, SEEK_SET, SEEK_CUR, SEEK_END, hs, h]

/-- C7, at a concrete input: five bytes back from cursor 3 of a fresh instance. -/
theorem seek_rejects_negative_witness :
    seekNew fresh.kernel_buffer_index 3 (-5) SEEK_CUR < 0 ∧
    (myLseek fresh 3 (-5) SEEK_CUR = ⟨-EINVAL, 3⟩ ∧
     myLseek fresh 3 (-1) SEEK_SET = ⟨-EINVAL, 3⟩) :=
  ⟨by decide, seek_rejects_negative fresh 3 (-5) SEEK_CUR (Or.inr (Or.inl rfl)) (by decide)
    (by decide) (by decide) (by decide)⟩

/-- C8: Seek with clamp.  For each of the three whence values, when the computed position
`new` (from the end: high-water mark plus offset) is not negative and fits in 64 bits,
`myLseek` succeeds, sets the cursor to `min new MAX_SIZE` and returns that value; in
particular a seek to `MAX_SIZE + 1000` from the start returns `MAX_SIZE`. -/
theorem seek_clamps (d : Dev) (f_pos offset whence : Int)
    (hw : whence = SEEK_SET ∨ whence = SEEK_CUR ∨ whence = SEEK_END)
    (h0 : 0 ≤ seekNew d.kernel_buffer_index f_pos offset whence)
    (hrep : seekNew d.kernel_buffer_index f_pos offset whence < 9223372036854775808) :
    myLseek d f_pos offset whence =
      ⟨min (seekNew d.kernel_buffer_index f_pos offset whence) MAX_SIZE,
       min (seekNew d.kernel_buffer_index f_pos offset whence) MAX_SIZE⟩ ∧
    0 ≤ (myLseek d f_pos offset whence).ret ∧
    myLseek d f_pos ((MAX_SIZE : Int) + 1000) SEEK_SET = ⟨MAX_SIZE, MAX_SIZE⟩ := by
  have key : ∀ new : Int, 0 ≤ new →
      (if new < 0 then (⟨-EINVAL, f_pos⟩ : SeekResult)
        else ⟨if new > (MAX_SIZE : Int) then (MAX_SIZE : Int) else new,
              if new > (MAX_SIZE : Int) then (MAX_SIZE : Int) else new⟩)
        = ⟨min new MAX_SIZE, min new MAX_SIZE⟩ := by
    intro new hnew
    rw [if_neg (by omega)]
    by_cases hgt : new > (MAX_SIZE : Int)
    · rw [if_pos hgt, min_eq_right (le_of_lt hgt)]
    · rw [if_neg hgt, min_eq_left (not_lt.mp hgt)]
  have main : myLseek d f_pos offset whence =
      ⟨min (seekNew d.kernel_buffer_index f_pos offset whence) MAX_SIZE,
       min (seekNew d.kernel_buffer_index f_pos offset whence) MAX_SIZE⟩ := by
    rcases hw with rfl | rfl | rfl
    · have e : seekNew d.kernel_buffer_index f_pos offset SEEK_SET = offset := by
        simp [seekNew]
      rw [e] at h0 ⊢
      simpa [myLseek] using key offset h0
    · have e : seekNew d.kernel_buffer_index f_pos offset SEEK_CUR = f_pos + offset := by
        simp [seekNew, SEEK_SET, SEEK_CUR]
      rw [e] at h0 hrep ⊢
      have hs : s64 (f_pos + offset) = f_pos + offset := s64_eq_self (by omega) hrep
      simpa [myLseek, SEEK_SET, SEEK_CUR, hs] using key (f_pos + offset) h0
    · have e : seekNew d.kernel_buffer_index f_pos offset SEEK_END
          = d.kernel_buffer_index + offset := by
        simp [seekNew, SEEK_SET, SEEK_CUR, SEEK_END]
      rw [e] at h0 hrep ⊢
      have hs : s64 (d.kernel_buffer_index + offset) = d.kernel_buffer_index + offset :=
        s64_eq_self (by omega) hrep
      simpa [myLseek, SEEK_SET, SEEK_CUR, SEEK_END, hs] using
        key (d.kernel_buffer_index + offset) h0
  refine ⟨main, ?_, by simp [myLseek, SEEK_SET, MAX_SIZE]⟩
  rw [main]
  show 0 ≤ min (seekNew d.kernel_buffer_index f_pos offset whence) (MAX_SIZE : Int)
  simp only [MAX_SIZE]; omega

/-- C8, at a concrete input: 2000 bytes past the end of a fresh instance. -/
theorem seek_clamps_witness :
    0 ≤ seekNew fresh.kernel_buffer_index 7 2000 SEEK_END ∧
    seekNew fresh.kernel_buffer_index 7 2000 SEEK_END < 9223372036854775808 ∧
    (myLseek fresh 7 2000 SEEK_END =
      ⟨min (seekNew fresh.kernel_buffer_index 7 2000 SEEK_END) MAX_SIZE,
       min (seekNew fresh.kernel_buffer_index 7 2000 SEEK_END) MAX_SIZE⟩ ∧
     0 ≤ (myLseek fresh 7 2000 SEEK_END).ret ∧
     myLseek fresh 7 ((MAX_SIZE : Int) + 1000) SEEK_SET = ⟨MAX_SIZE, MAX_SIZE⟩) :=
  ⟨by decide, by decide,
    seek_clamps fresh 7 2000 SEEK_END (Or.inr (Or.inr rfl)) (by decide) (by decide)⟩


/-- C9: Read postcondition.  For every state with `0 ≤ cursor < valid_length ≤ MAX_SIZE`,
every requested length and every user destination with room for the bytes copied,
`myRead` returns `actual = min n (valid_length - cursor)`, stores at the caller exactly
the `actual` bytes `kernel_buffer[cursor .. cursor + actual)`, advances the cursor by
`actual` (not past the high-water mark), and the call leaves buffer and high-water mark
as they were. -/
theorem read_postcondition (c : IoctlCmds) (d : Dev) (user_room user_lenght : Nat)
    (offset : Int) (hlen : d.kernel_buffer.length = MAX_SIZE)
    (h0 : 0 ≤ offset) (h1 : offset < d.kernel_buffer_index)
    (h2 : d.kernel_buffer_index ≤ MAX_SIZE)
    (hcopy : min user_lenght (d.kernel_buffer_index - offset).toNat ≤ user_room) :
    ∃ r, myRead d user_room user_lenght offset = some r ∧
      r.ret = min (user_lenght : Int) (d.kernel_buffer_index - offset) ∧
      r.offset = offset + r.ret ∧ r.offset ≤ d.kernel_buffer_index ∧
      r.user_buffer.length = r.ret.toNat ∧
      (∀ i : Nat, i < r.ret.toNat → r.user_buffer[i]? = d.kernel_buffer[offset.toNat + i]?) ∧
      (∀ i : Nat, i < r.ret.toNat → offset.toNat + i < d.kernel_buffer_index.toNat) ∧
      step c ⟨d, offset⟩ (.read user_room user_lenght) = some ⟨d, offset + r.ret⟩ := by
  have hr := myRead_inside d user_room user_lenght offset h0 h1 h2 hcopy
  generalize ha : min user_lenght (d.kernel_buffer_index - offset).toNat = a at hr
  have hai : (a : Int) = min (user_lenght : Int) (d.kernel_buffer_index - offset) := by omega
  refine ⟨_, hr, hai, rfl, ?_, ?_, ?_, ?_, ?_⟩
  · show offset + (a : Int) ≤ d.kernel_buffer_index
    omega
  · show (loadBytes d.kernel_buffer offset a).length = (a : Int).toNat
    rw [loadBytes_length _ _ _ (by rw [hlen]; simp only [MAX_SIZE] at *; omega)]
    omega
  · intro i hi
    exact loadBytes_getElem? _ _ _ _ (by simpa using hi)
  · intro i hi
    have : i < a := by simpa using hi
    omega
  · simp only [step, hr, Option.map_some']
    rw [if_pos (by show (a : Int) ≥ 0; omega)]

/-- C9, at a concrete input: a buffer of bytes `7` with high-water mark 10, cursor 4, a
request of 100 bytes into a destination of 100 bytes. -/
theorem read_postcondition_witness :
    ∃ r, myRead ⟨List.replicate 1024 7, 10⟩ 100 100 4 = some r ∧
      r.ret = min ((100 : Nat) : Int) ((⟨List.replicate 1024 7, 10⟩ : Dev).kernel_buffer_index - 4) ∧
      r.offset = 4 + r.ret ∧ r.offset ≤ (⟨List.replicate 1024 7, 10⟩ : Dev).kernel_buffer_index ∧
      r.user_buffer.length = r.ret.toNat ∧
      (∀ i : Nat, i < r.ret.toNat →
        r.user_buffer[i]? = (⟨List.replicate 1024 7, 10⟩ : Dev).kernel_buffer[Int.toNat 4 + i]?) ∧
      (∀ i : Nat, i < r.ret.toNat →
        Int.toNat 4 + i < (⟨List.replicate 1024 7, 10⟩ : Dev).kernel_buffer_index.toNat) ∧
      step sampleCmds ⟨⟨List.replicate 1024 7, 10⟩, 4⟩ (.read 100 100)
        = some ⟨⟨List.replicate 1024 7, 10⟩, 4 + r.ret⟩ :=
  read_postcondition sampleCmds ⟨List.replicate 1024 7, 10⟩ 100 100 4
    (List.length_replicate _ _) (by decide) (by decide) (by decide) (by decide)

/-- C10: Write postcondition.  For every state with `0 ≤ cursor < MAX_SIZE`, every
request of `n > 0` bytes whose copy from the caller succeeds, `myWrite` returns
`actual = min n (MAX_SIZE - cursor)`, stores the first `actual` source bytes at
`kernel_buffer[cursor .. cursor + actual)`, leaves every other buffer byte unchanged,
advances the cursor by `actual` and sets the high-water mark to
`max valid_length (cursor + actual)`; a write that ends within the valid bytes leaves
the mark unchanged. -/
theorem write_postcondition (d : Dev) (user_buffer : List Byte) (user_lenght : Nat)
    (offset : Int) (hlen : d.kernel_buffer.length = MAX_SIZE)
    (h0 : 0 ≤ offset) (h1 : offset < MAX_SIZE) (hn : 0 < user_lenght)
    (hcopy : min user_lenght (MAX_SIZE - offset.toNat) ≤ user_buffer.length) :
    ∃ r, myWrite d user_buffer user_lenght offset = some r ∧
      r.ret = min (user_lenght : Int) ((MAX_SIZE : Int) - offset) ∧
      r.offset = offset + r.ret ∧
      r.dev.kernel_buffer_index = max d.kernel_buffer_index (offset + r.ret) ∧
      r.dev.kernel_buffer.length = MAX_SIZE ∧
      (∀ i : Nat, i < r.ret.toNat →
        r.dev.kernel_buffer[offset.toNat + i]? = user_buffer[i]?) ∧
      (∀ i : Nat, i < offset.toNat ∨ offset.toNat + r.ret.toNat ≤ i →
        r.dev.kernel_buffer[i]? = d.kernel_buffer[i]?) ∧
      (offset + r.ret ≤ d.kernel_buffer_index →
        r.dev.kernel_buffer_index = d.kernel_buffer_index) := by
  have hw := myWrite_inside d user_buffer user_lenght offset h0 h1 hn hcopy
  generalize ha : min user_lenght (MAX_SIZE - offset.toNat) = a at hw hcopy
  have hai : (a : Int) = min (user_lenght : Int) ((MAX_SIZE : Int) - offset) := by omega
  have htl : (user_buffer.take a).length = a := by rw [List.length_take]; omega
  have hfit : offset.toNat + (user_buffer.take a).length ≤ d.kernel_buffer.length := by
    rw [htl, hlen]; simp only [MAX_SIZE] at *; omega
  refine ⟨_, hw, hai, rfl, rfl, ?_, ?_, ?_, ?_⟩
  · show (storeBytes d.kernel_buffer offset (user_buffer.take a)).length = MAX_SIZE
    rw [storeBytes_length _ _ _ hfit, hlen]
  · intro i hi
    have hia : i < a := by simpa using hi
    show (storeBytes d.kernel_buffer offset (user_buffer.take a))[offset.toNat + i]?
      = user_buffer[i]?
    rw [storeBytes_inside _ _ _ _ (by omega) (by omega), List.getElem?_take_of_lt hia]
  · intro i hi
    have hi2 : i < offset.toNat ∨ offset.toNat + (user_buffer.take a).length ≤ i := by
      rw [htl]; simpa using hi
    exact storeBytes_outside _ _ _ _ hfit hi2
  · intro hle
    exact max_eq_left hle

/-- C10, at a concrete input: three bytes written at cursor 1 of a fresh instance. -/
theorem write_postcondition_witness :
    ∃ r, myWrite fresh [1, 2, 3] 3 1 = some r ∧
      r.ret = min ((3 : Nat) : Int) ((MAX_SIZE : Int) - 1) ∧
      r.offset = 1 + r.ret ∧
      r.dev.kernel_buffer_index = max fresh.kernel_buffer_index (1 + r.ret) ∧
      r.dev.kernel_buffer.length = MAX_SIZE ∧
      (∀ i : Nat, i < r.ret.toNat →
        r.dev.kernel_buffer[Int.toNat 1 + i]? = ([1, 2, 3] : List Byte)[i]?) ∧
      (∀ i : Nat, i < Int.toNat 1 ∨ Int.toNat 1 + r.ret.toNat ≤ i →
        r.dev.kernel_buffer[i]? = fresh.kernel_buffer[i]?) ∧
      (1 + r.ret ≤ fresh.kernel_buffer_index →
        r.dev.kernel_buffer_index = fresh.kernel_buffer_index) :=
  write_postcondition fresh [1, 2, 3] 3 1 (List.length_replicate _ _) (by decide) (by decide)
    (by decide) (by decide)

end CharDev

namespace SingleOpen

open CharDev (s32 EBUSY)

end SingleOpen

namespace CharDev

/-- A write of zero bytes below `MAX_SIZE` is answered with `-ENOSPC`. -/
theorem myWrite_zero (d : Dev) (user_buffer : List Byte) (offset : Int)
    (h1 : offset < MAX_SIZE) :
    myWrite d user_buffer 0 offset = some ⟨-ENOSPC, offset, d⟩ := by
  unfold myWrite
  rw [if_neg (by omega)]
  simp [s64]

/-- A write whose source is not readable to the end of the copy is answered with
`-EFAULT`; cursor and high-water mark stay. -/
theorem myWrite_fault (d : Dev) (user_buffer : List Byte) (user_lenght : Nat) (offset : Int)
    (h0 : 0 ≤ offset) (h1 : offset < MAX_SIZE)
    (hcopy : user_buffer.length < min user_lenght (MAX_SIZE - offset.toNat)) :
    myWrite d user_buffer user_lenght offset = some
      ⟨-EFAULT, offset,
       ⟨storeBytes d.kernel_buffer offset
          (copy_from_user user_buffer (min user_lenght (MAX_SIZE - offset.toNat))).1,
        d.kernel_buffer_index⟩⟩ := by
  have hb := bytes_to_write_eq user_lenght offset h0 h1
  unfold myWrite
  simp only [hb]
  generalize ha : min user_lenght (MAX_SIZE - offset.toNat) = a at *
  have ha2 : offset + a ≤ 1024 := by simp only [MAX_SIZE] at *; omega
  have hu : u64 (a : Int) = a := by rw [u64_eq_toNat (by omega) (by omega)]; omega
  have hnot : ¬ (offset ≥ (MAX_SIZE : Int)) := by omega
  have hne : ¬ ((a : Int) = 0) := by omega
  have hin : inBounds offset a := ⟨h0, by simp only [MAX_SIZE]; omega⟩
  have hr2 : (copy_from_user user_buffer a).2 ≠ 0 := by
    simp only [copy_from_user]; omega
  rw [if_neg hnot, if_neg hne, hu, if_pos hin]
  rw [if_pos hr2]

/-- A read whose destination has no room for the whole copy is answered with `-EFAULT`;
the cursor stays. -/
theorem myRead_fault (d : Dev) (user_room user_lenght : Nat) (offset : Int)
    (h0 : 0 ≤ offset) (h1 : offset < d.kernel_buffer_index)
    (h2 : d.kernel_buffer_index ≤ MAX_SIZE)
    (hcopy : user_room < min user_lenght (d.kernel_buffer_index - offset).toNat) :
    myRead d user_room user_lenght offset = some
      ⟨-EFAULT, offset,
       (loadBytes d.kernel_buffer offset
          (min user_lenght (d.kernel_buffer_index - offset).toNat)).take
         (min (min user_lenght (d.kernel_buffer_index - offset).toNat) user_room)⟩ := by
  have hb := bytes_to_read_eq user_lenght offset d.kernel_buffer_index h0 h1 h2
  unfold myRead
  simp only [hb]
  generalize ha : min user_lenght (d.kernel_buffer_index - offset).toNat = a at *
  have ha2 : offset + a ≤ 1024 := by simp only [MAX_SIZE] at *; omega
  have hu : u64 (a : Int) = a := by rw [u64_eq_toNat (by omega) (by omega)]; omega
  have hnot : ¬ (offset ≥ d.kernel_buffer_index) := by omega
  have hne : ¬ ((a : Int) = 0) := by omega
  have hin : inBounds offset a := ⟨h0, by simp only [MAX_SIZE]; omega⟩
  have hr2 : (copy_to_user user_room (loadBytes d.kernel_buffer offset a) a).2 ≠ 0 := by
    simp only [copy_to_user]; omega
  rw [if_neg hnot, if_neg hne, hu, if_pos hin]
  rw [if_pos hr2]
  rfl


/-- C11: NoSpace at a full cursor.  For every write of any length issued with
`cursor ≥ MAX_SIZE`, `myWrite` returns `-ENOSPC` and leaves cursor, high-water mark and
buffer as they were; and on a fresh instance a write of 1200 bytes from cursor 0 returns
1024 with high-water mark 1024, after which a write of 10 bytes returns `-ENOSPC`. -/
theorem write_at_full_cursor (c : IoctlCmds) (d : Dev) (user_buffer : List Byte)
    (user_lenght : Nat) (offset : Int) (h : offset ≥ MAX_SIZE) :
    myWrite d user_buffer user_lenght offset = some ⟨-ENOSPC, offset, d⟩ ∧
    step c ⟨d, offset⟩ (.write user_buffer user_lenght) = some ⟨d, offset⟩ ∧
    (∀ B B2 : List Byte, B.length = 1200 →
      ∃ r, myWrite fresh B 1200 0 = some r ∧ r.ret = 1024 ∧ r.offset = 1024 ∧
        r.dev.kernel_buffer_index = 1024 ∧
        myWrite r.dev B2 10 r.offset = some ⟨-ENOSPC, r.offset, r.dev⟩) := by
  have hfull : ∀ (d : Dev) (ub : List Byte) (n : Nat) (off : Int), off ≥ (MAX_SIZE : Int) →
      myWrite d ub n off = some ⟨-ENOSPC, off, d⟩ := by
    intro d ub n off hoff
    unfold myWrite; rw [if_pos hoff]
  refine ⟨hfull _ _ _ _ h, ?_, ?_⟩
  · simp only [step, hfull _ _ _ _ h, Option.map_some']
    split <;> rfl
  · intro B B2 hB
    have hw := myWrite_inside fresh B 1200 0 (le_refl _) (by simp only [MAX_SIZE]; omega)
      (by omega) (by simp only [MAX_SIZE]; omega)
    have hm : min 1200 (MAX_SIZE - Int.toNat 0) = 1024 := by simp only [MAX_SIZE]; omega
    rw [hm] at hw
    refine ⟨_, hw, rfl, by show (0 : Int) + ((1024 : Nat) : Int) = 1024; omega, ?_, ?_⟩
    · show max fresh.kernel_buffer_index (0 + ((1024 : Nat) : Int)) = 1024
      simp only [fresh]; omega
    · refine hfull _ _ _ _ ?_
      show (0 : Int) + ((1024 : Nat) : Int) ≥ (MAX_SIZE : Int)
      simp only [MAX_SIZE]; omega

/-- C11, at a concrete input: a three-byte write with the cursor at 1024. -/
theorem write_at_full_cursor_witness :
    myWrite fresh [1, 2, 3] 3 1024 = some ⟨-ENOSPC, 1024, fresh⟩ ∧
    step sampleCmds ⟨fresh, 1024⟩ (.write [1, 2, 3] 3) = some ⟨fresh, 1024⟩ ∧
    (∀ B B2 : List Byte, B.length = 1200 →
      ∃ r, myWrite fresh B 1200 0 = some r ∧ r.ret = 1024 ∧ r.offset = 1024 ∧
        r.dev.kernel_buffer_index = 1024 ∧
        myWrite r.dev B2 10 r.offset = some ⟨-ENOSPC, r.offset, r.dev⟩) :=
  write_at_full_cursor sampleCmds fresh [1, 2, 3] 3 1024 (by decide)

/-- C12, as stated, fails for a request of zero bytes: on a fresh instance with the
cursor at 0 (1024 bytes of room) `myWrite` with length 0 returns `-ENOSPC`. -/
theorem nospace_with_room_left :
    myWrite fresh [] 0 0 = some ⟨-ENOSPC, 0, fresh⟩ ∧ ¬ ((0 : Int) ≥ MAX_SIZE) :=
  ⟨rfl, by decide⟩

/-- In `using_misc_driver_with_yours.c`, for every state with `cursor ≥ 0` and every write
request, `myWrite` returns, and it reports `-ENOSPC` exactly when the remaining capacity
at the cursor is zero (`cursor ≥ MAX_SIZE`) or the requested length is zero. -/
theorem nospace_iff (d : Dev) (user_buffer : List Byte) (user_lenght : Nat) (offset : Int)
    (h0 : 0 ≤ offset) :
    ∃ r, myWrite d user_buffer user_lenght offset = some r ∧
      (r.ret = -ENOSPC ↔ (offset ≥ MAX_SIZE ∨ user_lenght = 0)) := by
  by_cases hge : offset ≥ (MAX_SIZE : Int)
  · exact ⟨⟨-ENOSPC, offset, d⟩, by unfold myWrite; rw [if_pos hge],
      fun _ => Or.inl hge, fun _ => rfl⟩
  · have h1 : offset < MAX_SIZE := by omega
    by_cases hn : user_lenght = 0
    · subst hn
      exact ⟨_, myWrite_zero d user_buffer offset h1, fun _ => Or.inr rfl, fun _ => rfl⟩
    · by_cases hcopy : min user_lenght (MAX_SIZE - offset.toNat) ≤ user_buffer.length
      · refine ⟨_, myWrite_inside d user_buffer user_lenght offset h0 h1 (by omega) hcopy,
          ?_, ?_⟩
        · intro hret
          simp only [ENOSPC] at hret
          omega
        · intro hor
          rcases hor with hor | hor
          · exact absurd hor hge
          · exact absurd hor hn
      · refine ⟨_, myWrite_fault d user_buffer user_lenght offset h0 h1 (by omega), ?_, ?_⟩
        · intro hret
          simp only [ENOSPC, EFAULT] at hret
          omega
        · intro hor
          rcases hor with hor | hor
          · exact absurd hor hge
          · exact absurd hor hn

/-- C13: Cursor range invariant.  `myOpen` sets the cursor to 0, and from any device
state of the data model every sequence of read, write, seek and control calls on the
file opened there returns, and leaves the cursor in `[0, MAX_SIZE]`. -/
theorem cursor_range_invariant (c : IoctlCmds) (d : Dev) (f_pos : Int) (ops : List Op)
    (hlen : d.kernel_buffer.length = MAX_SIZE)
    (hk0 : 0 ≤ d.kernel_buffer_index) (hk1 : d.kernel_buffer_index ≤ MAX_SIZE) :
    myOpen f_pos = (0, 0) ∧
    ∃ s, run c ⟨d, (myOpen f_pos).2⟩ ops = some s ∧ 0 ≤ s.f_pos ∧ s.f_pos ≤ MAX_SIZE := by
  refine ⟨rfl, ?_⟩
  obtain ⟨s, hs, hv⟩ := run_valid c ops ⟨d, (myOpen f_pos).2⟩
    ⟨hlen, hk0, hk1, le_refl _, by show (0 : Int) ≤ MAX_SIZE; simp only [MAX_SIZE]; omega⟩
  exact ⟨s, hs, hv.2.2.2.1, hv.2.2.2.2⟩

/-- C13, at a concrete input: a fresh device, a write, a seek past the end and a read. -/
theorem cursor_range_invariant_witness :
    myOpen 77 = (0, 0) ∧
    ∃ s, run sampleCmds ⟨fresh, (myOpen 77).2⟩
        [.write [1, 2] 2, .lseek 5000 SEEK_CUR, .read 4 4] = some s ∧
      0 ≤ s.f_pos ∧ s.f_pos ≤ MAX_SIZE :=
  cursor_range_invariant sampleCmds fresh 77 [.write [1, 2] 2, .lseek 5000 SEEK_CUR, .read 4 4]
    (List.length_replicate _ _) (by decide) (by decide)


/-- On a cursor that is not negative `myRead` returns a count that is not negative, or
`-EFAULT` with the cursor where it was. -/
theorem myRead_ret (d : Dev) (user_room user_lenght : Nat) (offset : Int)
    (h0 : 0 ≤ offset) (h2 : d.kernel_buffer_index ≤ MAX_SIZE) :
    ∃ r, myRead d user_room user_lenght offset = some r ∧
      (0 ≤ r.ret ∨ (r.ret = -EFAULT ∧ r.offset = offset)) := by
  by_cases hge : offset ≥ d.kernel_buffer_index
  · exact ⟨⟨0, offset, []⟩, by unfold myRead; rw [if_pos hge], Or.inl (le_refl _)⟩
  · have h1 : offset < d.kernel_buffer_index := by omega
    by_cases hcopy : min user_lenght (d.kernel_buffer_index - offset).toNat ≤ user_room
    · exact ⟨_, myRead_inside d user_room user_lenght offset h0 h1 h2 hcopy,
        Or.inl (Int.ofNat_nonneg _)⟩
    · exact ⟨_, myRead_fault d user_room user_lenght offset h0 h1 h2 (by omega),
        Or.inr ⟨rfl, rfl⟩⟩

/-- On a cursor that is not negative `myWrite` returns a count that is not negative, or
`-ENOSPC` or `-EFAULT` with cursor and high-water mark where they were. -/
theorem myWrite_ret (d : Dev) (user_buffer : List Byte) (user_lenght : Nat) (offset : Int)
    (h0 : 0 ≤ offset) :
    ∃ r, myWrite d user_buffer user_lenght offset = some r ∧
      (0 ≤ r.ret ∨ ((r.ret = -ENOSPC ∨ r.ret = -EFAULT) ∧ r.offset = offset ∧
        r.dev.kernel_buffer_index = d.kernel_buffer_index)) := by
  by_cases hge : offset ≥ (MAX_SIZE : Int)
  · exact ⟨⟨-ENOSPC, offset, d⟩, by unfold myWrite; rw [if_pos hge],
      Or.inr ⟨Or.inl rfl, rfl, rfl⟩⟩
  · have h1 : offset < MAX_SIZE := by omega
    by_cases hn : user_lenght = 0
    · subst hn
      exact ⟨_, myWrite_zero d user_buffer offset h1, Or.inr ⟨Or.inl rfl, rfl, rfl⟩⟩
    · by_cases hcopy : min user_lenght (MAX_SIZE - offset.toNat) ≤ user_buffer.length
      · exact ⟨_, myWrite_inside d user_buffer user_lenght offset h0 h1 (by omega) hcopy,
          Or.inl (Int.ofNat_nonneg _)⟩
      · exact ⟨_, myWrite_fault d user_buffer user_lenght offset h0 h1 (by omega),
          Or.inr ⟨Or.inr rfl, rfl, rfl⟩⟩

/-- The function `myLseek` returns a position that is not negative, or `-EINVAL` with
the cursor where it was. -/
theorem myLseek_ret (d : Dev) (f_pos offset whence : Int) :
    0 ≤ (myLseek d f_pos offset whence).ret ∨
      ((myLseek d f_pos offset whence).ret = -EINVAL ∧
        (myLseek d f_pos offset whence).f_pos = f_pos) := by
  unfold myLseek
  simp only []
  split
  · exact Or.inr ⟨rfl, rfl⟩
  · split
    · exact Or.inr ⟨rfl, rfl⟩
    · left
      simp only []
      split <;> omega

/-- The function `myioctl` returns 0, or `-ENOTTY` or `-EFAULT` with the globals as
they were. -/
theorem myioctl_ret (c : IoctlCmds) (env : IoctlEnv) (d : Dev) (cmd arg : Nat) :
    (myioctl c env d cmd arg).ret = 0 ∨
      (((myioctl c env d cmd arg).ret = -ENOTTY ∨ (myioctl c env d cmd arg).ret = -EFAULT) ∧
        (myioctl c env d cmd arg).dev = d) := by
  unfold myioctl
  simp only []
  repeat' split
  all_goals first
    | exact Or.inl rfl
    | exact Or.inr ⟨Or.inl rfl, rfl⟩
    | exact Or.inr ⟨Or.inr rfl, rfl⟩

/-- C14: Failure atomicity.  In every state of the data model each of `myRead`,
`myWrite`, `myLseek` and `myioctl` returns, and when it reports a failure (a negative
value: `-ENOSPC`, `-EFAULT`, `-EINVAL`, `-ENOTTY`) the cursor and the high-water mark
are what they were before the call; in particular a read or a write whose copy across
the boundary fails returns `-EFAULT` with cursor and high-water mark unchanged. -/
theorem failure_atomicity (c : IoctlCmds) (env : IoctlEnv) (d : Dev) (f_pos : Int)
    (user_room user_lenght : Nat) (user_buffer : List Byte) (offset whence : Int)
    (cmd arg : Nat) (h0 : 0 ≤ f_pos) (hk : d.kernel_buffer_index ≤ MAX_SIZE) :
    (∃ r, myRead d user_room user_lenght f_pos = some r ∧
      (r.ret < 0 → r.ret = -EFAULT ∧ r.offset = f_pos)) ∧
    (∃ r, myWrite d user_buffer user_lenght f_pos = some r ∧
      (r.ret < 0 → (r.ret = -ENOSPC ∨ r.ret = -EFAULT) ∧ r.offset = f_pos ∧
        r.dev.kernel_buffer_index = d.kernel_buffer_index)) ∧
    ((myLseek d f_pos offset whence).ret < 0 →
      (myLseek d f_pos offset whence).ret = -EINVAL ∧
      (myLseek d f_pos offset whence).f_pos = f_pos) ∧
    ((myioctl c env d cmd arg).ret < 0 →
      ((myioctl c env d cmd arg).ret = -ENOTTY ∨ (myioctl c env d cmd arg).ret = -EFAULT) ∧
      (myioctl c env d cmd arg).dev.kernel_buffer_index = d.kernel_buffer_index) ∧
    (f_pos < d.kernel_buffer_index →
      user_room < min user_lenght (d.kernel_buffer_index - f_pos).toNat →
      ∃ r, myRead d user_room user_lenght f_pos = some r ∧ r.ret = -EFAULT ∧
        r.offset = f_pos) ∧
    (f_pos < MAX_SIZE → user_buffer.length < min user_lenght (MAX_SIZE - f_pos.toNat) →
      ∃ r, myWrite d user_buffer user_lenght f_pos = some r ∧ r.ret = -EFAULT ∧
        r.offset = f_pos ∧ r.dev.kernel_buffer_index = d.kernel_buffer_index) := by
  refine ⟨?_, ?_, ?_, ?_, ?_, ?_⟩
  · obtain ⟨r, hr, h⟩ := myRead_ret d user_room user_lenght f_pos h0 hk
    refine ⟨r, hr, fun hneg => ?_⟩
    rcases h with h | h
    · omega
    · exact h
  · obtain ⟨r, hr, h⟩ := myWrite_ret d user_buffer user_lenght f_pos h0
    refine ⟨r, hr, fun hneg => ?_⟩
    rcases h with h | h
    · omega
    · exact h
  · intro hneg
    rcases myLseek_ret d f_pos offset whence with h | h
    · omega
    · exact h
  · intro hneg
    rcases myioctl_ret c env d cmd arg with h | h
    · omega
    · exact ⟨h.1, by rw [h.2]⟩
  · intro h1 hcopy
    exact ⟨_, myRead_fault d user_room user_lenght f_pos h0 h1 hk hcopy, rfl, rfl⟩
  · intro h1 hcopy
    exact ⟨_, myWrite_fault d user_buffer user_lenght f_pos h0 h1 hcopy, rfl, rfl, rfl⟩

/-- C14, at a concrete input: a device with five valid bytes and the cursor at 2; a read
of 3 bytes into a destination with room for 1, a write of 3 bytes from a source with 1
readable byte, a seek to `-9`, and a control command of a foreign type. -/
theorem failure_atomicity_witness :
    myRead ⟨List.replicate 1024 7, 5⟩ 1 3 2 = some ⟨-EFAULT, 2, [7]⟩ ∧
    (myWrite ⟨List.replicate 1024 7, 5⟩ [1] 3 2).map (fun r => (r.ret, r.offset,
      r.dev.kernel_buffer_index)) = some (-EFAULT, 2, 5) ∧
    myLseek ⟨List.replicate 1024 7, 5⟩ 2 (-9) SEEK_SET = ⟨-EINVAL, 2⟩ ∧
    (myioctl sampleCmds ⟨fun _ _ => true, fun _ => none, fun _ => true, 0⟩
      ⟨List.replicate 1024 7, 5⟩ 0 0).ret = -ENOTTY ∧
    ((∃ r, myRead ⟨List.replicate 1024 7, 5⟩ 1 3 2 = some r ∧
      (r.ret < 0 → r.ret = -EFAULT ∧ r.offset = 2)) ∧
    (∃ r, myWrite ⟨List.replicate 1024 7, 5⟩ [1] 3 2 = some r ∧
      (r.ret < 0 → (r.ret = -ENOSPC ∨ r.ret = -EFAULT) ∧ r.offset = 2 ∧
        r.dev.kernel_buffer_index = (⟨List.replicate 1024 7, 5⟩ : Dev).kernel_buffer_index)) ∧
    ((myLseek ⟨List.replicate 1024 7, 5⟩ 2 (-9) SEEK_SET).ret < 0 →
      (myLseek ⟨List.replicate 1024 7, 5⟩ 2 (-9) SEEK_SET).ret = -EINVAL ∧
      (myLseek ⟨List.replicate 1024 7, 5⟩ 2 (-9) SEEK_SET).f_pos = 2) ∧
    ((myioctl sampleCmds ⟨fun _ _ => true, fun _ => none, fun _ => true, 0⟩
        ⟨List.replicate 1024 7, 5⟩ 0 0).ret < 0 →
      ((myioctl sampleCmds ⟨fun _ _ => true, fun _ => none, fun _ => true, 0⟩
        ⟨List.replicate 1024 7, 5⟩ 0 0).ret = -ENOTTY ∨
       (myioctl sampleCmds ⟨fun _ _ => true, fun _ => none, fun _ => true, 0⟩
        ⟨List.replicate 1024 7, 5⟩ 0 0).ret = -EFAULT) ∧
      (myioctl sampleCmds ⟨fun _ _ => true, fun _ => none, fun _ => true, 0⟩
        ⟨List.replicate 1024 7, 5⟩ 0 0).dev.kernel_buffer_index
        = (⟨List.replicate 1024 7, 5⟩ : Dev).kernel_buffer_index) ∧
    ((2 : Int) < (⟨List.replicate 1024 7, 5⟩ : Dev).kernel_buffer_index →
      1 < min 3 ((⟨List.replicate 1024 7, 5⟩ : Dev).kernel_buffer_index - 2).toNat →
      ∃ r, myRead ⟨List.replicate 1024 7, 5⟩ 1 3 2 = some r ∧ r.ret = -EFAULT ∧
        r.offset = 2) ∧
    ((2 : Int) < MAX_SIZE → ([1] : List Byte).length < min 3 (MAX_SIZE - Int.toNat 2) →
      ∃ r, myWrite ⟨List.replicate 1024 7, 5⟩ [1] 3 2 = some r ∧ r.ret = -EFAULT ∧
        r.offset = 2 ∧
        r.dev.kernel_buffer_index
          = (⟨List.replicate 1024 7, 5⟩ : Dev).kernel_buffer_index)) :=
  ⟨by rfl, by rfl, by rfl, by rfl,
    failure_atomicity sampleCmds ⟨fun _ _ => true, fun _ => none, fun _ => true, 0⟩
      ⟨List.replicate 1024 7, 5⟩ 2 1 3 [1] (-9) SEEK_SET 0 0 (by decide) (by decide)⟩


/-- C15, as stated, fails for an in-family opcode whose argument does not pass
`access_ok`: with the sample header, the opcode `_IO(0x21, 0)` is none of the four
commands, has the driver's type and an ordinal within the count, and `myioctl` returns
`-EFAULT`, not `-ENOTTY`. -/
theorem unknown_opcode_gets_fault :
    8448 ≠ sampleCmds.MSG_IOCTL_GET_LENGTH ∧ 8448 ≠ sampleCmds.MSG_IOCTL_CLEAR_BUFFER ∧
    8448 ≠ sampleCmds.MSG_IOCTL_FILL_BUFFER ∧ 8448 ≠ sampleCmds.MSG_GET_ADDRESS ∧
    IOC_TYPE 8448 = sampleCmds.MSG_MAGIC_NUMBER ∧
    IOC_NR 8448 ≤ sampleCmds.MSG_IOCTL_MAX_CMDS ∧
    (myioctl sampleCmds ⟨fun _ _ => false, fun _ => none, fun _ => false, 0⟩ fresh 8448 0).ret
      = -EFAULT ∧
    -EFAULT ≠ -ENOTTY := by
  refine ⟨by decide, by decide, by decide, by decide, by decide, by decide, by rfl, by decide⟩

/-- C15, amended: for every opcode that is none of the four commands and every argument,
`myioctl` leaves buffer and high-water mark unchanged; it returns `-ENOTTY` when the
type field differs from the magic number, when the ordinal exceeds the command count,
and when the argument passes `access_ok`; for an in-family opcode whose argument does
not pass `access_ok` it returns `-EFAULT`. -/
theorem unknown_opcode_rejected (c : IoctlCmds) (env : IoctlEnv) (d : Dev) (cmd arg : Nat)
    (h1 : cmd ≠ c.MSG_IOCTL_GET_LENGTH) (h2 : cmd ≠ c.MSG_IOCTL_CLEAR_BUFFER)
    (h3 : cmd ≠ c.MSG_IOCTL_FILL_BUFFER) (h4 : cmd ≠ c.MSG_GET_ADDRESS) :
    (myioctl c env d cmd arg).dev = d ∧
    ((IOC_TYPE cmd ≠ c.MSG_MAGIC_NUMBER ∨ IOC_NR cmd > c.MSG_IOCTL_MAX_CMDS ∨
        env.access_ok arg (IOC_SIZE cmd) = true) →
      (myioctl c env d cmd arg).ret = -ENOTTY) ∧
    (IOC_TYPE cmd = c.MSG_MAGIC_NUMBER → IOC_NR cmd ≤ c.MSG_IOCTL_MAX_CMDS →
      env.access_ok arg (IOC_SIZE cmd) = false →
      (myioctl c env d cmd arg).ret = -EFAULT) := by
  unfold myioctl
  simp only [h1, h2, h3, h4, if_false]
  refine ⟨?_, ?_, ?_⟩
  · repeat' split
    all_goals rfl
  · intro h
    by_cases ht : IOC_TYPE cmd ≠ c.MSG_MAGIC_NUMBER
    · rw [if_pos ht]
    · rw [if_neg ht]
      by_cases hn : IOC_NR cmd > c.MSG_IOCTL_MAX_CMDS
      · rw [if_pos hn]
      · rw [if_neg hn]
        rcases h with h | h | h
        · exact absurd h ht
        · exact absurd h hn
        · simp only [h, Bool.true_eq_false, if_false]
  · intro ht hn hok
    rw [if_neg (not_not.mpr ht), if_neg (by omega)]
    simp only [hok, if_true]

/-- C15, amended, at a concrete input: the opcode `_IO(0x21, 0)` of the sample header,
with an argument that passes `access_ok`. -/
theorem unknown_opcode_rejected_witness :
    (myioctl sampleCmds ⟨fun _ _ => true, fun _ => none, fun _ => true, 0⟩ fresh 8448 0).dev
      = fresh ∧
    ((IOC_TYPE 8448 ≠ sampleCmds.MSG_MAGIC_NUMBER ∨ IOC_NR 8448 > sampleCmds.MSG_IOCTL_MAX_CMDS ∨
        (⟨fun _ _ => true, fun _ => none, fun _ => true, 0⟩ : IoctlEnv).access_ok 0
          (IOC_SIZE 8448) = true) →
      (myioctl sampleCmds ⟨fun _ _ => true, fun _ => none, fun _ => true, 0⟩ fresh 8448 0).ret
        = -ENOTTY) ∧
    (IOC_TYPE 8448 = sampleCmds.MSG_MAGIC_NUMBER →
      IOC_NR 8448 ≤ sampleCmds.MSG_IOCTL_MAX_CMDS →
      (⟨fun _ _ => true, fun _ => none, fun _ => true, 0⟩ : IoctlEnv).access_ok 0
          (IOC_SIZE 8448) = false →
      (myioctl sampleCmds ⟨fun _ _ => true, fun _ => none, fun _ => true, 0⟩ fresh 8448 0).ret
        = -EFAULT) :=
  unknown_opcode_rejected sampleCmds ⟨fun _ _ => true, fun _ => none, fun _ => true, 0⟩ fresh
    8448 0 (by decide) (by decide) (by decide) (by decide)

/-- C16: ClearBuffer.  For every state, a clear command that passes validation returns
0, sets each of the `MAX_SIZE` buffer bytes to 0 and the high-water mark to 0, and
leaves the cursor unchanged; a read issued afterwards at any cursor returns 0. -/
theorem clear_buffer (c : IoctlCmds) (env : IoctlEnv) (d : Dev) (f_pos : Int) (arg : Nat)
    (hlen : d.kernel_buffer.length = MAX_SIZE)
    (htype : IOC_TYPE c.MSG_IOCTL_CLEAR_BUFFER = c.MSG_MAGIC_NUMBER)
    (hnr : IOC_NR c.MSG_IOCTL_CLEAR_BUFFER ≤ c.MSG_IOCTL_MAX_CMDS)
    (hget : c.MSG_IOCTL_CLEAR_BUFFER ≠ c.MSG_IOCTL_GET_LENGTH)
    (hok : env.access_ok arg (IOC_SIZE c.MSG_IOCTL_CLEAR_BUFFER) = true) :
    myioctl c env d c.MSG_IOCTL_CLEAR_BUFFER arg = ⟨0, ⟨List.replicate MAX_SIZE 0, 0⟩, none⟩ ∧
    step c ⟨d, f_pos⟩ (.ioctl env c.MSG_IOCTL_CLEAR_BUFFER arg)
      = some ⟨⟨List.replicate MAX_SIZE 0, 0⟩, f_pos⟩ ∧
    (∀ i : Nat, i < MAX_SIZE →
      (myioctl c env d c.MSG_IOCTL_CLEAR_BUFFER arg).dev.kernel_buffer[i]? = some 0) ∧
    (∀ (user_room user_lenght : Nat) (p : Int), 0 ≤ p →
      myRead (myioctl c env d c.MSG_IOCTL_CLEAR_BUFFER arg).dev user_room user_lenght p
        = some ⟨0, p, []⟩) := by
  have hmem : memset d.kernel_buffer 0 MAX_SIZE = List.replicate MAX_SIZE 0 := by
    unfold memset
    rw [List.drop_of_length_le (le_of_eq hlen), List.append_nil]
  have hio : myioctl c env d c.MSG_IOCTL_CLEAR_BUFFER arg
      = ⟨0, ⟨List.replicate MAX_SIZE 0, 0⟩, none⟩ := by
    unfold myioctl
    simp only [htype, hok, hget, hmem, ne_eq, not_true_eq_false, if_false, if_true,
      gt_iff_lt, Nat.not_lt.mpr hnr, Bool.true_eq_false]
  refine ⟨hio, by simp only [step, hio], ?_, ?_⟩
  · intro i hi
    rw [hio]
    show (List.replicate MAX_SIZE (0 : Byte))[i]? = some 0
    rw [List.getElem?_replicate, if_pos hi]
  · intro user_room user_lenght p hp
    rw [hio]
    unfold myRead
    rw [if_pos (by show p ≥ 0; omega)]

/-- C16, at a concrete input: the sample header and a device holding five bytes `7`. -/
theorem clear_buffer_witness :
    myioctl sampleCmds ⟨fun _ _ => true, fun _ => none, fun _ => true, 0⟩
        ⟨List.replicate 1024 7, 5⟩ sampleCmds.MSG_IOCTL_CLEAR_BUFFER 0
      = ⟨0, ⟨List.replicate MAX_SIZE 0, 0⟩, none⟩ ∧
    step sampleCmds ⟨⟨List.replicate 1024 7, 5⟩, 3⟩
        (.ioctl ⟨fun _ _ => true, fun _ => none, fun _ => true, 0⟩
          sampleCmds.MSG_IOCTL_CLEAR_BUFFER 0)
      = some ⟨⟨List.replicate MAX_SIZE 0, 0⟩, 3⟩ ∧
    (∀ i : Nat, i < MAX_SIZE →
      (myioctl sampleCmds ⟨fun _ _ => true, fun _ => none, fun _ => true, 0⟩
        ⟨List.replicate 1024 7, 5⟩ sampleCmds.MSG_IOCTL_CLEAR_BUFFER 0).dev.kernel_buffer[i]?
        = some 0) ∧
    (∀ (user_room user_lenght : Nat) (p : Int), 0 ≤ p →
      myRead (myioctl sampleCmds ⟨fun _ _ => true, fun _ => none, fun _ => true, 0⟩
        ⟨List.replicate 1024 7, 5⟩ sampleCmds.MSG_IOCTL_CLEAR_BUFFER 0).dev
        user_room user_lenght p = some ⟨0, p, []⟩) :=
  clear_buffer sampleCmds ⟨fun _ _ => true, fun _ => none, fun _ => true, 0⟩
    ⟨List.replicate 1024 7, 5⟩ 3 0 (List.length_replicate _ _) (by decide) (by decide)
    (by decide) rfl

/-- C17: FillBuffer.  For every state and every byte `b` fetched from the caller, a fill
command that passes validation returns 0, sets each of the `MAX_SIZE` buffer bytes to
`b` and the high-water mark to `MAX_SIZE - 1`, and leaves the cursor unchanged; a seek
to 0 and a read of `MAX_SIZE` bytes that follow return `MAX_SIZE - 1` bytes, all `b`. -/
theorem fill_buffer (c : IoctlCmds) (env : IoctlEnv) (d : Dev) (f_pos : Int) (arg : Nat)
    (b : Byte) (user_room : Nat) (hlen : d.kernel_buffer.length = MAX_SIZE)
    (htype : IOC_TYPE c.MSG_IOCTL_FILL_BUFFER = c.MSG_MAGIC_NUMBER)
    (hnr : IOC_NR c.MSG_IOCTL_FILL_BUFFER ≤ c.MSG_IOCTL_MAX_CMDS)
    (hget : c.MSG_IOCTL_FILL_BUFFER ≠ c.MSG_IOCTL_GET_LENGTH)
    (hclear : c.MSG_IOCTL_FILL_BUFFER ≠ c.MSG_IOCTL_CLEAR_BUFFER)
    (hok : env.access_ok arg (IOC_SIZE c.MSG_IOCTL_FILL_BUFFER) = true)
    (hb : env.get_user arg = some b) (hroom : MAX_SIZE - 1 ≤ user_room) :
    myioctl c env d c.MSG_IOCTL_FILL_BUFFER arg
      = ⟨0, ⟨List.replicate MAX_SIZE b, (MAX_SIZE : Int) - 1⟩, none⟩ ∧
    step c ⟨d, f_pos⟩ (.ioctl env c.MSG_IOCTL_FILL_BUFFER arg)
      = some ⟨⟨List.replicate MAX_SIZE b, (MAX_SIZE : Int) - 1⟩, f_pos⟩ ∧
    ∃ s r, run c ⟨d, f_pos⟩ [.ioctl env c.MSG_IOCTL_FILL_BUFFER arg, .lseek 0 SEEK_SET]
        = some s ∧
      s.f_pos = 0 ∧
      myRead s.dev user_room MAX_SIZE s.f_pos = some r ∧
      r.ret = (MAX_SIZE : Int) - 1 ∧ r.user_buffer = List.replicate (MAX_SIZE - 1) b := by
  have hmem : memset d.kernel_buffer b MAX_SIZE = List.replicate MAX_SIZE b := by
    unfold memset
    rw [List.drop_of_length_le (le_of_eq hlen), List.append_nil]
  have h32 : s32 ((MAX_SIZE : Int) - 1) = (MAX_SIZE : Int) - 1 :=
    s32_eq_self (by simp only [MAX_SIZE]; omega) (by simp only [MAX_SIZE]; omega)
  have hio : myioctl c env d c.MSG_IOCTL_FILL_BUFFER arg
      = ⟨0, ⟨List.replicate MAX_SIZE b, (MAX_SIZE : Int) - 1⟩, none⟩ := by
    unfold myioctl
    simp only [htype, hok, hget, hclear, hmem, h32, hb, Option.getD_some, ne_eq,
      not_true_eq_false, if_false, if_true, gt_iff_lt, Nat.not_lt.mpr hnr, Bool.true_eq_false]
  have hseek : ∀ (d : Dev) (p : Int), myLseek d p 0 SEEK_SET = ⟨0, 0⟩ := by
    intro d p
    simp [myLseek, SEEK_SET, MAX_SIZE]
  have hrun : run c ⟨d, f_pos⟩ [.ioctl env c.MSG_IOCTL_FILL_BUFFER arg, .lseek 0 SEEK_SET]
      = some ⟨⟨List.replicate MAX_SIZE b, (MAX_SIZE : Int) - 1⟩, 0⟩ := by
    simp only [run, step, hio, Option.some_bind, hseek]
  have hr := myRead_inside ⟨List.replicate MAX_SIZE b, (MAX_SIZE : Int) - 1⟩ user_room
    MAX_SIZE 0 (le_refl _)
    (by show (0 : Int) < (MAX_SIZE : Int) - 1; simp only [MAX_SIZE]; omega)
    (by show (MAX_SIZE : Int) - 1 ≤ MAX_SIZE; omega)
    (by show min MAX_SIZE (((MAX_SIZE : Int) - 1) - 0).toNat ≤ user_room
        simp only [MAX_SIZE] at *; omega)
  have hm : min MAX_SIZE (((MAX_SIZE : Int) - 1) - 0).toNat = MAX_SIZE - 1 := by
    simp only [MAX_SIZE]; omega
  simp only [hm] at hr
  refine ⟨hio, by simp only [step, hio], _, _, hrun, rfl, hr, ?_, ?_⟩
  · show (((MAX_SIZE - 1 : Nat)) : Int) = (MAX_SIZE : Int) - 1
    simp only [MAX_SIZE]; omega
  · show loadBytes (List.replicate MAX_SIZE b) 0 (MAX_SIZE - 1) = List.replicate (MAX_SIZE - 1) b
    unfold loadBytes
    rw [Int.toNat_zero, List.drop_zero, List.take_replicate, Nat.min_eq_left (Nat.sub_le _ _)]

/-- C17, at a concrete input: the sample header, the fill byte `0x42`, a destination of
2000 bytes. -/
theorem fill_buffer_witness :
    myioctl sampleCmds ⟨fun _ _ => true, fun _ => some 66, fun _ => true, 0⟩ fresh
        sampleCmds.MSG_IOCTL_FILL_BUFFER 0
      = ⟨0, ⟨List.replicate MAX_SIZE 66, (MAX_SIZE : Int) - 1⟩, none⟩ ∧
    step sampleCmds ⟨fresh, 9⟩ (.ioctl ⟨fun _ _ => true, fun _ => some 66, fun _ => true, 0⟩
        sampleCmds.MSG_IOCTL_FILL_BUFFER 0)
      = some ⟨⟨List.replicate MAX_SIZE 66, (MAX_SIZE : Int) - 1⟩, 9⟩ ∧
    ∃ s r, run sampleCmds ⟨fresh, 9⟩
        [.ioctl ⟨fun _ _ => true, fun _ => some 66, fun _ => true, 0⟩
          sampleCmds.MSG_IOCTL_FILL_BUFFER 0, .lseek 0 SEEK_SET] = some s ∧
      s.f_pos = 0 ∧
      myRead s.dev 2000 MAX_SIZE s.f_pos = some r ∧
      r.ret = (MAX_SIZE : Int) - 1 ∧ r.user_buffer = List.replicate (MAX_SIZE - 1) 66 :=
  fill_buffer sampleCmds ⟨fun _ _ => true, fun _ => some 66, fun _ => true, 0⟩ fresh 9 0 66 2000
    (List.length_replicate _ _) (by decide) (by decide) (by decide) (by decide) rfl rfl
    (by decide)

end CharDev

namespace SingleOpen

/-- Every `open` or `close` call takes a state with no session and counter 1, or one
session and counter 0, to a state of one of these two shapes. -/
theorem gateStep_shape (s : GateSys) (op : GateOp)
    (h : s = ⟨1, []⟩ ∨ ∃ p, s = ⟨0, [p]⟩) :
    gateStep s op = ⟨1, []⟩ ∨ ∃ p, gateStep s op = ⟨0, [p]⟩ := by
  rcases h with rfl | ⟨p, rfl⟩
  · cases op with
    | openFile => exact Or.inr ⟨0, by decide⟩
    | closeFile i => exact Or.inl rfl
  · cases op with
    | openFile => exact Or.inr ⟨p, rfl⟩
    | closeFile i =>
      cases i with
      | zero => exact Or.inl rfl
      | succ i => exact Or.inr ⟨p, rfl⟩

/-- Every sequence of `open` and `close` calls keeps the two shapes. -/
theorem gateRun_shape (ops : List GateOp) :
    ∀ s : GateSys, (s = ⟨1, []⟩ ∨ ∃ p, s = ⟨0, [p]⟩) →
      (gateRun s ops = ⟨1, []⟩ ∨ ∃ p, gateRun s ops = ⟨0, [p]⟩) := by
  induction ops with
  | nil => exact fun s h => h
  | cons op ops ih => exact fun s h => ih _ (gateStep_shape s op h)

/-- C18: Admission invariant (sequential).  In every state reached from the initial
state (counter 1, no open session) by a sequence of `open` and `close` calls, at most one
session is open and the counter `device_available` equals 1 minus the number of open
sessions, so it is 0 or 1. -/
theorem admission_invariant (ops : List GateOp) :
    (gateRun init ops).sessions.length ≤ 1 ∧
    (gateRun init ops).device_available = 1 - ((gateRun init ops).sessions.length : Int) ∧
    ((gateRun init ops).device_available = 0 ∨ (gateRun init ops).device_available = 1) := by
  rcases gateRun_shape ops init (Or.inl rfl) with h | ⟨p, h⟩
  · rw [h]; exact ⟨by decide, by decide, Or.inr rfl⟩
  · rw [h]; exact ⟨le_refl _, rfl, Or.inl rfl⟩

end SingleOpen

namespace MultiDev

open CharDev (Byte Dev ReadResult SeekResult MAX_SIZE EINVAL)

/-- C19: the count is not checked in `multiple_device_nodes_private_data.c`.  For every
`count` above `MAX_DEVICES`, when the kernel grants every registration call,
`multiple_device_init` returns 0 after reserving `count` device numbers and creating the
class and five device nodes and cdevs, whereas `multiple_device_init` of
`multiple_device_nodes_private_data_other_version.c` returns `-EINVAL` and makes no
registration call. -/
theorem init_accepts_large_count (env : InitEnv) (basecount count : Int)
    (msg_devices : List Dev) (hcount : count > MAX_DEVICES)
    (halloc : env.alloc_chrdev_region = 0) (hclass : env.class_create = none)
    (hdev : ∀ i, env.device_create i = none) (hadd : ∀ i, 0 ≤ env.cdev_add i) :
    (multiple_device_init env basecount count msg_devices).ret = 0 ∧
    (multiple_device_init env basecount count msg_devices).calls =
      [KCall.alloc_chrdev_region basecount count, KCall.class_create,
       KCall.device_create env.major 0 0, KCall.cdev_init 0, KCall.cdev_add 0 env.major 0,
       KCall.device_create env.major 1 1, KCall.cdev_init 1, KCall.cdev_add 1 env.major 1,
       KCall.device_create env.major 2 2, KCall.cdev_init 2, KCall.cdev_add 2 env.major 2,
       KCall.device_create env.major 3 3, KCall.cdev_init 3, KCall.cdev_add 3 env.major 3,
       KCall.device_create env.major 4 4, KCall.cdev_init 4, KCall.cdev_add 4 env.major 4] ∧
    (MultiDevOther.multiple_device_init env basecount count msg_devices).ret = -EINVAL ∧
    (MultiDevOther.multiple_device_init env basecount count msg_devices).calls = [] ∧
    (MultiDevOther.multiple_device_init env basecount count msg_devices).msg_devices
      = msg_devices := by
  have hnot : ∀ i, ¬ (env.cdev_add i < 0) := fun i => not_lt.mpr (hadd i)
  refine ⟨?_, ?_, ?_, ?_, ?_⟩
  · simp [multiple_device_init, initLoop, MAX_DEVICES, halloc, hclass, hdev, hnot]
  · simp [multiple_device_init, initLoop, MAX_DEVICES, halloc, hclass, hdev, hnot]
  · simp only [MultiDevOther.multiple_device_init, hcount, if_true]
  · simp only [MultiDevOther.multiple_device_init, hcount, if_true]
  · simp only [MultiDevOther.multiple_device_init, hcount, if_true]

/-- C19, at a concrete input: `count = 6`, `basecount = 0`, major 240 and a kernel that
grants every call. -/
theorem init_accepts_large_count_witness :
    (multiple_device_init ⟨0, 240, none, fun _ => none, fun _ => 0⟩ 0 6 []).ret = 0 ∧
    (multiple_device_init ⟨0, 240, none, fun _ => none, fun _ => 0⟩ 0 6 []).calls =
      [KCall.alloc_chrdev_region 0 6, KCall.class_create,
       KCall.device_create 240 0 0, KCall.cdev_init 0, KCall.cdev_add 0 240 0,
       KCall.device_create 240 1 1, KCall.cdev_init 1, KCall.cdev_add 1 240 1,
       KCall.device_create 240 2 2, KCall.cdev_init 2, KCall.cdev_add 2 240 2,
       KCall.device_create 240 3 3, KCall.cdev_init 3, KCall.cdev_add 3 240 3,
       KCall.device_create 240 4 4, KCall.cdev_init 4, KCall.cdev_add 4 240 4] ∧
    (MultiDevOther.multiple_device_init ⟨0, 240, none, fun _ => none, fun _ => 0⟩ 0 6 []).ret
      = -EINVAL ∧
    (MultiDevOther.multiple_device_init ⟨0, 240, none, fun _ => none, fun _ => 0⟩ 0 6 []).calls
      = [] ∧
    (MultiDevOther.multiple_device_init ⟨0, 240, none, fun _ => none, fun _ => 0⟩ 0 6
      []).msg_devices = [] :=
  init_accepts_large_count ⟨0, 240, none, fun _ => none, fun _ => 0⟩ 0 6 [] (by decide) rfl rfl
    (fun _ => rfl) (fun _ => le_refl _)

/-- C20: Instance independence.  `myOpen` binds the file to the instance the inode names,
with cursor 0.  For every read, write or seek made through an open file bound to
instance `i` (cursor not negative, high-water mark of instance `i` at most `MAX_SIZE`),
the call returns, and for every `j ≠ i` the buffer and high-water mark of instance `j`
are unchanged, as is every other open file, its cursor included. -/
theorem instance_independence (s : MSys) (k : Nat) (op : FileOp) (file : File)
    (my_device : Dev) (hfile : s.files[k]? = some file)
    (hdev : s.msg_devices[file.private_data]? = some my_device)
    (h0 : 0 ≤ file.f_pos) (hk : my_device.kernel_buffer_index ≤ MAX_SIZE) :
    (∀ (i : Nat) (f : File), myOpen i f = (0, ⟨i, 0⟩)) ∧
    ∃ s1, mstep s k op = some s1 ∧
      (∀ j, j ≠ file.private_data → s1.msg_devices[j]? = s.msg_devices[j]?) ∧
      (∀ m, m ≠ k → s1.files[m]? = s.files[m]?) ∧
      s1.msg_devices.length = s.msg_devices.length ∧
      s1.files.length = s.files.length := by
  refine ⟨fun _ _ => rfl, ?_⟩
  cases op with
  | read user_room user_lenght =>
    obtain ⟨r, hr, _⟩ := CharDev.myRead_total my_device user_room user_lenght file.f_pos h0 hk
    refine ⟨⟨s.msg_devices,
        s.files.set k ⟨file.private_data, if r.ret ≥ 0 then r.offset else file.f_pos⟩⟩,
      by simp only [mstep, hfile, myRead, hdev, hr, Option.map_some'],
      fun j _ => rfl, fun m hm => ?_, rfl, ?_⟩
    · exact List.getElem?_set_ne (Ne.symm hm)
    · exact List.length_set _ _ _
  | write user_buffer user_lenght =>
    obtain ⟨r, hr, _⟩ := CharDev.myWrite_ret my_device user_buffer user_lenght file.f_pos h0
    refine ⟨⟨s.msg_devices.set file.private_data r.dev,
        s.files.set k ⟨file.private_data, if r.ret ≥ 0 then r.offset else file.f_pos⟩⟩,
      by simp only [mstep, hfile, myWrite, hdev, hr, Option.map_some'],
      fun j hj => ?_, fun m hm => ?_, ?_, ?_⟩
    · exact List.getElem?_set_ne (Ne.symm hj)
    · exact List.getElem?_set_ne (Ne.symm hm)
    · exact List.length_set _ _ _
    · exact List.length_set _ _ _
  | lseek offset whence =>
    refine ⟨⟨s.msg_devices, s.files.set k
        ⟨file.private_data, (CharDev.myLseek my_device file.f_pos offset whence).f_pos⟩⟩,
      by simp only [mstep, hfile, myLseek, hdev, Option.map_some'],
      fun j _ => rfl, fun m hm => ?_, rfl, ?_⟩
    · exact List.getElem?_set_ne (Ne.symm hm)
    · exact List.length_set _ _ _

/-- C20, at a concrete input: two fresh instances, one open file on each, and a write of
three bytes through the file on instance 0. -/
theorem instance_independence_witness :
    (∀ (i : Nat) (f : File), myOpen i f = (0, ⟨i, 0⟩)) ∧
    ∃ s1, mstep ⟨[CharDev.fresh, CharDev.fresh], [⟨0, 0⟩, ⟨1, 0⟩]⟩ 0 (.write [1, 2, 3] 3)
        = some s1 ∧
      (∀ j, j ≠ (⟨0, 0⟩ : File).private_data →
        s1.msg_devices[j]? = [CharDev.fresh, CharDev.fresh][j]?) ∧
      (∀ m, m ≠ 0 → s1.files[m]? = ([⟨0, 0⟩, ⟨1, 0⟩] : List File)[m]?) ∧
      s1.msg_devices.length = [CharDev.fresh, CharDev.fresh].length ∧
      s1.files.length = ([⟨0, 0⟩, ⟨1, 0⟩] : List File).length :=
  instance_independence ⟨[CharDev.fresh, CharDev.fresh], [⟨0, 0⟩, ⟨1, 0⟩]⟩ 0
    (.write [1, 2, 3] 3) ⟨0, 0⟩ CharDev.fresh rfl rfl (by decide) (by decide)

end MultiDev

namespace CharDev

/-- A fill command that passes validation returns 0, fills the buffer with the byte
`get_user` left in `ch` (0 when the fetch faulted) and sets the high-water mark to
`MAX_SIZE - 1`. -/
theorem myioctl_fill (c : IoctlCmds) (env : IoctlEnv) (d : Dev) (arg : Nat)
    (htype : IOC_TYPE c.MSG_IOCTL_FILL_BUFFER = c.MSG_MAGIC_NUMBER)
    (hnr : IOC_NR c.MSG_IOCTL_FILL_BUFFER ≤ c.MSG_IOCTL_MAX_CMDS)
    (hget : c.MSG_IOCTL_FILL_BUFFER ≠ c.MSG_IOCTL_GET_LENGTH)
    (hclear : c.MSG_IOCTL_FILL_BUFFER ≠ c.MSG_IOCTL_CLEAR_BUFFER)
    (hok : env.access_ok arg (IOC_SIZE c.MSG_IOCTL_FILL_BUFFER) = true) :
    myioctl c env d c.MSG_IOCTL_FILL_BUFFER arg =
      ⟨0, ⟨memset d.kernel_buffer ((env.get_user arg).getD 0) MAX_SIZE, (MAX_SIZE : Int) - 1⟩,
        none⟩ := by
  have h32 : s32 ((MAX_SIZE : Int) - 1) = (MAX_SIZE : Int) - 1 :=
    s32_eq_self (by simp only [MAX_SIZE]; omega) (by simp only [MAX_SIZE]; omega)
  unfold myioctl
  simp only [htype, hok, hget, hclear, h32, ne_eq, not_true_eq_false, if_false, if_true,
    gt_iff_lt, Nat.not_lt.mpr hnr, Bool.true_eq_false]

/-- C22: the fetch fault is not reported.  For every state, when the fill command passes
validation and `get_user` fails to fetch the fill byte, `myioctl` returns 0 (not
`-EFAULT`), overwrites each of the `MAX_SIZE` buffer bytes with 0 and sets the
high-water mark to `MAX_SIZE - 1`. -/
theorem fill_buffer_ignores_fetch_fault (c : IoctlCmds) (env : IoctlEnv) (d : Dev) (arg : Nat)
    (hlen : d.kernel_buffer.length = MAX_SIZE)
    (htype : IOC_TYPE c.MSG_IOCTL_FILL_BUFFER = c.MSG_MAGIC_NUMBER)
    (hnr : IOC_NR c.MSG_IOCTL_FILL_BUFFER ≤ c.MSG_IOCTL_MAX_CMDS)
    (hget : c.MSG_IOCTL_FILL_BUFFER ≠ c.MSG_IOCTL_GET_LENGTH)
    (hclear : c.MSG_IOCTL_FILL_BUFFER ≠ c.MSG_IOCTL_CLEAR_BUFFER)
    (hok : env.access_ok arg (IOC_SIZE c.MSG_IOCTL_FILL_BUFFER) = true)
    (hfault : env.get_user arg = none) :
    myioctl c env d c.MSG_IOCTL_FILL_BUFFER arg
      = ⟨0, ⟨List.replicate MAX_SIZE 0, (MAX_SIZE : Int) - 1⟩, none⟩ ∧
    (myioctl c env d c.MSG_IOCTL_FILL_BUFFER arg).ret ≠ -EFAULT := by
  have hio := myioctl_fill c env d arg htype hnr hget hclear hok
  have hmem : memset d.kernel_buffer 0 MAX_SIZE = List.replicate MAX_SIZE 0 := by
    unfold memset
    rw [List.drop_of_length_le (le_of_eq hlen), List.append_nil]
  rw [hfault, Option.getD_none, hmem] at hio
  refine ⟨hio, ?_⟩
  rw [hio]
  decide

/-- C22, at a concrete input: the sample header, a device holding five bytes `7`, and an
argument that passes `access_ok` but cannot be read. -/
theorem fill_buffer_ignores_fetch_fault_witness :
    myioctl sampleCmds ⟨fun _ _ => true, fun _ => none, fun _ => true, 0⟩
        ⟨List.replicate 1024 7, 5⟩ sampleCmds.MSG_IOCTL_FILL_BUFFER 0
      = ⟨0, ⟨List.replicate MAX_SIZE 0, (MAX_SIZE : Int) - 1⟩, none⟩ ∧
    (myioctl sampleCmds ⟨fun _ _ => true, fun _ => none, fun _ => true, 0⟩
        ⟨List.replicate 1024 7, 5⟩ sampleCmds.MSG_IOCTL_FILL_BUFFER 0).ret ≠ -EFAULT :=
  fill_buffer_ignores_fetch_fault sampleCmds ⟨fun _ _ => true, fun _ => none, fun _ => true, 0⟩
    ⟨List.replicate 1024 7, 5⟩ 0 (List.length_replicate _ _) (by decide) (by decide)
    (by decide) (by decide) rfl rfl

/-- C23, as stated, fails when the sum leaves the signed 64-bit range: with the cursor at
1024 and the offset `2^63 - 1` the sum exceeds the capacity, the 64-bit addition wraps to
a negative value, and `myLseek` returns `-EINVAL` with the cursor unchanged. -/
theorem seek_overflow_rejected :
    (0 : Int) ≤ 1024 ∧ (1024 : Int) ≤ MAX_SIZE ∧
    (-9223372036854775808 : Int) ≤ 9223372036854775807 ∧
    (9223372036854775807 : Int) < 9223372036854775808 ∧
    (1024 : Int) + 9223372036854775807 > MAX_SIZE ∧
    myLseek fresh 1024 9223372036854775807 SEEK_CUR = ⟨-EINVAL, 1024⟩ ∧
    (⟨-EINVAL, 1024⟩ : SeekResult) ≠ ⟨MAX_SIZE, MAX_SIZE⟩ := by
  refine ⟨by decide, by decide, by decide, by decide, by decide, by rfl, by decide⟩

/-- C23, amended: for every cursor and high-water mark in `[0, MAX_SIZE]` and every 64-bit
signed offset, a seek from the current position (from the end) whose exact sum exceeds
`MAX_SIZE` and fits in signed 64 bits returns `MAX_SIZE` and sets the cursor to
`MAX_SIZE`; when the exact sum exceeds the signed 64-bit range the wrapped sum is
negative and `myLseek` returns `-EINVAL` and leaves the cursor unchanged. -/
theorem seek_near_limit (d : Dev) (f_pos offset : Int)
    (hp0 : 0 ≤ f_pos) (hp1 : f_pos ≤ MAX_SIZE)
    (hk0 : 0 ≤ d.kernel_buffer_index) (hk1 : d.kernel_buffer_index ≤ MAX_SIZE)
    (ho0 : -9223372036854775808 ≤ offset) (ho1 : offset < 9223372036854775808) :
    ((MAX_SIZE : Int) < f_pos + offset → f_pos + offset < 9223372036854775808 →
      myLseek d f_pos offset SEEK_CUR = ⟨MAX_SIZE, MAX_SIZE⟩) ∧
    (9223372036854775808 ≤ f_pos + offset →
      myLseek d f_pos offset SEEK_CUR = ⟨-EINVAL, f_pos⟩) ∧
    ((MAX_SIZE : Int) < d.kernel_buffer_index + offset →
      d.kernel_buffer_index + offset < 9223372036854775808 →
      myLseek d f_pos offset SEEK_END = ⟨MAX_SIZE, MAX_SIZE⟩) ∧
    (9223372036854775808 ≤ d.kernel_buffer_index + offset →
      myLseek d f_pos offset SEEK_END = ⟨-EINVAL, f_pos⟩) := by
  have big : ∀ x : Int, (MAX_SIZE : Int) < x → x < 9223372036854775808 →
      s64 x = x ∧ ¬ (x < 0) ∧ x > (MAX_SIZE : Int) := by
    intro x h1 h2
    exact ⟨s64_eq_self (by simp only [MAX_SIZE] at h1; omega) h2,
      by simp only [MAX_SIZE] at h1; omega, h1⟩
  have wrap : ∀ x : Int, 9223372036854775808 ≤ x → x < 9223372036854775808 + 1025 →
      s64 x < 0 := by
    intro x h1 h2
    unfold s64; omega
  refine ⟨?_, ?_, ?_, ?_⟩
  · intro h1 h2
    obtain ⟨e, hn, hg⟩ := big _ h1 h2
    simp [myLseek, SEEK_SET, SEEK_CUR, e, hn, hg]
  · intro h1
    have hw := wrap (f_pos + offset) h1 (by simp only [MAX_SIZE] at hp1; omega)
    simp [myLseek, SEEK_SET, SEEK_CUR, hw]
  · intro h1 h2
    obtain ⟨e, hn, hg⟩ := big _ h1 h2
    simp [myLseek, SEEK_SET, SEEK_CUR, SEEK_END, e, hn, hg]
  · intro h1
    have hw := wrap (d.kernel_buffer_index + offset) h1 (by simp only [MAX_SIZE] at hk1; omega)
    simp [myLseek, SEEK_SET, SEEK_CUR, SEEK_END, hw]

/-- C23, amended, at a concrete input: a fresh instance, cursor 1024, offset `2^63 - 1`. -/
theorem seek_near_limit_witness :
    ((MAX_SIZE : Int) < 1024 + 9223372036854775807 →
      (1024 : Int) + 9223372036854775807 < 9223372036854775808 →
      myLseek fresh 1024 9223372036854775807 SEEK_CUR = ⟨MAX_SIZE, MAX_SIZE⟩) ∧
    ((9223372036854775808 : Int) ≤ 1024 + 9223372036854775807 →
      myLseek fresh 1024 9223372036854775807 SEEK_CUR = ⟨-EINVAL, 1024⟩) ∧
    ((MAX_SIZE : Int) < fresh.kernel_buffer_index + 9223372036854775807 →
      fresh.kernel_buffer_index + 9223372036854775807 < 9223372036854775808 →
      myLseek fresh 1024 9223372036854775807 SEEK_END = ⟨MAX_SIZE, MAX_SIZE⟩) ∧
    ((9223372036854775808 : Int) ≤ fresh.kernel_buffer_index + 9223372036854775807 →
      myLseek fresh 1024 9223372036854775807 SEEK_END = ⟨-EINVAL, 1024⟩) :=
  seek_near_limit fresh 1024 9223372036854775807 (by decide) (by decide) (by decide)
    (by decide) (by decide) (by decide)

/-- C30: Invalid whence.  For every whence value other than `SEEK_SET`, `SEEK_CUR` and
`SEEK_END` and every offset, `myLseek` (of `using_misc_driver_with_yours.c` and of
`multiple_device_nodes_private_data_other_version.c`) returns `-EINVAL` and leaves the
cursor unchanged. -/
theorem seek_invalid_whence (d : Dev) (f_pos offset whence : Int)
    (h1 : whence ≠ SEEK_SET) (h2 : whence ≠ SEEK_CUR) (h3 : whence ≠ SEEK_END) :
    myLseek d f_pos offset whence = ⟨-EINVAL, f_pos⟩ ∧
    MultiDevOther.myLseek d f_pos offset whence = ⟨-EINVAL, f_pos⟩ := by
  constructor
  · unfold myLseek
    simp only [h1, h2, h3, if_false]
  · unfold MultiDevOther.myLseek
    simp only [h1, h2, h3, if_false]

/-- C30, at a concrete input: whence 3 (`SEEK_DATA`), cursor 5, offset 10. -/
theorem seek_invalid_whence_witness :
    myLseek fresh 5 10 3 = ⟨-EINVAL, 5⟩ ∧
    MultiDevOther.myLseek fresh 5 10 3 = ⟨-EINVAL, 5⟩ :=
  seek_invalid_whence fresh 5 10 3 (by decide) (by decide) (by decide)

end CharDev

namespace SingleOpen

open CharDev (s32 EBUSY)

/-- C24, as stated, fails: with the gate held (counter 0) the decrement gives `-1`,
`myOpen` reports `-EBUSY`, and the counter is 0 when the call returns, not 1. -/
theorem busy_leaves_counter_zero :
    (atomic_dec_and_test 0).2 = false ∧ myOpen 0 7 = ⟨-EBUSY, 0, 7⟩ ∧ (0 : Int) ≠ 1 := by
  decide

/-- A refused `myOpen` that runs without interference: when `myOpen` finds the counter
non-zero after the decrement and no other call touches the counter before its
increment, it reports `-EBUSY` and leaves the counter at the value it had before the
call, which is not 1. -/
theorem busy_restores_counter (device_available f_pos : Int)
    (hlo : -2147483648 ≤ device_available) (hhi : device_available < 2147483648)
    (hbusy : (atomic_dec_and_test device_available).2 = false) :
    myOpen device_available f_pos = ⟨-EBUSY, device_available, f_pos⟩ ∧
    (myOpen device_available f_pos).device_available ≠ 1 := by
  have hne : s32 (device_available - 1) ≠ 0 := by
    simpa [atomic_dec_and_test] using hbusy
  have hv : device_available ≠ 1 := by
    intro h; rw [h] at hne; exact hne (by decide)
  have hback : s32 (s32 (device_available - 1) + 1) = device_available := by
    unfold s32; omega
  have ho : myOpen device_available f_pos = ⟨-EBUSY, device_available, f_pos⟩ := by
    simp [myOpen, atomic_dec_and_test, atomic_inc, hne, hback]
  exact ⟨ho, by rw [ho]; exact hv⟩

/-- Release for calls that do not overlap: `myRelease` tests nothing and adds one to the
counter, which gives 1 exactly from 0; in every state reached from the initial state by
whole `open` and `close` calls, closing an open session leaves the counter at 1 and the
next `open` is granted. -/
theorem release_after_acquire (device_available : Int) (ops : List GateOp) (i : Nat)
    (hlo : -2147483648 ≤ device_available) (hhi : device_available < 2147483648)
    (hi : i < (gateRun init ops).sessions.length) :
    myRelease device_available = (0, s32 (device_available + 1)) ∧
    ((myRelease device_available).2 = 1 ↔ device_available = 0) ∧
    (sysClose (gateRun init ops) i).device_available = 1 ∧
    (sysOpen (sysClose (gateRun init ops) i)).1 = 0 := by
  refine ⟨rfl, ?_, ?_⟩
  · show s32 (device_available + 1) = 1 ↔ device_available = 0
    unfold s32; omega
  · rcases gateRun_shape ops init (Or.inl rfl) with h | ⟨p, h⟩
    · rw [h] at hi; exact absurd hi (Nat.not_lt_zero i)
    · rw [h] at hi ⊢
      have hi0 : i = 0 := by
        have : i < 1 := hi
        omega
      subst hi0
      exact ⟨rfl, rfl⟩

end SingleOpen

namespace OldOffset

open CharDev (fresh)

/-- C26: Unbounded read cursor in the old variant.  In `copy_to_user_buffer_offset_old.c`
a read of 100 bytes on a fresh buffer (high-water mark 0, cursor 0) returns 100, stores
100 bytes at the caller and advances the cursor by the 100 bytes requested, past the
high-water mark 0 (0 bytes were available). -/
theorem old_read_passes_valid_length :
    fresh.kernel_buffer_index = 0 ∧
    myRead fresh 100 100 0 = some ⟨100, 100, List.replicate 100 0⟩ ∧
    ∃ r, myRead fresh 100 100 0 = some r ∧ r.offset = 0 + 100 ∧
      r.offset > fresh.kernel_buffer_index := by
  refine ⟨rfl, by rfl, ⟨100, 100, List.replicate 100 0⟩, by rfl, by decide, by decide⟩

end OldOffset

namespace PseudoOverlay

open CharDev (s32 s64 u64 copy_to_user s32_eq_self s64_eq_self u64_eq_toNat)

/-- C28: the request length is ignored.  For every platform data whose text has at most
63 bytes, every `count` below the length of the text and a destination with room for
the text, `pseudo_read` at position 0 stores the whole text at the caller and returns
its length, both more than `count`. -/
theorem pseudo_read_ignores_count (pdata : pseudo_platform_data) (user_room count : Nat)
    (hlen : (formatMsg pdata).length ≤ 63)
    (hroom : (formatMsg pdata).length ≤ user_room)
    (hcount : count < (formatMsg pdata).length) :
    pseudo_read pdata user_room count 0 =
      some ⟨(formatMsg pdata).length, (formatMsg pdata).length, formatMsg pdata⟩ ∧
    ∃ r, pseudo_read pdata user_room count 0 = some r ∧ (count : Int) < r.ret ∧
      count < r.user_buffer.length := by
  have h32 : s32 ((formatMsg pdata).length : Int) = (formatMsg pdata).length :=
    s32_eq_self (by omega) (by omega)
  have hu : u64 ((formatMsg pdata).length : Int) = (formatMsg pdata).length := by
    rw [u64_eq_toNat (by omega) (by omega)]; omega
  have hs : s64 (0 + ((formatMsg pdata).length : Int)) = (formatMsg pdata).length := by
    rw [s64_eq_self (by omega) (by omega)]; omega
  have hnot : ¬ ((0 : Int) ≥ ((formatMsg pdata).length : Int)) := by omega
  have htake : ((formatMsg pdata).take 63 ++ [0]).take (formatMsg pdata).length
      = formatMsg pdata := by
    rw [List.take_of_length_le hlen, List.take_append_of_le_length (le_refl _),
      List.take_length]
  have hmin : min (formatMsg pdata).length user_room = (formatMsg pdata).length :=
    Nat.min_eq_left hroom
  have hr : pseudo_read pdata user_room count 0 =
      some ⟨(formatMsg pdata).length, (formatMsg pdata).length, formatMsg pdata⟩ := by
    unfold pseudo_read
    simp only [h32, hu, hs, htake, copy_to_user, hmin, Nat.sub_self, List.take_length]
    rw [if_neg hnot, if_pos (by omega)]
    simp
  exact ⟨hr, _, hr, by simpa using hcount, hcount⟩

/-- C28, at a concrete input: the label `unknown`, the value 0, a request of 1 byte and
a destination with room for 100; the 23 bytes of the text are stored and 23 is
returned. -/
theorem pseudo_read_ignores_count_witness :
    pseudo_read ⟨0, [117, 110, 107, 110, 111, 119, 110]⟩ 100 1 0 =
      some ⟨(formatMsg ⟨0, [117, 110, 107, 110, 111, 119, 110]⟩).length,
        (formatMsg ⟨0, [117, 110, 107, 110, 111, 119, 110]⟩).length,
        formatMsg ⟨0, [117, 110, 107, 110, 111, 119, 110]⟩⟩ ∧
    ∃ r, pseudo_read ⟨0, [117, 110, 107, 110, 111, 119, 110]⟩ 100 1 0 = some r ∧
      ((1 : Nat) : Int) < r.ret ∧ 1 < r.user_buffer.length :=
  pseudo_read_ignores_count ⟨0, [117, 110, 107, 110, 111, 119, 110]⟩ 100 1 (by decide)
    (by decide) (by decide)

end PseudoOverlay

namespace CharDev

/-- What a read of the bytes just stored at the start of the buffer finds. -/
theorem loadBytes_storeBytes_zero (buf B : List Byte) :
    loadBytes (storeBytes buf 0 B) 0 B.length = B := by
  simp [loadBytes, storeBytes]

/-- C29: State persists across sessions.  `myRelease` and `myOpen` do not touch the
globals: closing the session and opening a new one keeps buffer and high-water mark and
sets the cursor to 0, so for every `B` of at most `MAX_SIZE` bytes written at cursor 0
in one session, a read of `len(B)` bytes from cursor 0 in the next session returns `B`.
In the single-open variant the close and the following open also succeed with cursor
0. -/
theorem state_persists_across_sessions (c : IoctlCmds) (d : Dev) (B : List Byte)
    (user_room : Nat) (f_pos : Int)
    (hk : d.kernel_buffer_index ≤ MAX_SIZE)
    (hB : B.length ≤ MAX_SIZE) (hroom : B.length ≤ user_room) :
    (∀ s : Sys, sessionClose s = (0, s.dev) ∧ sessionOpen s.dev = (0, ⟨s.dev, 0⟩)) ∧
    (∃ s1 r, step c ⟨d, 0⟩ (.write B B.length) = some s1 ∧
      myRead (sessionOpen (sessionClose s1).2).2.dev user_room B.length
        (sessionOpen (sessionClose s1).2).2.f_pos = some r ∧
      r.ret = B.length ∧ r.user_buffer = B) ∧
    (SingleOpen.myRelease 0).2 = 1 ∧
    SingleOpen.myOpen (SingleOpen.myRelease 0).2 f_pos = ⟨0, 0, 0⟩ := by
  refine ⟨fun s => ⟨rfl, rfl⟩, ?_, by decide, rfl⟩
  by_cases hB0 : B.length = 0
  · have hnil : B = [] := List.length_eq_zero.mp hB0
    subst hnil
    have hw : myWrite d [] ([] : List Byte).length 0 = some ⟨-ENOSPC, 0, d⟩ :=
      myWrite_zero d [] 0 (by simp only [MAX_SIZE]; omega)
    have hstep : step c ⟨d, 0⟩ (.write [] ([] : List Byte).length) = some ⟨d, 0⟩ := by
      simp only [step, hw, Option.map_some']
      rfl
    refine ⟨⟨d, 0⟩, ⟨0, 0, []⟩, hstep, ?_, rfl, rfl⟩
    show myRead d user_room 0 0 = some ⟨0, 0, []⟩
    by_cases hge : (0 : Int) ≥ d.kernel_buffer_index
    · unfold myRead; rw [if_pos hge]
    · have hr := myRead_inside d user_room 0 0 (le_refl _) (by omega) hk (by omega)
      rw [hr]
      simp [loadBytes]
  · have hw := myWrite_inside d B B.length 0 (le_refl _) (by simp only [MAX_SIZE]; omega)
      (by omega) (Nat.min_le_left _ _)
    have hm : min B.length (MAX_SIZE - Int.toNat 0) = B.length :=
      Nat.min_eq_left (by simp only [MAX_SIZE] at *; omega)
    rw [hm, List.take_length] at hw
    have hstep : step c ⟨d, 0⟩ (.write B B.length)
        = some ⟨⟨storeBytes d.kernel_buffer 0 B,
            max d.kernel_buffer_index (0 + (B.length : Int))⟩, 0 + (B.length : Int)⟩ := by
      simp only [step, hw, Option.map_some']
      rw [if_pos (by omega)]
    have hr := myRead_inside
      ⟨storeBytes d.kernel_buffer 0 B, max d.kernel_buffer_index (0 + (B.length : Int))⟩
      user_room B.length 0 (le_refl _)
      (by show (0 : Int) < max d.kernel_buffer_index (0 + (B.length : Int)); omega)
      (by show max d.kernel_buffer_index (0 + (B.length : Int)) ≤ (MAX_SIZE : Int)
          simp only [MAX_SIZE] at *; omega)
      (by show min B.length (max d.kernel_buffer_index (0 + (B.length : Int)) - 0).toNat
            ≤ user_room
          omega)
    have hm2 : min B.length (max d.kernel_buffer_index (0 + (B.length : Int)) - 0).toNat
        = B.length := by omega
    simp only [hm2] at hr
    refine ⟨_, _, hstep, hr, rfl, ?_⟩
    exact loadBytes_storeBytes_zero _ _

/-- C29, at a concrete input: the three bytes `1, 2, 3` written to a fresh instance. -/
theorem state_persists_across_sessions_witness :
    (∀ s : Sys, sessionClose s = (0, s.dev) ∧ sessionOpen s.dev = (0, ⟨s.dev, 0⟩)) ∧
    (∃ s1 r, step sampleCmds ⟨fresh, 0⟩ (.write [1, 2, 3] ([1, 2, 3] : List Byte).length)
        = some s1 ∧
      myRead (sessionOpen (sessionClose s1).2).2.dev 3 ([1, 2, 3] : List Byte).length
        (sessionOpen (sessionClose s1).2).2.f_pos = some r ∧
      r.ret = ([1, 2, 3] : List Byte).length ∧ r.user_buffer = [1, 2, 3]) ∧
    (SingleOpen.myRelease 0).2 = 1 ∧
    SingleOpen.myOpen (SingleOpen.myRelease 0).2 9 = ⟨0, 0, 0⟩ :=
  state_persists_across_sessions sampleCmds fresh [1, 2, 3] 3 9 (by decide) (by decide)
    (by decide)

end CharDev

namespace CharDev

/-- On a cursor that is not negative `myRead` returns, and what it stores at the caller
is a prefix of the `min n (valid_length - cursor)` bytes at the cursor. -/
theorem myRead_copied (d : Dev) (user_room user_lenght : Nat) (offset : Int)
    (h0 : 0 ≤ offset) (h2 : d.kernel_buffer_index ≤ MAX_SIZE) :
    ∃ r, myRead d user_room user_lenght offset = some r ∧
      r.user_buffer = (loadBytes d.kernel_buffer offset
        (min user_lenght (d.kernel_buffer_index - offset).toNat)).take
          (min (min user_lenght (d.kernel_buffer_index - offset).toNat) user_room) := by
  by_cases hge : offset ≥ d.kernel_buffer_index
  · refine ⟨⟨0, offset, []⟩, by unfold myRead; rw [if_pos hge], ?_⟩
    have hz : min user_lenght (d.kernel_buffer_index - offset).toNat = 0 := by omega
    rw [hz]
    simp
  · have h1 : offset < d.kernel_buffer_index := by omega
    by_cases hcopy : min user_lenght (d.kernel_buffer_index - offset).toNat ≤ user_room
    · refine ⟨_, myRead_inside d user_room user_lenght offset h0 h1 h2 hcopy, ?_⟩
      show loadBytes d.kernel_buffer offset _ = _
      rw [Nat.min_eq_left hcopy]
      unfold loadBytes
      rw [List.take_take, Nat.min_self]
    · exact ⟨_, myRead_fault d user_room user_lenght offset h0 h1 h2 (by omega), rfl⟩

/-- On a cursor that is not negative `myWrite` returns, and every buffer byte outside
the `min n (MAX_SIZE - cursor)` bytes at the cursor is what it was. -/
theorem myWrite_frame (d : Dev) (user_buffer : List Byte) (user_lenght : Nat) (offset : Int)
    (hlen : d.kernel_buffer.length = MAX_SIZE) (h0 : 0 ≤ offset) :
    ∃ r, myWrite d user_buffer user_lenght offset = some r ∧
      ∀ i : Nat, i < offset.toNat ∨
          offset.toNat + min user_lenght (MAX_SIZE - offset.toNat) ≤ i →
        r.dev.kernel_buffer[i]? = d.kernel_buffer[i]? := by
  by_cases hge : offset ≥ (MAX_SIZE : Int)
  · exact ⟨⟨-ENOSPC, offset, d⟩, by unfold myWrite; rw [if_pos hge], fun _ _ => rfl⟩
  · have h1 : offset < MAX_SIZE := by omega
    by_cases hn : user_lenght = 0
    · subst hn
      exact ⟨_, myWrite_zero d user_buffer offset h1, fun _ _ => rfl⟩
    · generalize ha : min user_lenght (MAX_SIZE - offset.toNat) = a
      have hfit : offset.toNat + a ≤ d.kernel_buffer.length := by
        rw [hlen]; simp only [MAX_SIZE] at *; omega
      by_cases hcopy : a ≤ user_buffer.length
      · have hw := myWrite_inside d user_buffer user_lenght offset h0 h1 (by omega)
          (by rw [ha]; exact hcopy)
        rw [ha] at hw
        have htl : (user_buffer.take a).length = a := by rw [List.length_take]; omega
        refine ⟨_, hw, fun i hi => ?_⟩
        exact storeBytes_outside _ _ _ _ (by rw [htl]; exact hfit) (by rw [htl]; exact hi)
      · have hw := myWrite_fault d user_buffer user_lenght offset h0 h1 (by rw [ha]; omega)
        rw [ha] at hw
        have htl := copy_from_user_length user_buffer a
        refine ⟨_, hw, fun i hi => ?_⟩
        exact storeBytes_outside _ _ _ _ (by rw [htl]; exact hfit) (by rw [htl]; exact hi)

end CharDev

namespace MultiDevOther

open CharDev (Byte Dev MAX_SIZE inBounds storeBytes loadBytes copy_to_user copy_from_user
  s64 s32 u64 bytes_to_read_eq bytes_to_write_eq s64_eq_self u64_eq_toNat)

/-- In the states of the data model `myRead` of the other version agrees with `myRead`
of `using_misc_driver_with_yours.c`. -/
theorem other_myRead_eq (d : Dev) (user_room user_length : Nat) (offset : Int)
    (h0 : 0 ≤ offset) (h2 : d.kernel_buffer_index ≤ MAX_SIZE) :
    myRead d user_room user_length offset = CharDev.myRead d user_room user_length offset := by
  unfold myRead CharDev.myRead
  by_cases hge : offset ≥ d.kernel_buffer_index
  · rw [if_pos hge, if_pos hge]
  · rw [if_neg hge, if_neg hge]
    have h1 : offset < d.kernel_buffer_index := by omega
    have hb := bytes_to_read_eq user_length offset d.kernel_buffer_index h0 h1 h2
    simp only [hb]
    generalize min user_length (d.kernel_buffer_index - offset).toNat = a
    by_cases hz : (a : Int) = 0
    · have ha : a = 0 := by omega
      subst ha
      have hin : inBounds offset 0 := ⟨h0, by simp only [MAX_SIZE] at *; omega⟩
      have hs : s64 offset = offset :=
        s64_eq_self (by omega) (by simp only [MAX_SIZE] at *; omega)
      simp [u64, hin, copy_to_user, loadBytes, hs]
    · rw [if_neg hz]

/-- For a request that is not empty `myWrite` of the other version agrees with `myWrite`
of `using_misc_driver_with_yours.c`. -/
theorem other_myWrite_eq (d : Dev) (user_buffer : List Byte) (user_length : Nat) (offset : Int)
    (h0 : 0 ≤ offset) (hn : 0 < user_length) :
    myWrite d user_buffer user_length offset
      = CharDev.myWrite d user_buffer user_length offset := by
  unfold myWrite CharDev.myWrite
  by_cases hge : offset ≥ (MAX_SIZE : Int)
  · rw [if_pos hge, if_pos hge]
  · rw [if_neg hge, if_neg hge]
    have h1 : offset < MAX_SIZE := by omega
    have hb := bytes_to_write_eq user_length offset h0 h1
    simp only [hb]
    have hz : ¬ (((min user_length (MAX_SIZE - offset.toNat) : Nat) : Int) = 0) := by
      simp only [MAX_SIZE] at *; omega
    rw [if_neg hz]

/-- An empty request below `MAX_SIZE` stores nothing in the buffer. -/
theorem other_myWrite_empty (d : Dev) (user_buffer : List Byte) (offset : Int)
    (h0 : 0 ≤ offset) (h1 : offset < MAX_SIZE) :
    ∃ r, myWrite d user_buffer 0 offset = some r ∧ r.dev.kernel_buffer = d.kernel_buffer := by
  have hin : inBounds offset 0 := ⟨h0, by simp only [MAX_SIZE] at *; omega⟩
  have hst : storeBytes d.kernel_buffer offset [] = d.kernel_buffer := by
    simp [storeBytes]
  unfold myWrite
  rw [if_neg (by omega)]
  simp only [Nat.zero_min, Nat.cast_zero]
  have e0 : s64 0 = 0 := by decide
  have u0 : u64 0 = 0 := by decide
  simp only [e0, u0, if_pos hin, copy_from_user, Nat.zero_min, List.take_zero, Nat.sub_self,
    List.replicate_zero, List.append_nil, hst, ne_eq, not_true_eq_false, if_false]
  split
  · exact ⟨_, rfl, rfl⟩
  · exact ⟨_, rfl, rfl⟩

end MultiDevOther

namespace CharDev

/-- C27: In-bounds access.  Under the state invariant (`cursor ≥ 0`, high-water mark at
most `MAX_SIZE`, buffer of `MAX_SIZE` bytes), for every requested length `myRead` and
`myWrite` (of `using_misc_driver_with_yours.c` and of the other version of the
multi-instance driver) return, so the out-of-range branch is not reached; what `myRead`
stores at the caller comes from `[cursor, cursor + actual)` with
`actual = min n (valid_length - cursor)`, whose indices lie in `[0, valid_length)` and in
`[0, MAX_SIZE)`; `myWrite` changes no byte outside `[cursor, cursor + actual)` with
`actual = min n (MAX_SIZE - cursor)`, whose indices lie in `[0, MAX_SIZE)`. -/
theorem in_bounds_access (d : Dev) (user_room user_lenght : Nat) (user_buffer : List Byte)
    (offset : Int) (hlen : d.kernel_buffer.length = MAX_SIZE) (h0 : 0 ≤ offset)
    (hk : d.kernel_buffer_index ≤ MAX_SIZE) :
    (∃ r, myRead d user_room user_lenght offset = some r ∧
      r.user_buffer = (loadBytes d.kernel_buffer offset
        (min user_lenght (d.kernel_buffer_index - offset).toNat)).take
          (min (min user_lenght (d.kernel_buffer_index - offset).toNat) user_room)) ∧
    (∃ r, MultiDevOther.myRead d user_room user_lenght offset = some r ∧
      r.user_buffer = (loadBytes d.kernel_buffer offset
        (min user_lenght (d.kernel_buffer_index - offset).toNat)).take
          (min (min user_lenght (d.kernel_buffer_index - offset).toNat) user_room)) ∧
    (∀ i : Int, offset ≤ i →
      i < offset + (min user_lenght (d.kernel_buffer_index - offset).toNat : Nat) →
      0 ≤ i ∧ i < d.kernel_buffer_index ∧ i < MAX_SIZE) ∧
    (∃ r, myWrite d user_buffer user_lenght offset = some r ∧
      ∀ i : Nat, i < offset.toNat ∨
          offset.toNat + min user_lenght (MAX_SIZE - offset.toNat) ≤ i →
        r.dev.kernel_buffer[i]? = d.kernel_buffer[i]?) ∧
    (∃ r, MultiDevOther.myWrite d user_buffer user_lenght offset = some r ∧
      ∀ i : Nat, i < offset.toNat ∨
          offset.toNat + min user_lenght (MAX_SIZE - offset.toNat) ≤ i →
        r.dev.kernel_buffer[i]? = d.kernel_buffer[i]?) ∧
    (∀ i : Int, offset ≤ i →
      i < offset + (min user_lenght (MAX_SIZE - offset.toNat) : Nat) →
      0 ≤ i ∧ i < MAX_SIZE) := by
  refine ⟨myRead_copied d user_room user_lenght offset h0 hk, ?_, ?_,
    myWrite_frame d user_buffer user_lenght offset hlen h0, ?_, ?_⟩
  · rw [MultiDevOther.other_myRead_eq d user_room user_lenght offset h0 hk]
    exact myRead_copied d user_room user_lenght offset h0 hk
  · intro i h1 h2
    simp only [MAX_SIZE] at *
    omega
  · by_cases hn : user_lenght = 0
    · subst hn
      by_cases hge : offset ≥ (MAX_SIZE : Int)
      · exact ⟨⟨-ENOSPC, offset, d⟩,
          by unfold MultiDevOther.myWrite; rw [if_pos hge], fun _ _ => rfl⟩
      · obtain ⟨r, hr, hbuf⟩ :=
          MultiDevOther.other_myWrite_empty d user_buffer offset h0 (by omega)
        exact ⟨r, hr, fun i _ => by rw [hbuf]⟩
    · rw [MultiDevOther.other_myWrite_eq d user_buffer user_lenght offset h0 (by omega)]
      exact myWrite_frame d user_buffer user_lenght offset hlen h0
  · intro i h1 h2
    simp only [MAX_SIZE] at *
    omega

/-- C27, at a concrete input: a buffer of bytes `7` with high-water mark 10, cursor 4,
requests of 100 bytes, a destination of 100 bytes and a source of 2 readable bytes. -/
theorem in_bounds_access_witness :
    (∃ r, myRead ⟨List.replicate 1024 7, 10⟩ 100 100 4 = some r ∧
      r.user_buffer = (loadBytes (⟨List.replicate 1024 7, 10⟩ : Dev).kernel_buffer 4
        (min 100 ((⟨List.replicate 1024 7, 10⟩ : Dev).kernel_buffer_index - 4).toNat)).take
          (min (min 100 ((⟨List.replicate 1024 7, 10⟩ : Dev).kernel_buffer_index - 4).toNat)
            100)) ∧
    (∃ r, MultiDevOther.myRead ⟨List.replicate 1024 7, 10⟩ 100 100 4 = some r ∧
      r.user_buffer = (loadBytes (⟨List.replicate 1024 7, 10⟩ : Dev).kernel_buffer 4
        (min 100 ((⟨List.replicate 1024 7, 10⟩ : Dev).kernel_buffer_index - 4).toNat)).take
          (min (min 100 ((⟨List.replicate 1024 7, 10⟩ : Dev).kernel_buffer_index - 4).toNat)
            100)) ∧
    (∀ i : Int, 4 ≤ i →
      i < 4 + (min 100 ((⟨List.replicate 1024 7, 10⟩ : Dev).kernel_buffer_index - 4).toNat
        : Nat) →
      0 ≤ i ∧ i < (⟨List.replicate 1024 7, 10⟩ : Dev).kernel_buffer_index ∧ i < MAX_SIZE) ∧
    (∃ r, myWrite ⟨List.replicate 1024 7, 10⟩ [1, 2] 100 4 = some r ∧
      ∀ i : Nat, i < Int.toNat 4 ∨ Int.toNat 4 + min 100 (MAX_SIZE - Int.toNat 4) ≤ i →
        r.dev.kernel_buffer[i]? = (⟨List.replicate 1024 7, 10⟩ : Dev).kernel_buffer[i]?) ∧
    (∃ r, MultiDevOther.myWrite ⟨List.replicate 1024 7, 10⟩ [1, 2] 100 4 = some r ∧
      ∀ i : Nat, i < Int.toNat 4 ∨ Int.toNat 4 + min 100 (MAX_SIZE - Int.toNat 4) ≤ i →
        r.dev.kernel_buffer[i]? = (⟨List.replicate 1024 7, 10⟩ : Dev).kernel_buffer[i]?) ∧
    (∀ i : Int, 4 ≤ i → i < 4 + (min 100 (MAX_SIZE - Int.toNat 4) : Nat) →
      0 ≤ i ∧ i < MAX_SIZE) :=
  in_bounds_access ⟨List.replicate 1024 7, 10⟩ 100 100 [1, 2] 4 (List.length_replicate _ _)
    (by decide) (by decide)

end CharDev

namespace SingleOpen

open CharDev (s32 EBUSY)

/-- Holding and refused callers together are at most all callers. -/
theorem holding_refused_le_length (l : List Caller) :
    l.count Caller.holding + l.count Caller.refused ≤ l.length := by
  induction l with
  | nil => simp
  | cons x l ih =>
    cases x <;> simp [List.count_cons] <;> omega

/-- Every atomic step keeps the invariant of the interleaved gate. -/
theorem concStep_inv (n : Nat) (hn : n < 2147483648) (s : ConcSys) (i : Nat)
    (h : ConcInv n s) : ConcInv n (concStep s i) := by
  obtain ⟨hl, hc, hh⟩ := h
  unfold concStep
  cases hget : s.callers[i]? with
  | none => exact ⟨hl, hc, hh⟩
  | some x =>
    obtain ⟨hlt, hval⟩ := List.getElem?_eq_some_iff.mp hget
    have hmem : x ∈ s.callers := by rw [← hval]; exact List.getElem_mem hlt
    cases x with
    | idle =>
      have hr := holding_refused_le_length (s.callers.set i Caller.refused)
      have c1 : (s.callers.set i Caller.refused).count Caller.holding
          = s.callers.count Caller.holding := by
        rw [List.count_set _ _ _ _ hlt, hval]; simp
      have c2 : (s.callers.set i Caller.refused).count Caller.refused
          = s.callers.count Caller.refused + 1 := by
        rw [List.count_set _ _ _ _ hlt, hval]; simp
      have c3 : (s.callers.set i Caller.holding).count Caller.holding
          = s.callers.count Caller.holding + 1 := by
        rw [List.count_set _ _ _ _ hlt, hval]; simp
      have c4 : (s.callers.set i Caller.holding).count Caller.refused
          = s.callers.count Caller.refused := by
        rw [List.count_set _ _ _ _ hlt, hval]; simp
      rw [c1, c2, List.length_set, hl] at hr
      have hdec : s32 (s.device_available - 1) = s.device_available - 1 := by
        unfold s32; omega
      simp only [atomic_dec_and_test, hdec]
      by_cases hz : s.device_available - 1 = 0
      · have hd : decide (s.device_available - 1 = 0) = true := decide_eq_true hz
        simp only [hd, if_true]
        rw [if_neg (by decide)]
        refine ⟨by rw [List.length_set]; exact hl, ?_, ?_⟩
        · show s.device_available - 1 = _
          rw [c3, c4]; omega
        · show (s.callers.set i Caller.holding).count Caller.holding ≤ 1
          rw [c3]; omega
      · have hd : decide (s.device_available - 1 = 0) = false := decide_eq_false hz
        simp only [hd, Bool.false_eq_true, if_false]
        rw [if_pos trivial]
        refine ⟨by rw [List.length_set]; exact hl, ?_, ?_⟩
        · show s.device_available - 1 = _
          rw [c1, c2]; omega
        · show (s.callers.set i Caller.refused).count Caller.holding ≤ 1
          rw [c1]; exact hh
    | refused =>
      have hr := holding_refused_le_length s.callers
      have hpos : 1 ≤ s.callers.count Caller.refused := List.one_le_count_iff.mpr hmem
      have c1 : (s.callers.set i Caller.idle).count Caller.holding
          = s.callers.count Caller.holding := by
        rw [List.count_set _ _ _ _ hlt, hval]; simp
      have c2 : (s.callers.set i Caller.idle).count Caller.refused
          = s.callers.count Caller.refused - 1 := by
        rw [List.count_set _ _ _ _ hlt, hval]; simp
      have hinc : s32 (s.device_available + 1) = s.device_available + 1 := by
        unfold s32; omega
      refine ⟨by rw [List.length_set]; exact hl, ?_, ?_⟩
      · show atomic_inc s.device_available = _
        rw [c1, c2, atomic_inc, hinc]; omega
      · show (s.callers.set i Caller.idle).count Caller.holding ≤ 1
        rw [c1]; exact hh
    | holding =>
      have hr := holding_refused_le_length s.callers
      have hpos : 1 ≤ s.callers.count Caller.holding := List.one_le_count_iff.mpr hmem
      have c1 : (s.callers.set i Caller.idle).count Caller.holding
          = s.callers.count Caller.holding - 1 := by
        rw [List.count_set _ _ _ _ hlt, hval]; simp
      have c2 : (s.callers.set i Caller.idle).count Caller.refused
          = s.callers.count Caller.refused := by
        rw [List.count_set _ _ _ _ hlt, hval]; simp
      have hinc : s32 (s.device_available + 1) = s.device_available + 1 := by
        unfold s32; omega
      refine ⟨by rw [List.length_set]; exact hl, ?_, ?_⟩
      · show (myRelease s.device_available).2 = _
        rw [c1, c2]
        show atomic_inc s.device_available = _
        rw [atomic_inc, hinc]; omega
      · show (s.callers.set i Caller.idle).count Caller.holding ≤ 1
        rw [c1]; omega

/-- Every interleaving keeps the invariant of the interleaved gate. -/
theorem concRun_inv (n : Nat) (hn : n < 2147483648) (schedule : List Nat) :
    ∀ s : ConcSys, ConcInv n s → ConcInv n (concRun s schedule) := by
  induction schedule with
  | nil => exact fun s h => h
  | cons i schedule ih => exact fun s h => ih _ (concStep_inv n hn s i h)

/-- An `open` that runs without interference is `myOpen`: on a state of one idle caller,
the decrement step followed, when refused, by the increment step leaves the counter
that `myOpen` leaves. -/
theorem concStep_sequential (device_available f_pos : Int) :
    (if (myOpen device_available f_pos).ret = 0
      then concStep ⟨device_available, [Caller.idle]⟩ 0
      else concStep (concStep ⟨device_available, [Caller.idle]⟩ 0) 0).device_available
      = (myOpen device_available f_pos).device_available := by
  by_cases hz : s32 (device_available - 1) = 0
  · simp [myOpen, concStep, atomic_dec_and_test, hz]
  · simp [myOpen, concStep, atomic_dec_and_test, hz, EBUSY]

/-- C21: Mutual exclusion under concurrency.  With `n` callers (fewer than `2^31`), each
`atomic_dec_and_test` and each `atomic_inc` being one atomic step and a close issued only
by a caller whose open succeeded, after every interleaving of the callers' steps at most
one caller holds the gate, and no two different callers hold it. -/
theorem mutual_exclusion (n : Nat) (schedule : List Nat) (hn : n < 2147483648) :
    (concRun (concInit n) schedule).callers.count Caller.holding ≤ 1 ∧
    ∀ i j : Nat, (concRun (concInit n) schedule).callers[i]? = some Caller.holding →
      (concRun (concInit n) schedule).callers[j]? = some Caller.holding → i = j := by
  have hinit : ConcInv n (concInit n) := by
    refine ⟨List.length_replicate _ _, ?_, ?_⟩
    · show (1 : Int) = _
      simp [concInit, List.count_replicate]
    · simp [concInit, List.count_replicate]
  obtain ⟨_, _, hh⟩ := concRun_inv n hn schedule _ hinit
  refine ⟨hh, fun i j hi hj => ?_⟩
  by_contra hne
  generalize (concRun (concInit n) schedule).callers = l at hh hi hj
  obtain ⟨hilt, hival⟩ := List.getElem?_eq_some_iff.mp hi
  have hcs := List.count_set Caller.idle Caller.holding l i hilt
  rw [hival] at hcs
  have hj2 : (l.set i Caller.idle)[j]? = some Caller.holding := by
    rw [List.getElem?_set_ne hne]; exact hj
  obtain ⟨hjlt, hjval⟩ := List.getElem?_eq_some_iff.mp hj2
  have hmem : Caller.holding ∈ l.set i Caller.idle := by
    rw [← hjval]; exact List.getElem_mem hjlt
  have hpos : 1 ≤ (l.set i Caller.idle).count Caller.holding :=
    List.one_le_count_iff.mpr hmem
  have hpos2 : 1 ≤ l.count Caller.holding :=
    List.one_le_count_iff.mpr (by rw [← hival]; exact List.getElem_mem hilt)
  simp at hcs
  omega

/-- C21, at a concrete input: three callers and the interleaving in which caller 0 is
granted, caller 1 is refused, caller 0 closes, and caller 2 is refused and then
granted. -/
theorem mutual_exclusion_witness :
    (concRun (concInit 3) [0, 1, 0, 2, 1, 2, 2]).callers.count Caller.holding ≤ 1 ∧
    ∀ i j : Nat,
      (concRun (concInit 3) [0, 1, 0, 2, 1, 2, 2]).callers[i]? = some Caller.holding →
      (concRun (concInit 3) [0, 1, 0, 2, 1, 2, 2]).callers[j]? = some Caller.holding →
      i = j :=
  mutual_exclusion 3 [0, 1, 0, 2, 1, 2, 2] (by decide)

end SingleOpen

namespace MultiDevOther

open CharDev (Byte Dev MAX_SIZE inBounds storeBytes loadBytes copy_to_user copy_from_user
  s64 s32 u64)

/-- An empty request below `MAX_SIZE` is answered with 0 in the other version. -/
theorem other_myWrite_empty_ret (d : Dev) (user_buffer : List Byte) (offset : Int)
    (h0 : 0 ≤ offset) (h1 : offset < MAX_SIZE) :
    ∃ r, myWrite d user_buffer 0 offset = some r ∧ r.ret = 0 := by
  have hin : inBounds offset 0 := ⟨h0, by simp only [MAX_SIZE] at *; omega⟩
  unfold myWrite
  rw [if_neg (by omega)]
  simp only [Nat.zero_min, Nat.cast_zero]
  have e0 : s64 0 = 0 := by decide
  have u0 : u64 0 = 0 := by decide
  simp only [e0, u0, if_pos hin, copy_from_user, Nat.zero_min, List.take_zero, Nat.sub_self,
    List.replicate_zero, List.append_nil, ne_eq, not_true_eq_false, if_false]
  split
  · exact ⟨_, rfl, rfl⟩
  · exact ⟨_, rfl, rfl⟩

end MultiDevOther

namespace CharDev

/-- C12, amended: for every state with `cursor ≥ 0` and every write request, `myWrite`
returns, and if it reports `-ENOSPC` then the remaining capacity at the cursor is zero
(`cursor ≥ MAX_SIZE`) or the requested length is zero.  This holds of `myWrite` of
`using_misc_driver_with_yours.c`; of `myWrite` of the other version of the
multi-instance driver, which has no test for an empty copy, `-ENOSPC` implies
`cursor ≥ MAX_SIZE`. -/
theorem nospace_implies_full_or_empty (d : Dev) (user_buffer : List Byte)
    (user_lenght : Nat) (offset : Int) (h0 : 0 ≤ offset) :
    (∃ r, myWrite d user_buffer user_lenght offset = some r ∧
      (r.ret = -ENOSPC → offset ≥ MAX_SIZE ∨ user_lenght = 0)) ∧
    (∃ r, MultiDevOther.myWrite d user_buffer user_lenght offset = some r ∧
      (r.ret = -ENOSPC → offset ≥ MAX_SIZE)) := by
  obtain ⟨r, hr, hiff⟩ := nospace_iff d user_buffer user_lenght offset h0
  refine ⟨⟨r, hr, hiff.mp⟩, ?_⟩
  by_cases hn : user_lenght = 0
  · subst hn
    by_cases hge : offset ≥ (MAX_SIZE : Int)
    · exact ⟨⟨-ENOSPC, offset, d⟩,
        by unfold MultiDevOther.myWrite; rw [if_pos hge], fun _ => hge⟩
    · obtain ⟨r2, hr2, hret⟩ :=
        MultiDevOther.other_myWrite_empty_ret d user_buffer offset h0 (by omega)
      refine ⟨r2, hr2, fun h => ?_⟩
      rw [hret] at h
      exact absurd h (by decide)
  · rw [MultiDevOther.other_myWrite_eq d user_buffer user_lenght offset h0 (by omega)]
    refine ⟨r, hr, fun h => ?_⟩
    rcases hiff.mp h with h2 | h2
    · exact h2
    · exact absurd h2 hn

/-- C12, amended, at a concrete input: an empty request at cursor 0 of a fresh instance,
answered with `-ENOSPC` by the one `myWrite` and with 0 by the other. -/
theorem nospace_implies_full_or_empty_witness :
    myWrite fresh [] 0 0 = some ⟨-ENOSPC, 0, fresh⟩ ∧
    MultiDevOther.myWrite fresh [] 0 0 = some ⟨0, 0, fresh⟩ ∧
    ((∃ r, myWrite fresh [] 0 0 = some r ∧
      (r.ret = -ENOSPC → (0 : Int) ≥ MAX_SIZE ∨ (0 : Nat) = 0)) ∧
     (∃ r, MultiDevOther.myWrite fresh [] 0 0 = some r ∧
      (r.ret = -ENOSPC → (0 : Int) ≥ MAX_SIZE))) :=
  ⟨by rfl, by rfl, nospace_implies_full_or_empty fresh [] 0 0 (by decide)⟩

end CharDev

namespace SingleOpen

open CharDev (s32 EBUSY)

/-- The decrement step of an idle caller in a state of the interleaved gate: granted
from the counter 1, refused from any other counter. -/
theorem concStep_idle (n : Nat) (hn : n < 2147483648) (s : ConcSys) (j : Nat)
    (h : ConcInv n s) (hj : s.callers[j]? = some Caller.idle) :
    concStep s j = if s.device_available = 1
      then ⟨0, s.callers.set j Caller.holding⟩
      else ⟨s.device_available - 1, s.callers.set j Caller.refused⟩ := by
  obtain ⟨hl, hc, hh⟩ := h
  obtain ⟨hlt, hval⟩ := List.getElem?_eq_some_iff.mp hj
  have hr := holding_refused_le_length (s.callers.set j Caller.refused)
  have c1 : (s.callers.set j Caller.refused).count Caller.holding
      = s.callers.count Caller.holding := by
    rw [List.count_set _ _ _ _ hlt, hval]; simp
  have c2 : (s.callers.set j Caller.refused).count Caller.refused
      = s.callers.count Caller.refused + 1 := by
    rw [List.count_set _ _ _ _ hlt, hval]; simp
  rw [c1, c2, List.length_set, hl] at hr
  have hdec : s32 (s.device_available - 1) = s.device_available - 1 := by
    unfold s32; omega
  unfold concStep
  simp only [hj, atomic_dec_and_test, hdec]
  by_cases hz : s.device_available = 1
  · have hd : decide (s.device_available - 1 = 0) = true := decide_eq_true (by omega)
    simp only [hd, if_true]
    rw [if_neg (by decide), if_pos hz]
    congr 1
    omega
  · have hd : decide (s.device_available - 1 = 0) = false := decide_eq_false (by omega)
    simp only [hd, Bool.false_eq_true, if_false]
    rw [if_pos trivial, if_neg hz]

/-- The increment step of a refused caller in a state of the interleaved gate. -/
theorem concStep_refused (n : Nat) (hn : n < 2147483648) (s : ConcSys) (j : Nat)
    (h : ConcInv n s) (hj : s.callers[j]? = some Caller.refused) :
    concStep s j = ⟨s.device_available + 1, s.callers.set j Caller.idle⟩ := by
  obtain ⟨hl, hc, hh⟩ := h
  have hr := holding_refused_le_length s.callers
  have hinc : s32 (s.device_available + 1) = s.device_available + 1 := by
    unfold s32; omega
  unfold concStep
  simp only [hj, atomic_inc, hinc]

/-- The close step of a holding caller in a state of the interleaved gate. -/
theorem concStep_holding (n : Nat) (hn : n < 2147483648) (s : ConcSys) (i : Nat)
    (h : ConcInv n s) (hi : s.callers[i]? = some Caller.holding) :
    concStep s i = ⟨s.device_available + 1, s.callers.set i Caller.idle⟩ := by
  obtain ⟨hl, hc, hh⟩ := h
  have hr := holding_refused_le_length s.callers
  have hinc : s32 (s.device_available + 1) = s.device_available + 1 := by
    unfold s32; omega
  unfold concStep
  simp only [hi, myRelease, atomic_inc, hinc]

/-- The state before any call satisfies the invariant of the interleaved gate. -/
theorem concInit_inv (n : Nat) : ConcInv n (concInit n) := by
  refine ⟨List.length_replicate _ _, ?_, ?_⟩
  · show (1 : Int) = _
    simp [concInit, List.count_replicate]
  · simp [concInit, List.count_replicate]

/-- A caller that holds the gate is the only holder. -/
theorem holder_count (n : Nat) (s : ConcSys) (i : Nat) (h : ConcInv n s)
    (hi : s.callers[i]? = some Caller.holding) : s.callers.count Caller.holding = 1 := by
  obtain ⟨hlt, hval⟩ := List.getElem?_eq_some_iff.mp hi
  have hmem : Caller.holding ∈ s.callers := hval ▸ List.getElem_mem hlt
  have h1 := List.one_le_count_iff.mpr hmem
  have h2 := h.2.2
  omega

/-- The state of an idle caller after its decrement step. -/
theorem concStep_idle_caller (n : Nat) (hn : n < 2147483648) (s : ConcSys) (j : Nat)
    (h : ConcInv n s) (hj : s.callers[j]? = some Caller.idle) :
    (concStep s j).callers[j]? =
      some (if s.device_available = 1 then Caller.holding else Caller.refused) := by
  obtain ⟨hlt, _⟩ := List.getElem?_eq_some_iff.mp hj
  rw [concStep_idle n hn s j h hj]
  by_cases hz : s.device_available = 1
  · rw [if_pos hz, if_pos hz]
    exact List.getElem?_set_self hlt
  · rw [if_neg hz, if_neg hz]
    exact List.getElem?_set_self hlt

/-- C24, amended: under every interleaving of `n` callers (fewer than `2^31`), a refused
`open` adds one back to the counter with `atomic_inc`, undoing its own decrement; when
the call returns, the counter is 1 minus the number of callers that hold the gate or are
between the decrement and the increment of a refused `open`, so it is 1 exactly when
there is no such caller, and while a session holds the gate it is not 1 but at most 0,
and 0 when no other `open` is in progress.  A refused `myOpen` that runs without
interference leaves the counter at the value it had before the call, which is not 1. -/
theorem busy_undoes_decrement (n : Nat) (schedule : List Nat) (s : ConcSys) (j : Nat)
    (hn : n < 2147483648) (hs : s = concRun (concInit n) schedule)
    (hj : s.callers[j]? = some Caller.refused) :
    (concStep s j).device_available = atomic_inc s.device_available ∧
    (concStep s j).device_available = s.device_available + 1 ∧
    (concStep s j).callers[j]? = some Caller.idle ∧
    (concStep s j).device_available = 1 -
      (((concStep s j).callers.count Caller.holding
        + (concStep s j).callers.count Caller.refused : Nat) : Int) ∧
    ((concStep s j).device_available = 1 ↔
      (concStep s j).callers.count Caller.holding = 0 ∧
      (concStep s j).callers.count Caller.refused = 0) ∧
    (∀ i : Nat, (concStep s j).callers[i]? = some Caller.holding →
      (concStep s j).device_available ≤ 0 ∧ (concStep s j).device_available ≠ 1 ∧
      ((concStep s j).device_available = 0 ↔
        (concStep s j).callers.count Caller.refused = 0)) ∧
    (∀ device_available f_pos : Int,
      -2147483648 ≤ device_available → device_available < 2147483648 →
      (atomic_dec_and_test device_available).2 = false →
      myOpen device_available f_pos = ⟨-EBUSY, device_available, f_pos⟩ ∧
      device_available ≠ 1) := by
  have hinv : ConcInv n s := hs ▸ concRun_inv n hn schedule _ (concInit_inv n)
  obtain ⟨hlt, _⟩ := List.getElem?_eq_some_iff.mp hj
  have hstep := concStep_refused n hn s j hinv hj
  have hinv2 : ConcInv n (concStep s j) := concStep_inv n hn s j hinv
  have hr := holding_refused_le_length s.callers
  have hl := hinv.1
  have hc := hinv.2.1
  refine ⟨?_, ?_, ?_, hinv2.2.1, ?_, ?_, ?_⟩
  · rw [hstep]
    show s.device_available + 1 = s32 (s.device_available + 1)
    unfold s32
    omega
  · rw [hstep]
  · rw [hstep]
    exact List.getElem?_set_self hlt
  · have := hinv2.2.1
    omega
  · intro i hi
    have hcount := holder_count n (concStep s j) i hinv2 hi
    have := hinv2.2.1
    rw [hcount] at this
    omega
  · intro device_available f_pos hlo hhi hbusy
    have h := busy_restores_counter device_available f_pos hlo hhi hbusy
    refine ⟨h.1, ?_⟩
    have h2 := h.2
    rw [h.1] at h2
    exact h2

/-- C24, amended, at concrete inputs: two callers; caller 0 holds the gate and caller 1
has been refused.  When caller 1 runs its `atomic_inc` while caller 0 still holds, the
counter goes from `-1` to 0; when caller 0 has closed first, it goes from 0 to 1. -/
theorem busy_undoes_decrement_witness :
    ((concRun (concInit 2) [0, 1]).callers[1]? = some Caller.refused ∧
      (concRun (concInit 2) [0, 1]).device_available = -1 ∧
      (concStep (concRun (concInit 2) [0, 1]) 1).callers[0]? = some Caller.holding ∧
      (concStep (concRun (concInit 2) [0, 1]) 1).device_available
        = (concRun (concInit 2) [0, 1]).device_available + 1 ∧
      (concStep (concRun (concInit 2) [0, 1]) 1).device_available ≠ 1) ∧
    ((concRun (concInit 2) [0, 1, 0]).callers[1]? = some Caller.refused ∧
      (concRun (concInit 2) [0, 1, 0]).device_available = 0 ∧
      (concStep (concRun (concInit 2) [0, 1, 0]) 1).device_available
        = (concRun (concInit 2) [0, 1, 0]).device_available + 1 ∧
      (concStep (concRun (concInit 2) [0, 1, 0]) 1).device_available = 1) ∧
    (myOpen 0 7 = ⟨-EBUSY, 0, 7⟩ ∧ (0 : Int) ≠ 1) := by
  have h1 := busy_undoes_decrement 2 [0, 1] (concRun (concInit 2) [0, 1]) 1
    (by decide) rfl (by decide)
  have h2 := busy_undoes_decrement 2 [0, 1, 0] (concRun (concInit 2) [0, 1, 0]) 1
    (by decide) rfl (by decide)
  exact ⟨⟨by decide, by decide, by decide, h1.2.1, (h1.2.2.2.2.2.1 0 (by decide)).2.1⟩,
    ⟨by decide, by decide, h2.2.1, h2.2.2.2.2.1.mpr (by decide)⟩,
    h1.2.2.2.2.2.2 0 7 (by decide) (by decide) (by decide)⟩

/-- C25, as stated, fails when calls overlap: with two callers, caller 0 holds the gate
and caller 1 has been refused and has not yet run its `atomic_inc`, so the counter is
`-1`; the close by caller 0 leaves the counter at 0, not 1, and the next `open`, again by
caller 0, is refused. -/
theorem release_leaves_counter_zero :
    (concRun (concInit 2) [0, 1]).callers = [Caller.holding, Caller.refused] ∧
    (concRun (concInit 2) [0, 1]).device_available = -1 ∧
    myRelease (-1) = (0, 0) ∧
    (concRun (concInit 2) [0, 1, 0]).device_available = 0 ∧
    (concRun (concInit 2) [0, 1, 0]).callers = [Caller.idle, Caller.refused] ∧
    (concRun (concInit 2) [0, 1, 0, 0]).callers = [Caller.refused, Caller.refused] := by
  decide

/-- C25, amended: `myRelease` tests nothing and adds one to the counter, which gives 1
exactly from 0.  Under every interleaving of `n` callers (fewer than `2^31`), the close
by the caller that holds the gate leaves the counter at 1 minus the number of refused
`open` calls that are between their decrement and their increment; it leaves 1, and the
next `open` is granted, exactly when there is no such call, and otherwise the next
`open` is refused.  For calls that do not overlap there is never such a call: closing an
open session leaves the counter at 1 and the next `open` returns 0. -/
theorem release_adds_one (n : Nat) (schedule : List Nat) (s : ConcSys) (i j : Nat)
    (hn : n < 2147483648) (hs : s = concRun (concInit n) schedule)
    (hi : s.callers[i]? = some Caller.holding) :
    (∀ device_available : Int,
      myRelease device_available = (0, atomic_inc device_available) ∧
      (-2147483648 ≤ device_available → device_available < 2147483648 →
        ((myRelease device_available).2 = 1 ↔ device_available = 0))) ∧
    (concStep s i).device_available = (myRelease s.device_available).2 ∧
    (concStep s i).device_available = s.device_available + 1 ∧
    (concStep s i).callers[i]? = some Caller.idle ∧
    (concStep s i).device_available = 1 - ((s.callers.count Caller.refused : Nat) : Int) ∧
    ((concStep s i).device_available = 1 ↔ s.callers.count Caller.refused = 0) ∧
    ((concStep s i).callers[j]? = some Caller.idle →
      ((concStep (concStep s i) j).callers[j]? = some Caller.holding ↔
        s.callers.count Caller.refused = 0) ∧
      ((concStep (concStep s i) j).callers[j]? = some Caller.refused ↔
        s.callers.count Caller.refused ≠ 0)) ∧
    (∀ (ops : List GateOp) (k : Nat), k < (gateRun init ops).sessions.length →
      (sysClose (gateRun init ops) k).device_available = 1 ∧
      (sysOpen (sysClose (gateRun init ops) k)).1 = 0) := by
  have hinv : ConcInv n s := hs ▸ concRun_inv n hn schedule _ (concInit_inv n)
  have hcount := holder_count n s i hinv hi
  obtain ⟨hlti, hvali⟩ := List.getElem?_eq_some_iff.mp hi
  have hda : s.device_available = -((s.callers.count Caller.refused : Nat) : Int) := by
    have := hinv.2.1
    rw [hcount] at this
    omega
  have hclose := concStep_holding n hn s i hinv hi
  have hinv2 : ConcInv n (concStep s i) := concStep_inv n hn s i hinv
  have hr := holding_refused_le_length s.callers
  have hl := hinv.1
  have hda2 : (concStep s i).device_available
      = 1 - ((s.callers.count Caller.refused : Nat) : Int) := by
    rw [hclose]
    show s.device_available + 1 = _
    omega
  refine ⟨?_, ?_, ?_, ?_, hda2, ?_, ?_, ?_⟩
  · intro device_available
    refine ⟨rfl, fun hlo hhi => ?_⟩
    show s32 (device_available + 1) = 1 ↔ device_available = 0
    unfold s32
    omega
  · rw [hclose]
    show s.device_available + 1 = s32 (s.device_available + 1)
    unfold s32
    omega
  · rw [hclose]
  · rw [hclose]
    exact List.getElem?_set_self hlti
  · rw [hda2]
    omega
  · intro hj
    rw [concStep_idle_caller n hn _ j hinv2 hj]
    by_cases hz : s.callers.count Caller.refused = 0
    · have h1 : (concStep s i).device_available = 1 := by rw [hda2]; omega
      rw [if_pos h1]
      exact ⟨⟨fun _ => hz, fun _ => rfl⟩, ⟨fun h => absurd h (by decide), fun h => absurd hz h⟩⟩
    · have h1 : ¬ (concStep s i).device_available = 1 := by rw [hda2]; omega
      rw [if_neg h1]
      exact ⟨⟨fun h => absurd h (by decide), fun h => absurd h hz⟩, ⟨fun _ => hz, fun _ => rfl⟩⟩
  · intro ops k hk
    exact (release_after_acquire 0 ops k (by decide) (by decide) hk).2.2

/-- C25, amended, at a concrete input: two callers; caller 0 holds the gate and no other
call is in progress; its close takes the counter from 0 to 1 and the `open` by caller 1
that follows is granted. -/
theorem release_adds_one_witness :
    (concRun (concInit 2) [0]).callers[0]? = some Caller.holding ∧
    (concRun (concInit 2) [0]).device_available = 0 ∧
    (concRun (concInit 2) [0]).callers.count Caller.refused = 0 ∧
    myRelease 0 = (0, 1) ∧
    (concStep (concRun (concInit 2) [0]) 0).device_available = 1 ∧
    (concStep (concStep (concRun (concInit 2) [0]) 0) 1).callers[1]?
      = some Caller.holding := by
  have h := release_adds_one 2 [0] (concRun (concInit 2) [0]) 0 1 (by decide) rfl
    (by decide)
  exact ⟨by decide, by decide, by decide, by decide, h.2.2.2.2.2.1.mpr (by decide),
    (h.2.2.2.2.2.2.1 (by decide)).1.mpr (by decide)⟩

end SingleOpen
